import Mathlib

/-!
# Reliable file transfer over a lossy emulator: transmitter model

A shallow embedding of `Source/common.h`, `Source/packet.h` and
`Source/transmitter/src/transmitter.c` (namespace `Transmitter`), of the datagram
processing of `Source/network_emulator/src/networkemulator.cpp` (namespace `Emulator`:
`processPendingDatagram`, `averagePktDelay`, `dropPkt`, `relayPacket`, `recordPacket`,
`updatePacketTable`; the user interface and the log file are left out), and a model of
the receiver written from the specification, its source file being absent (namespace
`Receiver`).

Conventions of the embedding.

* C `int` and `long` values are mathematical integers (`Int`).  Window sizes, counters and
  sequence numbers stay far from the 32-bit range.  In `updateTimeoutInterval`, where a
  millisecond delay (a 64-bit `long`) is stored in an `int` and sums are formed in `int`,
  the results are reduced to the 32-bit range by `wrap32` (two's complement, modulo 2^32).
* C integer division truncates toward zero: `Int.tdiv`.
* The `double` arithmetic of `updateTimeoutInterval` only multiplies 32-bit integers by the
  dyadic constants 0.125, 0.25, 0.75, 0.875 and adds two such products, which is exact in
  binary64; it is modelled by exact rational arithmetic followed by the truncating
  conversion back to `int`.
* The singly linked list `struct node` is a `List Int` (head first).
* `arrPackets` is a `List Packet`; an access outside the list is undefined behaviour and
  makes the modelled function return `none`.
* `gettimeofday` and `recvfrom` are inputs: each iteration of the main loop receives an
  `Event` with the clock readings and the datagram (if any) of that iteration.
  `sendto` is assumed to succeed; every datagram handed to it is appended to `sent`.
-/

namespace Transmitter

/-! ## common.h -/

def NETWORK_EMULATOR_PORT : Int := 50001
def TRANSMITTER_PORT : Int := 50000
def RECEIVER_PORT : Int := 50002
def PAYLOAD_LEN : Nat := 256
def INITIAL_WINDOW_SIZE : Int := 1
def MAX_WINDOW_SIZE : Int := 20
def INITIAL_SEQ_NUM : Int := 1

/-- The C `struct timeval`: seconds and microseconds. -/
structure Timeval where
  tv_sec : Int
  tv_usec : Int
deriving DecidableEq, Repr

/-- Function `delay` of common.h: difference of two time values in milliseconds. -/
def delay (t1 t2 : Timeval) : Int :=
  let d := (t2.tv_sec - t1.tv_sec) * 1000
  d + Int.tdiv (t2.tv_usec - t1.tv_usec) 1000

/-! ## packet.h -/

inductive PacketType where
  | DATA
  | ACK
  | EOT
deriving DecidableEq, Repr

def MAX_READ_SIZE : Nat := 150
def INVALID_SEQ_NUM : Int := 0
def INVALID_ACK_NUM : Int := 0

/-- The C `struct packet`; `data` holds the bytes of the `char data[PAYLOAD_LEN]` array. -/
structure Packet where
  packetType : PacketType
  seqNum : Int
  data : List Nat
  windowSize : Int
  ackNum : Int
  retransmit : Bool
deriving DecidableEq, Repr

/-! ## transmitter.h -/

inductive State where
  | SendingPackets
  | WaitForACKs
  | AllACKsReceived
  | AllPacketsSent
deriving DecidableEq, Repr

def MAX_BUF_LEN : Int := 65000
def MAX_TIMEOUT_INTERVAL : Int := 5000
def DEFAULT_ESTIMATED_RTT : Int := 1000
def DEFAULT_DEV_RTT : Int := 250
def DEFAULT_RTT_ALPHA : ℚ := 0.125
def DEFAULT_RTT_BETA : ℚ := 0.25
def DEFAULT_READ_TIMEOUT : Int := 300

/-! ## transmitter.c: the unacknowledged list -/

/-- Function `appendToUnACKs`: a new node holding `seqNum` becomes the head of an empty
list, otherwise the list is traversed to its last node and the new node linked there. -/
def appendToUnACKs : List Int → Int → List Int
  | [], seqNum => [seqNum]
  | x :: last, seqNum => x :: appendToUnACKs last seqNum

/-- The search loop of `deleteFromUnACKs` (`while (temp != NULL && temp->data != seqNum)`)
followed by the unlinking of `temp`; the argument is the list starting at `temp`, the
result is what `prev->next` points to afterwards. -/
def unlinkFirst : List Int → Int → List Int
  | [], _ => []
  | x :: next, seqNum => if x ≠ seqNum then x :: unlinkFirst next seqNum else next

/-- Function `deleteFromUnACKs`: when the head holds `seqNum` the head is dropped and
nothing else happens (`temp = NULL`); otherwise the list is searched from the head. -/
def deleteFromUnACKs : List Int → Int → List Int
  | [], _ => []
  | x :: next, seqNum => if x = seqNum then next else unlinkFirst (x :: next) seqNum

/-- Function `getUnACKCount`: number of nodes in the list. -/
def getUnACKCount : List Int → Int
  | [] => 0
  | _ :: next => getUnACKCount next + 1

/-- Function `freeUnACKs`: every node is freed and the head set to `NULL`. -/
def freeUnACKs (_head : List Int) : List Int := []

/-! ## transmitter.c: the state of `main` -/

/-- The local variables of `main` that the main loop reads or writes, and the log `sent` of
datagrams passed to `sendto` (oldest first).  `arrPacketsPtr` is kept as an index into
`arrPackets`. -/
structure Vars where
  state : State
  windowSize : Int
  seqNum : Int
  timeoutInterval : Int
  estimatedRTT : Int
  devRTT : Int
  sampleRTT : Int
  unACKHead : List Int
  start : Timeval
  endTime : Timeval
  arrPackets : List Packet
  arrPacketsPtr : Int
  lineCounter : Int
  totalLines : Int
  sent : List Packet
deriving DecidableEq, Repr

/-- What the environment supplies to one iteration of the main loop: the values returned by
the first and (when one is made) the second `gettimeofday` call of the iteration, and the
frame stored by `recvfrom` (`none` when it returns a negative value). -/
structure Event where
  now : Timeval
  now2 : Timeval
  recv : Option Packet
deriving DecidableEq, Repr

/-- The state at `enum State state = SendingPackets;`: `arrPackets` is the buffer after the
file has been read into the `data` fields of its first `totalLines` entries, `t0` and `t1`
are the indeterminate initial contents of `start` and `end`. -/
def initVars (arrPackets : List Packet) (totalLines : Int) (t0 t1 : Timeval) : Vars :=
  { state := State.SendingPackets
    windowSize := INITIAL_WINDOW_SIZE
    seqNum := INITIAL_SEQ_NUM
    timeoutInterval := DEFAULT_ESTIMATED_RTT + 4 * DEFAULT_DEV_RTT
    estimatedRTT := DEFAULT_ESTIMATED_RTT
    devRTT := DEFAULT_DEV_RTT
    sampleRTT := 0
    unACKHead := []
    start := t0
    endTime := t1
    arrPackets := arrPackets
    arrPacketsPtr := 0
    lineCounter := 0
    totalLines := totalLines
    sent := [] }

/-- Conversion of a `double` to `int`: the fractional part is discarded. -/
def truncToInt (x : ℚ) : Int := Int.tdiv x.num x.den

/-- The value of a 32-bit `int` that holds `x` modulo 2^32 (two's complement): what the
conversion of a `long` to `int` stores, and what `int` addition, subtraction and
multiplication produce when the exact result does not fit. -/
def wrap32 (x : Int) : Int := (x + 2147483648) % 4294967296 - 2147483648

/-- The integer `x` is a value of the 32-bit `int`: `INT_MIN ≤ x ≤ INT_MAX`. -/
def fitsInt (x : Int) : Prop := -2147483648 ≤ x ∧ x ≤ 2147483647

instance (x : Int) : Decidable (fitsInt x) := by
  unfold fitsInt
  infer_instance

/-- Function `updateTimeoutInterval`, applied to the variables of `main` it is passed
pointers to.  The `long` returned by `delay` is stored in the `int` `*sampleRTT`; the
difference inside `abs`, the product `4 * (*devRTT)` and the sum of the last line are
computed in `int`; the two middle lines are computed in `double` and converted to `int`
(the converted value lies between its two `int` operands, so it fits). -/
def updateTimeoutInterval (v : Vars) : Vars :=
  let sampleRTT := wrap32 (delay v.start v.endTime)
  let estimatedRTT :=
    truncToInt ((1 - DEFAULT_RTT_ALPHA) * (v.estimatedRTT : ℚ) + DEFAULT_RTT_ALPHA * (sampleRTT : ℚ))
  let devRTT :=
    truncToInt ((1 - DEFAULT_RTT_BETA) * (v.devRTT : ℚ)
      + DEFAULT_RTT_BETA * ((wrap32 |wrap32 (sampleRTT - estimatedRTT)| : Int) : ℚ))
  let timeoutInterval :=
    if MAX_TIMEOUT_INTERVAL > wrap32 (estimatedRTT + wrap32 (4 * devRTT)) then
      wrap32 (estimatedRTT + wrap32 (4 * devRTT))
    else MAX_TIMEOUT_INTERVAL
  { v with sampleRTT := sampleRTT, estimatedRTT := estimatedRTT, devRTT := devRTT,
           timeoutInterval := timeoutInterval }

/-- Read `arr[i]` for a C `int` index; outside the array the access is undefined. -/
def readPacket (arr : List Packet) (i : Int) : Option Packet :=
  if 0 ≤ i then arr[i.toNat]? else none

/-- Function `retransmitUnACKs`: for every node of the list, `arrPackets[data - 1]` gets
`retransmit = true` (in the buffer itself) and is sent.  Returns the buffer afterwards and
the datagrams sent, in order. -/
def retransmitUnACKs : List Packet → List Int → Option (List Packet × List Packet)
  | arrPackets, [] => some (arrPackets, [])
  | arrPackets, data :: next =>
    match readPacket arrPackets (data - 1) with
    | none => none
    | some p =>
      let p1 := { p with retransmit := true }
      match retransmitUnACKs (arrPackets.set (data - 1).toNat p1) next with
      | none => none
      | some (arr, out) => some (arr, p1 :: out)

/-! ## transmitter.c: the main loop -/

/-- One pass through the body of the `for` loop of `SendingPackets`, up to and including
`sendto(socketFileDescriptor, arrPacketsPtr++, ...)`: the sequence number is appended to
the unacknowledged list, the fields of `arrPackets[lineCounter]` are initialised, and the
packet `arrPacketsPtr` points to is sent. -/
def sendNext (v : Vars) : Option Vars :=
  match readPacket v.arrPackets v.lineCounter with
  | none => none
  | some p =>
    let p1 : Packet :=
      { p with packetType := PacketType.DATA, seqNum := v.seqNum, windowSize := v.windowSize,
               ackNum := INVALID_ACK_NUM, retransmit := false }
    let arr := v.arrPackets.set v.lineCounter.toNat p1
    match readPacket arr v.arrPacketsPtr with
    | none => none
    | some out =>
      some { v with unACKHead := appendToUnACKs v.unACKHead v.seqNum, arrPackets := arr,
                    seqNum := v.seqNum + 1, arrPacketsPtr := v.arrPacketsPtr + 1,
                    sent := v.sent ++ [out] }

/-- The `for` loop of `SendingPackets` with the given number of iterations left
(`windowSize - windowCounter`).  The flag tells whether the loop was left through `break`
(last line sent). -/
def sendWindow : Nat → Event → Vars → Option (Vars × Bool)
  | 0, _, v => some (v, false)
  | k + 1, ev, v =>
    match sendNext v with
    | none => none
    | some v1 =>
      if v1.lineCounter + 1 = v1.totalLines then
        some ({ v1 with lineCounter := v1.lineCounter + 1, state := State.WaitForACKs,
                        start := ev.now }, true)
      else sendWindow k ev { v1 with lineCounter := v1.lineCounter + 1 }

/-- The `case SendingPackets:` of the main loop. -/
def sendingPackets (ev : Event) (v : Vars) : Option Vars :=
  match sendWindow v.windowSize.toNat ev v with
  | none => none
  | some (v1, broke) =>
    some { v1 with start := if broke then ev.now2 else ev.now, state := State.WaitForACKs }

/-- The timeout branch of `WaitForACKs`: retransmit, update the timeout interval, reset
`start`, halve the window. -/
def onTimeout (ev : Event) (v : Vars) : Option Vars :=
  match retransmitUnACKs v.arrPackets v.unACKHead with
  | none => none
  | some (arr, out) =>
    let v1 := updateTimeoutInterval { v with arrPackets := arr, sent := v.sent ++ out }
    some { v1 with start := ev.now2, windowSize := Int.tdiv v1.windowSize 2 }

/-- The `while (current != NULL)` loop of the receive branch; the first argument is the
list starting at `current`. -/
def findACK : List Int → Int → Vars → Vars
  | [], _, v => v
  | data :: next, ackNum, v =>
    if data = ackNum then
      let v1 := { v with unACKHead := deleteFromUnACKs v.unACKHead ackNum }
      if v1.windowSize ≠ MAX_WINDOW_SIZE then { v1 with windowSize := v1.windowSize + 1 }
      else v1
    else findACK next ackNum v

/-- The receive branch of `WaitForACKs` (`recvfrom(...) >= 0`), `pkt` being the content of
`*ACKPacketPtr` after the call. -/
def onReceive (pkt : Packet) (v : Vars) : Vars :=
  let v1 := updateTimeoutInterval v
  findACK v1.unACKHead pkt.ackNum v1

/-- The `case WaitForACKs:` of the main loop. -/
def waitForACKs (ev : Event) (v : Vars) : Option Vars :=
  if getUnACKCount v.unACKHead = 0 then some { v with state := State.AllACKsReceived }
  else
    let v1 := { v with endTime := ev.now }
    let afterTimeout :=
      if delay v1.start v1.endTime ≥ v1.timeoutInterval ∧ getUnACKCount v1.unACKHead > 0 then
        onTimeout ev v1
      else some v1
    match afterTimeout with
    | none => none
    | some v2 =>
      match ev.recv with
      | none => some v2
      | some pkt => some (onReceive pkt v2)

/-- The `case AllACKsReceived:` of the main loop. -/
def allACKsReceived (v : Vars) : Vars :=
  { v with state := if v.lineCounter = v.totalLines then State.AllPacketsSent
                    else State.SendingPackets,
           unACKHead := freeUnACKs v.unACKHead }

/-- One evaluation of the `switch (state)` inside `while (state != AllPacketsSent)`.  In
`AllPacketsSent` the loop has been left and nothing changes. -/
def loopBody (ev : Event) (v : Vars) : Option Vars :=
  match v.state with
  | State.SendingPackets => sendingPackets ev v
  | State.WaitForACKs => waitForACKs ev v
  | State.AllACKsReceived => some (allACKsReceived v)
  | State.AllPacketsSent => some v

/-- The main loop driven by a list of events, one per iteration. -/
def mainLoop : List Event → Vars → Option Vars
  | [], v => some v
  | ev :: evs, v =>
    match loopBody ev v with
    | none => none
    | some v1 => mainLoop evs v1

/-- The guard of the timeout branch (`delay(start, end) >= timeoutInterval &&
getUnACKCount(unACKHead) > 0`) is reached and holds in the iteration that `ev` drives. -/
def timeoutFires (ev : Event) (v : Vars) : Bool :=
  decide (v.state = State.WaitForACKs) && !decide (getUnACKCount v.unACKHead = 0)
    && decide (delay v.start ev.now ≥ v.timeoutInterval ∧ getUnACKCount v.unACKHead > 0)

/-- No iteration of the run takes the timeout branch. -/
def noTimeouts : List Event → Vars → Bool
  | [], _ => true
  | ev :: evs, v =>
    !timeoutFires ev v &&
      match loopBody ev v with
      | none => true
      | some v1 => noTimeouts evs v1

/-- A buffer entry as left by `fgets`: only `data` is meaningful. -/
def lineSlot (data : List Nat) : Packet :=
  { packetType := PacketType.DATA, seqNum := 0, data := data, windowSize := 0, ackNum := 0,
    retransmit := false }

/-- The text line `"a\n"` in a `char data[PAYLOAD_LEN]` array. -/
def lineA : List Nat := 97 :: 10 :: List.replicate 254 0

/-- The array `arrPackets[MAX_READ_SIZE]` after reading a file with the single line `a`. -/
def oneLineBuffer : List Packet :=
  lineSlot lineA :: List.replicate 149 (lineSlot (List.replicate 256 0))

/-- The array `arrPackets[MAX_READ_SIZE]` after reading an empty file. -/
def emptyFileBuffer : List Packet := List.replicate 150 (lineSlot (List.replicate 256 0))

/-- The clock reading `ms` milliseconds after time zero. -/
def atMs (ms : Int) : Timeval := { tv_sec := ms / 1000, tv_usec := (ms % 1000) * 1000 }

/-- An ACK frame for sequence number `ackNum`, as the receiver builds it. -/
def ackFrame (ackNum : Int) : Packet :=
  { packetType := PacketType.ACK, seqNum := INVALID_SEQ_NUM, data := List.replicate 256 0,
    windowSize := 1, ackNum := ackNum, retransmit := false }

/-- The first iteration only: the burst is sent at time 0. -/
def sendRun : List Event := [{ now := atMs 0, now2 := atMs 0, recv := none }]

/-- The one-line file is sent at time 0 and nothing arrives for two seconds: the timeout
branch runs once. -/
def timeoutRun : List Event :=
  [{ now := atMs 0, now2 := atMs 0, recv := none },
   { now := atMs 2000, now2 := atMs 2000, recv := none }]

/-- The one-line file is sent at time 0 and 40 ms later its ACK arrives. -/
def ackRun : List Event :=
  [{ now := atMs 0, now2 := atMs 0, recv := none },
   { now := atMs 40, now2 := atMs 40, recv := some (ackFrame 1) }]

/-- The variables after the first iteration of `sendRun` on the one-line file: sequence
number 1 is unacknowledged and the transmitter waits for ACKs. -/
def afterSend : Vars :=
  (mainLoop sendRun (initVars oneLineBuffer 1 (atMs 0) (atMs 0))).getD
    (initVars oneLineBuffer 1 (atMs 0) (atMs 0))

/-- A complete transfer of the one-line file: the burst, the ACK 40 ms later, and the two
iterations that take the loop through `AllACKsReceived` to `AllPacketsSent`. -/
def completeRun : List Event :=
  [{ now := atMs 0, now2 := atMs 0, recv := none },
   { now := atMs 40, now2 := atMs 40, recv := some (ackFrame 1) },
   { now := atMs 41, now2 := atMs 41, recv := none },
   { now := atMs 42, now2 := atMs 42, recv := none }]

/-- The variables when the main loop is left at the end of `completeRun`. -/
def afterComplete : Vars :=
  (mainLoop completeRun (initVars oneLineBuffer 1 (atMs 0) (atMs 0))).getD
    (initVars oneLineBuffer 1 (atMs 0) (atMs 0))

/-- The event of a frame with `ackNum` 7, a sequence number that was never sent, arriving
40 ms after time zero. -/
def strayAckEvent : Event := { now := atMs 40, now2 := atMs 40, recv := some (ackFrame 7) }

/-! ## packet.h: `makePacket`, and the end of `main` -/

/-- The content of a `char` array read as a C string: the bytes before the first NUL. -/
def cstr (bytes : List Nat) : List Nat := bytes.takeWhile (fun b => b ≠ 0)

/-- The C library `strcpy(dst, src)` on byte arrays: the string in `src` and its
terminating NUL overwrite the beginning of `dst`, the rest of `dst` is left as it is.
Undefined (`none`) when `src` holds no NUL or the string does not fit into `dst`. -/
def strcpy (dst src : List Nat) : Option (List Nat) :=
  if (cstr src).length < src.length ∧ (cstr src).length < dst.length then
    some (cstr src ++ 0 :: dst.drop ((cstr src).length + 1))
  else none

/-- The string literal `"\0"`: an explicit NUL followed by the terminating NUL. -/
def nulLiteral : List Nat := [0, 0]

/-- Function `makePacket` of packet.h, returning the packet `pkt` points to afterwards;
`none` stands for the `default:` case (`perror`, `exit(1)`) and for an undefined `strcpy`. -/
def makePacket (pkt : Packet) (packetType : PacketType) : Option Packet :=
  match packetType with
  | PacketType.ACK =>
    let pkt1 := { pkt with packetType := PacketType.ACK }
    let pkt2 := { pkt1 with ackNum := pkt1.seqNum }
    let pkt3 := { pkt2 with seqNum := INVALID_SEQ_NUM }
    match strcpy pkt3.data nulLiteral with
    | none => none
    | some d => some { pkt3 with data := d, retransmit := false }
  | PacketType.EOT =>
    let pkt1 := { pkt with packetType := PacketType.EOT }
    let pkt2 := { pkt1 with ackNum := INVALID_ACK_NUM }
    match strcpy pkt2.data nulLiteral with
    | none => none
    | some d => some { pkt2 with data := d, seqNum := INVALID_SEQ_NUM, retransmit := false }
  | PacketType.DATA => none

/-- The loop `for (int i = 0; i < 10; ++i) sendto(..., EOTPacket, ...)` with the given
number of iterations left, acting on the log of sent datagrams. -/
def sendEOTLoop : Nat → Packet → List Packet → List Packet
  | 0, _, sent => sent
  | k + 1, eotPacket, sent => sendEOTLoop k eotPacket (sent ++ [eotPacket])

/-- The end of `main`, after the main loop has been left: `EOTPacket = malloc(packetSize)`
(content `malloced`, indeterminate), `makePacket(EOTPacket, EOT)`, ten `sendto` calls. -/
def sendEOT (malloced : Packet) (v : Vars) : Option Vars :=
  match makePacket malloced PacketType.EOT with
  | none => none
  | some eotPacket => some { v with sent := sendEOTLoop 10 eotPacket v.sent }

/-! ## Specification-side definitions -/

/-- Truncation of a rational toward zero, in the words of the specification: the floor of
a non-negative number, the ceiling of a negative one. -/
def specTrunc (x : ℚ) : Int := if 0 ≤ x then ⌊x⌋ else ⌈x⌉

/-- The RTO update as the specification writes it, with α = 1/8 and β = 1/4: the new
`estimatedRTT`, `devRTT` and `timeoutInterval` for a sample `s`. -/
def specRTO (e d s : Int) : Int × Int × Int :=
  let e1 := specTrunc ((1 - 1 / 8) * (e : ℚ) + (1 / 8) * (s : ℚ))
  let d1 := specTrunc ((1 - 1 / 4) * (d : ℚ) + (1 / 4) * ((|s - e1| : Int) : ℚ))
  (e1, d1, min 5000 (e1 + 4 * d1))

/-- A buffered frame as `retransmitUnACKs` sends it: `retransmit` set, all else as is. -/
def markRetransmit (p : Packet) : Packet := { p with retransmit := true }

/-- A buffer entry as a `SendingPackets` burst initialises it: kind DATA, the given
sequence number and window, no ack number, `retransmit` cleared, `data` as read. -/
def dataFrame (p : Packet) (seqNum windowSize : Int) : Packet :=
  { p with packetType := PacketType.DATA, seqNum := seqNum, windowSize := windowSize,
           ackNum := INVALID_ACK_NUM, retransmit := false }

/-- The part of `main` from the main loop on, driven by `evs`: when the loop has been left
(state `AllPacketsSent`) the EOT burst follows, with `malloced` the indeterminate content
of the allocated `EOTPacket`; otherwise the program is still inside the loop when the
events end and the result is the state reached there. -/
def runMain (evs : List Event) (malloced : Packet) (v0 : Vars) : Option Vars :=
  match mainLoop evs v0 with
  | none => none
  | some v => if v.state = State.AllPacketsSent then sendEOT malloced v else some v

/-- A DATA frame as the transmitter sends it: sequence number 1, window 1, the line `a`. -/
def dataFrameA : Packet := dataFrame (lineSlot lineA) 1 1

/-- The sequence numbers `q, q + 1, ..., q + m - 1`. -/
def seqRange (q : Int) (m : Nat) : List Int := (List.range m).map (fun (i : Nat) => q + (i : Int))

/-- The invariant of the main loop used throughout. -/
structure Inv (v : Vars) : Prop where
  window_nonneg : 0 ≤ v.windowSize
  window_le : v.windowSize ≤ MAX_WINDOW_SIZE
  rto_le : v.timeoutInterval ≤ MAX_TIMEOUT_INTERVAL
  count_le : getUnACKCount v.unACKHead ≤ MAX_WINDOW_SIZE
  sending_empty : v.state = State.SendingPackets → v.unACKHead = []

/-- Consistency of the counters, the unacknowledged list, the log of sent datagrams and the
send buffer: the entries below `lineCounter` are the DATA frames already sent, entry `i`
carrying sequence number `i + 1`. -/
structure Wf (v : Vars) : Prop where
  lc_nonneg : 0 ≤ v.lineCounter
  lc_le : v.lineCounter ≤ v.totalLines
  total_le : v.totalLines ≤ v.arrPackets.length
  seq_eq : v.seqNum = v.lineCounter + 1
  ptr_eq : v.arrPacketsPtr = v.lineCounter
  unack_range : ∀ q ∈ v.unACKHead, 1 ≤ q ∧ q ≤ v.lineCounter
  sent_range : ∀ f ∈ v.sent, f.packetType = PacketType.DATA ∧ 1 ≤ f.seqNum ∧
    f.seqNum ≤ v.lineCounter
  buffer_seq : ∀ j : Int, 0 ≤ j → j < v.lineCounter →
    ∃ p, readPacket v.arrPackets j = some p ∧ p.packetType = PacketType.DATA ∧ p.seqNum = j + 1

/-- Order of the unacknowledged list: its entries are strictly increasing from head to tail
and lie between 1 and the next sequence number. -/
structure Ordered (v : Vars) : Prop where
  seq_pos : 1 ≤ v.seqNum
  pairwise : v.unACKHead.Pairwise (fun a b => a < b)
  range : ∀ q ∈ v.unACKHead, 1 ≤ q ∧ q < v.seqNum

/-- The array `arrPackets[MAX_READ_SIZE]` after reading a file with the three lines `a`,
`b`, `c`. -/
def threeLineBuffer : List Packet :=
  lineSlot lineA :: lineSlot (98 :: 10 :: List.replicate 254 0)
    :: lineSlot (99 :: 10 :: List.replicate 254 0)
    :: List.replicate 147 (lineSlot (List.replicate 256 0))

/-- The three-line file up to its second burst: line 1 is sent and acknowledged (the window
grows to 2), the loop passes through `AllACKsReceived` back to `SendingPackets`, and lines
2 and 3 are sent. -/
def secondBurstRun : List Event :=
  [{ now := atMs 0, now2 := atMs 0, recv := none },
   { now := atMs 40, now2 := atMs 40, recv := some (ackFrame 1) },
   { now := atMs 41, now2 := atMs 41, recv := none },
   { now := atMs 42, now2 := atMs 42, recv := none },
   { now := atMs 43, now2 := atMs 43, recv := none }]

/-- The three-line file up to the state in which the second burst is about to be sent. -/
def beforeSecondBurst : Vars :=
  (mainLoop secondBurstRun.dropLast (initVars threeLineBuffer 3 (atMs 0) (atMs 0))).getD
    (initVars threeLineBuffer 3 (atMs 0) (atMs 0))

/-- In the run `evs` from `v0`, sequence number `q` was removed from the unacknowledged
list by a received frame carrying `ackNum = q`, after a DATA frame numbered `q` had been
sent: the run splits as `evs1 ++ ev :: evs2`, after `evs1` the frame has been sent and `q`
is in the list, the iteration driven by `ev` receives a frame with `ackNum = q`, and after
it `q` is no longer in the list. -/
def RemovedByAck (v0 : Vars) (evs : List Event) (q : Int) : Prop :=
  ∃ (evs1 : List Event) (ev : Event) (evs2 : List Event) (v1 v2 : Vars) (pkt : Packet),
    evs = evs1 ++ ev :: evs2 ∧ mainLoop evs1 v0 = some v1 ∧
    (∃ f ∈ v1.sent, f.packetType = PacketType.DATA ∧ f.seqNum = q) ∧
    q ∈ v1.unACKHead ∧ ev.recv = some pkt ∧ pkt.ackNum = q ∧
    loopBody ev v1 = some v2 ∧ q ∉ v2.unACKHead

/-- What is known of the state `v` reached from `v0` by the run `evs`: consistency, order of
the list, and for every sequence number up to `lineCounter` that its DATA frame has been
sent and that it is either still unacknowledged or was removed by a matching frame. -/
structure Hist (v0 : Vars) (evs : List Event) (v : Vars) : Prop where
  run : mainLoop evs v0 = some v
  wf : Wf v
  ordered : Ordered v
  sending_lt : v.state = State.SendingPackets → v.lineCounter < v.totalLines
  idle_empty : v.state ≠ State.WaitForACKs → v.unACKHead = []
  done_all : v.state = State.AllPacketsSent → v.lineCounter = v.totalLines
  covered : ∀ q : Int, 1 ≤ q → q ≤ v.lineCounter →
    (∃ f ∈ v.sent, f.packetType = PacketType.DATA ∧ f.seqNum = q) ∧
    (q ∈ v.unACKHead ∨ RemovedByAck v0 evs q)

/-- A frame of kind DATA whose `ackNum` field is 1 (not a well-formed DATA frame, whose
`ackNum` would be 0). -/
def dataFrameAck1 : Packet := { dataFrameA with ackNum := 1 }

/-- The event of `dataFrameAck1` arriving 40 ms after time zero. -/
def dataAck1Event : Event := { now := atMs 40, now2 := atMs 40, recv := some dataFrameAck1 }

/-! ## packet.h: `copyPacket` -/

/-- Function `copyPacket` of packet.h, returning the local `copyPkt` after the six
assignments; `uninit` is the indeterminate initial content of that local, `none` stands for
an undefined `strcpy`. -/
def copyPacket (uninit pkt : Packet) : Option Packet :=
  let c1 := { uninit with packetType := pkt.packetType }
  let c2 := { c1 with seqNum := pkt.seqNum }
  match strcpy c2.data pkt.data with
  | none => none
  | some d =>
    let c3 := { c2 with data := d }
    let c4 := { c3 with windowSize := pkt.windowSize }
    let c5 := { c4 with ackNum := pkt.seqNum }
    some { c5 with retransmit := pkt.retransmit }

/-! ## Specification-side definitions: clock readings, the estimator, the window -/

/-- A time value as `gettimeofday` returns it: `0 ≤ tv_usec < 1,000,000`. -/
def normalized (t : Timeval) : Prop := 0 ≤ t.tv_usec ∧ t.tv_usec < 1000000

instance (t : Timeval) : Decidable (normalized t) := by
  unfold normalized
  infer_instance

/-- Chronological order of two normalised time values: `t1` is not after `t2`. -/
def notAfter (t1 t2 : Timeval) : Prop :=
  t1.tv_sec < t2.tv_sec ∨ (t1.tv_sec = t2.tv_sec ∧ t1.tv_usec ≤ t2.tv_usec)

instance (t1 t2 : Timeval) : Decidable (notAfter t1 t2) := by
  unfold notAfter
  infer_instance

/-- The initial variables of `main` with `start` and `end` 40 ms apart: every call of
`updateTimeoutInterval` on them takes the sample 40. -/
def steadyVars : Vars := initVars oneLineBuffer 1 (atMs 0) (atMs 40)

/-- The C library `fgets(buf, PAYLOAD_LEN, fp)` when it succeeds: `line` is the string it
reads (a line of the file, or the next `PAYLOAD_LEN - 1` characters of a longer one); the
string and a terminating NUL overwrite the beginning of `buf`. -/
def fgets (buf line : List Nat) : List Nat :=
  line.take (PAYLOAD_LEN - 1) ++ 0 :: buf.drop ((line.take (PAYLOAD_LEN - 1)).length + 1)

/-- The loop `while (fgets(arrPackets[lineCounter].data, PAYLOAD_LEN, dataFP))
lineCounter++;` of `main`: `lines` are the strings read by the successive successful
`fgets` calls.  Returns the buffer and `lineCounter` after the loop; writing to an entry
outside `arrPackets` is undefined (`none`). -/
def readLines : List (List Nat) → List Packet → Int → Option (List Packet × Int)
  | [], arrPackets, lineCounter => some (arrPackets, lineCounter)
  | line :: rest, arrPackets, lineCounter =>
    match readPacket arrPackets lineCounter with
    | none => none
    | some p =>
      readLines rest (arrPackets.set lineCounter.toNat { p with data := fgets p.data line })
        (lineCounter + 1)

/-- The function `main` from the reading of the file on: the lines are read into
`arrPackets` (`uninit` is the indeterminate initial content of the array of
`MAX_READ_SIZE` entries), `totalLines` is set to the number of lines read, and the main
loop and the EOT burst follow. -/
def transmitFile (lines : List (List Nat)) (uninit : List Packet) (t0 t1 : Timeval)
    (evs : List Event) (malloced : Packet) : Option Vars :=
  match readLines lines uninit 0 with
  | none => none
  | some (arrPackets, totalLines) => runMain evs malloced (initVars arrPackets totalLines t0 t1)

/-- A file of 151 lines `a`, one more than `MAX_READ_SIZE`. -/
def longFile : List (List Nat) := List.replicate 151 [97, 10]

/-- The three-line file: line 1 is sent at time 0, nothing arrives for two seconds and the
timeout branch runs (the window drops to 0), the ACK of line 1 arrives 40 ms later (the
window is 1 again), and the loop passes through `AllACKsReceived` back to
`SendingPackets`. -/
def recoveryRun : List Event :=
  [{ now := atMs 0, now2 := atMs 0, recv := none },
   { now := atMs 2000, now2 := atMs 2000, recv := none },
   { now := atMs 2040, now2 := atMs 2040, recv := some (ackFrame 1) },
   { now := atMs 2041, now2 := atMs 2041, recv := none },
   { now := atMs 2042, now2 := atMs 2042, recv := none }]

/-- The iteration that sends the next burst, at 2043 ms. -/
def nextBurstRun : List Event := [{ now := atMs 2043, now2 := atMs 2043, recv := none }]

/-- The variables of the three-line transfer at the end of `recoveryRun`. -/
def afterRecovery : Vars :=
  (mainLoop recoveryRun (initVars threeLineBuffer 3 (atMs 0) (atMs 0))).getD
    (initVars threeLineBuffer 3 (atMs 0) (atMs 0))

/-- The variables of the three-line transfer after `recoveryRun` and the next burst. -/
def afterNextBurst : Vars := (mainLoop nextBurstRun afterRecovery).getD afterRecovery

/-- The initial variables of `main` with `start` at time zero and `end` 2,147,483,647 ms
(`INT_MAX`, about 24.8 days) later: `estimatedRTT` 1000, `devRTT` 250, `timeoutInterval`
2000, and the next sample is `INT_MAX`. -/
def overflowVars : Vars := initVars oneLineBuffer 1 (atMs 0) (atMs 2147483647)

/-- The window is at least 1, unless the transmitter is waiting for ACKs with a non-empty
unacknowledged list. -/
def WindowReady (v : Vars) : Prop :=
  1 ≤ v.windowSize ∨ (v.state = State.WaitForACKs ∧ v.unACKHead ≠ [])

/-- Two seconds after the burst nothing has arrived; the clock is read again one
millisecond later, after the retransmission, and then the ACK of sequence number 1 is
received in the same iteration. -/
def lateAckEvent : Event := { now := atMs 2000, now2 := atMs 2001, recv := some (ackFrame 1) }

end Transmitter

/-! # The network emulator (`network_emulator/src/networkemulator.cpp`) -/

namespace Emulator

/-- Function `NetworkEmulator::dropPkt`: `randValue` is the value returned by `rand()` (a
non-negative `int`), `droppedPackets` the counter member; returns the result and the
counter afterwards. -/
def dropPkt (prob : Int) (randValue : Nat) (droppedPackets : Int) : Bool × Int :=
  let drop := if prob < ((randValue % 100 : Nat) : Int) + 1 then false else true
  (drop, if drop then droppedPackets + 1 else droppedPackets)

/-- The draw `(rand() % 100) + 1` inside `dropPkt`. -/
def draw (randValue : Nat) : Int := ((randValue % 100 : Nat) : Int) + 1

/-- Number of residues `rand() % 100` in `0 .. 99`, that is of draws `1 .. 100`, on which
`dropPkt prob` drops. -/
def dropCount (prob : Int) : Nat :=
  ((List.range 100).filter (fun r => (dropPkt prob r 0).1)).length

/-! ## Constants of common.h used by the emulator, and its state -/

def TRANSMITTER_IP : String := "192.168.1.72"
def RECEIVER_IP : String := "192.168.1.77"
def TRANSMITTER_PORT : Nat := 50000
def RECEIVER_PORT : Nat := 50002

/-- The member `packetSize`, set to `sizeof(struct packet)` in the constructor: the struct
is declared under `#pragma pack(push, 1)`, so its size is 4 + 4 + 256 + 4 + 4 + 1 bytes (a
4-byte `enum` and `int`, a 1-byte `bool`). -/
def packetSize : Nat := 273

/-- Offset of the field `retransmit` in the packed `struct packet`. -/
def retransmitOffset : Nat := 272

/-- A pending datagram as `readDatagram` stores it: the bytes put into the `QByteArray`
(its size is the size of the datagram), the string form of the sender address
(`sender.toString()`) and the sender port. -/
structure Datagram where
  payload : List Nat
  sender : String
  senderPort : Nat
deriving DecidableEq, Repr

/-- One call of `udpSocket->writeDatagram`: the bytes handed over, the destination address
and port. -/
structure Forwarded where
  payload : List Nat
  host : String
  port : Nat
deriving DecidableEq, Repr

/-- The members of `NetworkEmulator` that `processPendingDatagram` reads or writes, and
the log `forwarded` of the `writeDatagram` calls (oldest first). -/
structure NetworkEmulator where
  pause : Bool
  networkDelay : Int
  errorRatePercent : Int
  droppedPackets : Int
  retransmits : Int
  packetTableRowIndex : Int
  forwarded : List Forwarded
deriving DecidableEq, Repr

/-- What the environment supplies while one datagram is processed: the successive values
returned by `gettimeofday` inside `averagePktDelay`, the value returned by `rand()`, and
whether `writeDatagram` reports all bytes written. -/
structure Env where
  clock : List Transmitter.Timeval
  randValue : Nat
  writeOk : Bool
deriving DecidableEq, Repr

/-- The loop `while (delay(now, future) < delayInMS) gettimeofday(&future, NULL);` of
`averagePktDelay`, the list holding the clock readings still to come.  The result tells
whether the loop is left; it is `false` when the readings end with the condition still
true. -/
def delayLoop (now : Transmitter.Timeval) (delayInMS : Int) :
    Transmitter.Timeval → List Transmitter.Timeval → Bool
  | future, [] => !decide (Transmitter.delay now future < delayInMS)
  | future, t :: rest =>
    if Transmitter.delay now future < delayInMS then delayLoop now delayInMS t rest else true

/-- Function `NetworkEmulator::averagePktDelay`: two clock readings `now` and `future`,
then the waiting loop.  The result tells whether the function returns. -/
def averagePktDelay (delayInMS : Int) : List Transmitter.Timeval → Bool
  | now :: future :: rest => delayLoop now delayInMS future rest
  | _ => false

/-- The read `pkt->retransmit == true` through the pointer `pkt` into the datagram buffer:
the byte at `retransmitOffset`, any non-zero value counting as `true`. -/
def retransmitFlag (payload : List Nat) : Bool := payload.getD retransmitOffset 0 != 0

/-- Function `NetworkEmulator::updatePacketTable`: a row is written at
`packetTableRowIndex` and the index incremented (the cells are not modelled). -/
def updatePacketTable (st : NetworkEmulator) : NetworkEmulator :=
  { st with packetTableRowIndex := st.packetTableRowIndex + 1 }

/-- The call `udpSocket->writeDatagram((const char*)pkt, packetSize, host, port)` followed
by the check of its result: `packetSize` bytes starting at the beginning of the datagram
buffer are handed over.  `none` when the buffer is shorter than `packetSize` (read past its
end) and when the call reports failure (`exit(1)`). -/
def writeDatagram (st : NetworkEmulator) (payload : List Nat) (host : String) (port : Nat)
    (writeOk : Bool) : Option NetworkEmulator :=
  if payload.length < packetSize then none
  else if writeOk then
    some { st with forwarded := st.forwarded ++ [{ payload := payload.take packetSize,
                                                   host := host, port := port }] }
  else none

/-- Function `NetworkEmulator::relayPacket`.  The fields of `*pkt` are read from the
datagram buffer; reading them from a buffer shorter than `packetSize` is undefined
(`none`).  Row colours, the time-sequence chart and the log file are not modelled. -/
def relayPacket (st : NetworkEmulator) (d : Datagram) (writeOk : Bool) : Option NetworkEmulator :=
  if d.sender = TRANSMITTER_IP ∧ d.senderPort = TRANSMITTER_PORT then
    if d.payload.length < packetSize then none
    else
      let st1 := if retransmitFlag d.payload = true then
          { st with retransmits := st.retransmits + 1 } else st
      writeDatagram (updatePacketTable st1) d.payload RECEIVER_IP RECEIVER_PORT writeOk
  else if d.sender = RECEIVER_IP ∧ d.senderPort = RECEIVER_PORT then
    if d.payload.length < packetSize then none
    else writeDatagram (updatePacketTable st) d.payload TRANSMITTER_IP TRANSMITTER_PORT writeOk
  else some st

/-- Function `NetworkEmulator::recordPacket`: a dropped packet gets its table row and
nothing is written to the socket. -/
def recordPacket (st : NetworkEmulator) (d : Datagram) : Option NetworkEmulator :=
  if d.sender = TRANSMITTER_IP ∧ d.senderPort = TRANSMITTER_PORT then
    if d.payload.length < packetSize then none else some (updatePacketTable st)
  else if d.sender = RECEIVER_IP ∧ d.senderPort = RECEIVER_PORT then
    if d.payload.length < packetSize then none else some (updatePacketTable st)
  else some st

/-- One iteration of the `while (udpSocket->hasPendingDatagrams())` loop of
`processPendingDatagram`, for the pending datagram `d`: nothing happens while paused or
for a sender address that is neither `TRANSMITTER_IP` nor `RECEIVER_IP`; otherwise the
delay is applied, `dropPkt` is asked, and the packet is relayed or recorded as dropped.
`none` when `averagePktDelay` does not return and when relaying or recording is undefined
or exits. -/
def processDatagram (env : Env) (st : NetworkEmulator) (d : Datagram) : Option NetworkEmulator :=
  if st.pause = true then some st
  else if d.sender = TRANSMITTER_IP ∨ d.sender = RECEIVER_IP then
    if averagePktDelay st.networkDelay env.clock = true then
      let r := dropPkt st.errorRatePercent env.randValue st.droppedPackets
      let st1 := { st with droppedPackets := r.2 }
      if !r.1 then relayPacket st1 d env.writeOk else recordPacket st1 d
    else none
  else some st

/-- Function `NetworkEmulator::processPendingDatagram`: the pending datagrams are
processed one after the other, each with its own environment inputs. -/
def processPendingDatagram : NetworkEmulator → List (Env × Datagram) → Option NetworkEmulator
  | st, [] => some st
  | st, (env, d) :: rest =>
    match processDatagram env st d with
    | none => none
    | some st1 => processPendingDatagram st1 rest

/-- The packet count shown by `updateNetworkSummaryTable`: `packetTableRowIndex - 1` (row 0
of the table holds the headers). -/
def packetCount (st : NetworkEmulator) : Int := st.packetTableRowIndex - 1

/-- The loss step: the result of `dropPkt` for the datagram processed in state `st` with
environment `env`. -/
def lossDrops (env : Env) (st : NetworkEmulator) : Bool :=
  (dropPkt st.errorRatePercent env.randValue st.droppedPackets).1

/-! ## Sample inputs of the emulator -/

/-- The emulator after `on_startButton_clicked` and the header row: not paused, no delay,
the given error rate, row index 1, nothing counted or forwarded. -/
def running (errorRatePercent : Int) : NetworkEmulator :=
  { pause := false, networkDelay := 0, errorRatePercent := errorRatePercent,
    droppedPackets := 0, retransmits := 0, packetTableRowIndex := 1, forwarded := [] }

/-- Environment inputs: the clock stands at zero, `rand()` returns 0 (the draw is 1), and
`writeDatagram` succeeds. -/
def calmEnv : Env :=
  { clock := [Transmitter.atMs 0, Transmitter.atMs 0], randValue := 0, writeOk := true }

/-- A frame-sized datagram of zero bytes except a first byte 7, from the transmitter. -/
def frameFromTransmitter : Datagram :=
  { payload := 7 :: List.replicate 272 0, sender := TRANSMITTER_IP,
    senderPort := TRANSMITTER_PORT }

/-- A datagram from the transmitter's address but from port 12345. -/
def wrongPortDatagram : Datagram :=
  { payload := 7 :: List.replicate 272 0, sender := TRANSMITTER_IP, senderPort := 12345 }

/-- A datagram of 274 bytes, one more than a frame, from the transmitter; its last byte
is 9. -/
def oversizedDatagram : Datagram :=
  { payload := 7 :: List.replicate 272 0 ++ [9], sender := TRANSMITTER_IP,
    senderPort := TRANSMITTER_PORT }

end Emulator

/-! # The receiver -/

namespace Receiver

open Transmitter (Packet PacketType INITIAL_SEQ_NUM)

/-- Modelled from the spec: the state variables of the receiver (§4.2); `receiver.c` is
missing from the sources, only the prototypes of `sendACK`, `saveData` and `flushBuffer`
in `receiver.h` are given.  `buffer` maps sequence numbers to payloads of out-of-order
frames, `delivered` lists the `saveData` calls (sequence number and payload) in order,
`acked` the ack numbers of the ACK frames sent, `terminated` is set by EOT. -/
structure RecvState where
  nextSeqNum : Int
  buffer : List (Int × List Nat)
  delivered : List (Int × List Nat)
  acked : List Int
  terminated : Bool
deriving DecidableEq, Repr

/-- Modelled from the spec: the receiver before the first frame, `nextSeqNum` starting at
`INITIAL_SEQ_NUM`, nothing buffered or delivered. -/
def initState : RecvState :=
  { nextSeqNum := INITIAL_SEQ_NUM, buffer := [], delivered := [], acked := [],
    terminated := false }

/-- Modelled from the spec: "drain any buffered entries for consecutive `seq` values
(`nextSeqNum`, `nextSeqNum + 1`, ...) until a gap"; each round delivers the buffered payload
of `nextSeqNum`, removes that sequence number from the buffer and advances `nextSeqNum`.
The first argument bounds the number of rounds (the buffer size suffices). -/
def flushBuffer : Nat → RecvState → RecvState
  | 0, s => s
  | k + 1, s =>
    match s.buffer.lookup s.nextSeqNum with
    | none => s
    | some payload =>
      flushBuffer k
        { s with delivered := s.delivered ++ [(s.nextSeqNum, payload)],
                 buffer := s.buffer.filter (fun e => e.1 ≠ s.nextSeqNum),
                 nextSeqNum := s.nextSeqNum + 1 }

/-- Modelled from the spec: the per-frame processing of §4.2.  EOT flushes and terminates;
DATA is acknowledged unconditionally, then dropped as a duplicate (`seq < nextSeqNum`),
delivered and followed by a drain (`seq == nextSeqNum`), or buffered unless already
buffered (`seq > nextSeqNum`). -/
def processFrame (s : RecvState) (f : Packet) : RecvState :=
  if s.terminated then s
  else
    match f.packetType with
    | PacketType.EOT => { flushBuffer s.buffer.length s with terminated := true }
    | PacketType.ACK => s
    | PacketType.DATA =>
      let s1 := { s with acked := s.acked ++ [f.seqNum] }
      if f.seqNum < s1.nextSeqNum then s1
      else if f.seqNum = s1.nextSeqNum then
        let s2 := { s1 with delivered := s1.delivered ++ [(f.seqNum, f.data)],
                            nextSeqNum := s1.nextSeqNum + 1 }
        flushBuffer s2.buffer.length s2
      else if (s1.buffer.lookup f.seqNum).isSome then s1
      else { s1 with buffer := s1.buffer ++ [(f.seqNum, f.data)] }

/-- Modelled from the spec: the receiver processing the frames in their order of arrival. -/
def receive (frames : List Packet) : RecvState := frames.foldl processFrame initState

/-- The sequence numbers of the payloads passed to `saveData`, in order. -/
def deliveredSeqs (s : RecvState) : List Int := s.delivered.map Prod.fst

/-- The invariant of the receiver: the delivered sequence numbers are exactly
`INITIAL_SEQ_NUM, ..., nextSeqNum - 1`, and every delivered or buffered payload came in a
DATA frame of `frames` with that sequence number. -/
structure Good (frames : List Packet) (s : RecvState) : Prop where
  next_eq : s.nextSeqNum = INITIAL_SEQ_NUM + (s.delivered.length : Int)
  seqs_eq : deliveredSeqs s = Transmitter.seqRange INITIAL_SEQ_NUM s.delivered.length
  delivered_src : ∀ e ∈ s.delivered, ∃ f ∈ frames, f.packetType = PacketType.DATA ∧
    f.seqNum = e.1 ∧ f.data = e.2
  buffer_src : ∀ e ∈ s.buffer, ∃ f ∈ frames, f.packetType = PacketType.DATA ∧
    f.seqNum = e.1 ∧ f.data = e.2

/-- Frames in an arrival order with reordering and duplicates: 3, 2, 3 again, 1, then EOT. -/
def shuffledFrames : List Packet :=
  [Transmitter.dataFrame (Transmitter.lineSlot [99, 10]) 3 2,
   Transmitter.dataFrame (Transmitter.lineSlot [98, 10]) 2 2,
   Transmitter.dataFrame (Transmitter.lineSlot [99, 10]) 3 2,
   Transmitter.dataFrame (Transmitter.lineSlot [97, 10]) 1 1,
   { Transmitter.ackFrame 0 with packetType := PacketType.EOT }]

end Receiver

namespace Transmitter

/-! ## Basic facts about the list operations -/

theorem getUnACKCount_eq_length (l : List Int) : getUnACKCount l = (l.length : Int) := by
  induction l with
  | nil => rfl
  | cons x t ih => simp [getUnACKCount, ih]

theorem getUnACKCount_eq_zero_iff (l : List Int) : getUnACKCount l = 0 ↔ l = [] := by
  rw [getUnACKCount_eq_length]
  cases l <;> simp
  omega

theorem appendToUnACKs_eq_append (l : List Int) (q : Int) : appendToUnACKs l q = l ++ [q] := by
  induction l with
  | nil => rfl
  | cons x t ih => simp [appendToUnACKs, ih]

theorem unlinkFirst_eq_erase (l : List Int) (q : Int) : unlinkFirst l q = l.erase q := by
  induction l with
  | nil => rfl
  | cons x t ih =>
    by_cases h : x = q
    · simp [unlinkFirst, h]
    · simp [unlinkFirst, h, ih, List.erase_cons_tail]

theorem deleteFromUnACKs_eq_erase (l : List Int) (q : Int) : deleteFromUnACKs l q = l.erase q := by
  cases l with
  | nil => rfl
  | cons x t =>
    by_cases h : x = q
    · simp [deleteFromUnACKs, h]
    · simp only [deleteFromUnACKs, h, if_false]
      exact unlinkFirst_eq_erase (x :: t) q

/-! ## The timeout computation in closed form -/

theorem tdiv_mul_left_cancel (c n d : Int) (hc : 0 < c) (hd : 0 < d) :
    Int.tdiv (c * n) (c * d) = Int.tdiv n d := by
  rcases le_total 0 n with hn | hn
  · rw [Int.tdiv_eq_ediv (mul_nonneg hc.le hn) (mul_nonneg hc.le hd.le),
      Int.tdiv_eq_ediv hn hd.le, Int.mul_ediv_mul_of_pos _ _ hc]
  · have h1 : c * n = -(c * (-n)) := by ring
    have h2 : n = -(-n) := by ring
    have hn2 : 0 ≤ -n := by omega
    rw [h1, Int.neg_tdiv, Int.tdiv_eq_ediv (mul_nonneg hc.le hn2) (mul_nonneg hc.le hd.le),
      Int.mul_ediv_mul_of_pos _ _ hc]
    conv_rhs => rw [h2, Int.neg_tdiv, Int.tdiv_eq_ediv hn2 hd.le]

theorem truncToInt_div (a b : Int) (hb : 0 < b) : truncToInt ((a : ℚ) / (b : ℚ)) = Int.tdiv a b := by
  obtain ⟨c, h1, h2⟩ := Rat.exists_eq_mul_div_num_and_eq_mul_div_den a (ne_of_gt hb)
  generalize (a : ℚ) / (b : ℚ) = q at h1 h2 ⊢
  have hden : (0 : Int) < (q.den : Int) := by exact_mod_cast Rat.den_pos q
  have hc : 0 < c := by
    by_contra hcon
    have hc0 : c ≤ 0 := not_lt.mp hcon
    have : c * (q.den : Int) ≤ 0 := mul_nonpos_of_nonpos_of_nonneg hc0 hden.le
    omega
  unfold truncToInt
  rw [h1, h2]
  exact (tdiv_mul_left_cancel c _ _ hc hden).symm

theorem estimatedRTT_closed (e s : Int) :
    truncToInt ((1 - DEFAULT_RTT_ALPHA) * (e : ℚ) + DEFAULT_RTT_ALPHA * (s : ℚ))
      = Int.tdiv (7 * e + s) 8 := by
  have h : (1 - DEFAULT_RTT_ALPHA) * (e : ℚ) + DEFAULT_RTT_ALPHA * (s : ℚ)
      = (((7 * e + s : Int) : ℚ)) / ((8 : Int) : ℚ) := by
    unfold DEFAULT_RTT_ALPHA
    push_cast
    ring
  rw [h, truncToInt_div _ _ (by norm_num)]

theorem devRTT_closed (d a : Int) :
    truncToInt ((1 - DEFAULT_RTT_BETA) * (d : ℚ) + DEFAULT_RTT_BETA * (a : ℚ))
      = Int.tdiv (3 * d + a) 4 := by
  have h : (1 - DEFAULT_RTT_BETA) * (d : ℚ) + DEFAULT_RTT_BETA * (a : ℚ)
      = (((3 * d + a : Int) : ℚ)) / ((4 : Int) : ℚ) := by
    unfold DEFAULT_RTT_BETA
    push_cast
    ring
  rw [h, truncToInt_div _ _ (by norm_num)]

theorem wrap32_of_fits (x : Int) (h : fitsInt x) : wrap32 x = x := by
  unfold fitsInt at h
  unfold wrap32
  omega

theorem wrap32_fits (x : Int) : fitsInt (wrap32 x) := by
  unfold fitsInt wrap32
  omega

theorem updateTimeoutInterval_closed (v : Vars) :
    updateTimeoutInterval v =
      { v with
        sampleRTT := wrap32 (delay v.start v.endTime)
        estimatedRTT := Int.tdiv (7 * v.estimatedRTT + wrap32 (delay v.start v.endTime)) 8
        devRTT := Int.tdiv (3 * v.devRTT
          + wrap32 |wrap32 (wrap32 (delay v.start v.endTime)
              - Int.tdiv (7 * v.estimatedRTT + wrap32 (delay v.start v.endTime)) 8)|) 4
        timeoutInterval := min MAX_TIMEOUT_INTERVAL
          (wrap32 (Int.tdiv (7 * v.estimatedRTT + wrap32 (delay v.start v.endTime)) 8
            + wrap32 (4 * Int.tdiv (3 * v.devRTT
              + wrap32 |wrap32 (wrap32 (delay v.start v.endTime)
                  - Int.tdiv (7 * v.estimatedRTT + wrap32 (delay v.start v.endTime)) 8)|) 4))) } := by
  unfold updateTimeoutInterval
  simp only [estimatedRTT_closed, devRTT_closed]
  congr 1
  rw [min_def]
  split_ifs <;> first | rfl | omega

/-- When the sample fits in an `int` and neither the difference under `abs`, nor the
product by 4, nor the final sum overflows, `updateTimeoutInterval` computes the exact
integer expressions. -/
theorem updateTimeoutInterval_exact (v : Vars) (hs : fitsInt (delay v.start v.endTime))
    (ha : fitsInt |delay v.start v.endTime
      - Int.tdiv (7 * v.estimatedRTT + delay v.start v.endTime) 8|)
    (hd : fitsInt (4 * Int.tdiv (3 * v.devRTT + |delay v.start v.endTime
      - Int.tdiv (7 * v.estimatedRTT + delay v.start v.endTime) 8|) 4))
    (hsum : fitsInt (Int.tdiv (7 * v.estimatedRTT + delay v.start v.endTime) 8
      + 4 * Int.tdiv (3 * v.devRTT + |delay v.start v.endTime
        - Int.tdiv (7 * v.estimatedRTT + delay v.start v.endTime) 8|) 4)) :
    updateTimeoutInterval v =
      { v with
        sampleRTT := delay v.start v.endTime
        estimatedRTT := Int.tdiv (7 * v.estimatedRTT + delay v.start v.endTime) 8
        devRTT := Int.tdiv (3 * v.devRTT
          + |delay v.start v.endTime - Int.tdiv (7 * v.estimatedRTT + delay v.start v.endTime) 8|) 4
        timeoutInterval := min MAX_TIMEOUT_INTERVAL
          (Int.tdiv (7 * v.estimatedRTT + delay v.start v.endTime) 8
            + 4 * Int.tdiv (3 * v.devRTT
              + |delay v.start v.endTime
                  - Int.tdiv (7 * v.estimatedRTT + delay v.start v.endTime) 8|) 4) } := by
  have hdiff : fitsInt (delay v.start v.endTime
      - Int.tdiv (7 * v.estimatedRTT + delay v.start v.endTime) 8) := by
    unfold fitsInt at ha ⊢
    rcases abs_cases (delay v.start v.endTime
      - Int.tdiv (7 * v.estimatedRTT + delay v.start v.endTime) 8) with ⟨e, _⟩ | ⟨e, _⟩ <;>
      rw [e] at ha <;> omega
  rw [updateTimeoutInterval_closed, wrap32_of_fits _ hs, wrap32_of_fits _ hdiff,
    wrap32_of_fits _ ha, wrap32_of_fits _ hd, wrap32_of_fits _ hsum]

/-! ## Effect of the branches of the main loop -/

theorem sendNext_some (v v1 : Vars) (h : sendNext v = some v1) :
    ∃ arr out, v1 =
      { v with unACKHead := v.unACKHead ++ [v.seqNum], arrPackets := arr,
               seqNum := v.seqNum + 1, arrPacketsPtr := v.arrPacketsPtr + 1,
               sent := v.sent ++ [out] } := by
  unfold sendNext at h
  split at h
  · exact absurd h (by simp)
  · dsimp only at h
    split at h
    · exact absurd h (by simp)
    · rename_i out _
      simp only [Option.some.injEq] at h
      exact ⟨_, out, by rw [← h, appendToUnACKs_eq_append]⟩

theorem sendWindow_frame (ev : Event) (k : Nat) : ∀ v v1 b, sendWindow k ev v = some (v1, b) →
    v1.windowSize = v.windowSize ∧ v1.timeoutInterval = v.timeoutInterval ∧
    v1.totalLines = v.totalLines ∧
    v1.unACKHead.length ≤ v.unACKHead.length + k := by
  induction k with
  | zero =>
    intro v v1 b h
    simp only [sendWindow, Option.some.injEq, Prod.mk.injEq] at h
    obtain ⟨rfl, _⟩ := h
    simp
  | succ k ih =>
    intro v v1 b h
    unfold sendWindow at h
    split at h
    · exact absurd h (by simp)
    · rename_i w hw
      obtain ⟨arr, out, rfl⟩ := sendNext_some v w hw
      split at h
      · simp only [Option.some.injEq, Prod.mk.injEq] at h
        obtain ⟨rfl, _⟩ := h
        simp
      · obtain ⟨h1, h2, h3, h4⟩ := ih _ _ _ h
        simp at h1 h2 h3 h4
        refine ⟨h1, h2, h3, ?_⟩
        omega

theorem sendingPackets_some (ev : Event) (v v1 : Vars) (h : sendingPackets ev v = some v1) :
    v1.state = State.WaitForACKs ∧ v1.windowSize = v.windowSize ∧
    v1.timeoutInterval = v.timeoutInterval ∧ v1.totalLines = v.totalLines ∧
    v1.unACKHead.length ≤ v.unACKHead.length + v.windowSize.toNat := by
  unfold sendingPackets at h
  split at h
  · exact absurd h (by simp)
  · rename_i w b hw
    simp only [Option.some.injEq] at h
    obtain ⟨h1, h2, h3, h4⟩ := sendWindow_frame ev _ _ _ _ hw
    subst h
    exact ⟨rfl, h1, h2, h3, h4⟩

theorem updateTimeoutInterval_le (v : Vars) :
    (updateTimeoutInterval v).timeoutInterval ≤ MAX_TIMEOUT_INTERVAL := by
  unfold updateTimeoutInterval
  dsimp only
  split_ifs with h
  · exact le_of_lt h
  · exact le_refl _

theorem findACK_of_not_mem (cur : List Int) (a : Int) (v : Vars) (h : a ∉ cur) :
    findACK cur a v = v := by
  induction cur with
  | nil => rfl
  | cons x t ih =>
    have hx : x ≠ a := fun e => h (by simp [e])
    have ht : a ∉ t := fun e => h (by simp [e])
    simp [findACK, hx, ih ht]

theorem findACK_of_mem (cur : List Int) (a : Int) (v : Vars) (h : a ∈ cur) :
    findACK cur a v =
      { v with unACKHead := deleteFromUnACKs v.unACKHead a,
               windowSize := if v.windowSize ≠ MAX_WINDOW_SIZE then v.windowSize + 1
                             else v.windowSize } := by
  induction cur with
  | nil => exact absurd h (by simp)
  | cons x t ih =>
    by_cases hx : x = a
    · simp only [findACK, hx, if_true]
      split_ifs <;> rfl
    · have ht : a ∈ t := by
        rcases List.mem_cons.mp h with e | e
        · exact absurd e.symm hx
        · exact e
      simp only [findACK, hx, if_false]
      exact ih ht

theorem onReceive_of_not_mem (pkt : Packet) (v : Vars) (h : pkt.ackNum ∉ v.unACKHead) :
    onReceive pkt v = updateTimeoutInterval v := by
  unfold onReceive
  exact findACK_of_not_mem _ _ _ h

theorem onReceive_of_mem (pkt : Packet) (v : Vars) (h : pkt.ackNum ∈ v.unACKHead) :
    onReceive pkt v =
      { updateTimeoutInterval v with
        unACKHead := deleteFromUnACKs v.unACKHead pkt.ackNum,
        windowSize := if v.windowSize ≠ MAX_WINDOW_SIZE then v.windowSize + 1
                      else v.windowSize } := by
  unfold onReceive
  exact findACK_of_mem _ _ _ h

theorem onTimeout_some (ev : Event) (v v1 : Vars) (h : onTimeout ev v = some v1) :
    ∃ arr out, retransmitUnACKs v.arrPackets v.unACKHead = some (arr, out) ∧
      v1 = { updateTimeoutInterval { v with arrPackets := arr, sent := v.sent ++ out } with
             start := ev.now2, windowSize := Int.tdiv v.windowSize 2 } := by
  unfold onTimeout at h
  split at h
  · exact absurd h (by simp)
  · rename_i arr out hr
    simp only [Option.some.injEq] at h
    exact ⟨arr, out, hr, h.symm⟩

/-- The shape of a successful `WaitForACKs` iteration: either the list is empty and only
the state changes, or `end` is read, the timeout branch runs exactly when its guard holds,
and the receive branch runs exactly when a frame arrived. -/
theorem waitForACKs_some (ev : Event) (v v1 : Vars) (h : waitForACKs ev v = some v1) :
    (v.unACKHead = [] ∧ v1 = { v with state := State.AllACKsReceived }) ∨
    (v.unACKHead ≠ [] ∧ ∃ v2,
      ((delay v.start ev.now ≥ v.timeoutInterval ∧
          onTimeout ev { v with endTime := ev.now } = some v2) ∨
        (¬ delay v.start ev.now ≥ v.timeoutInterval ∧ v2 = { v with endTime := ev.now })) ∧
      ((ev.recv = none ∧ v1 = v2) ∨ ∃ pkt, ev.recv = some pkt ∧ v1 = onReceive pkt v2)) := by
  unfold waitForACKs at h
  by_cases h0 : getUnACKCount v.unACKHead = 0
  · left
    simp only [h0, if_true, Option.some.injEq] at h
    exact ⟨(getUnACKCount_eq_zero_iff _).mp h0, h.symm⟩
  · right
    have hne : v.unACKHead ≠ [] := fun e => h0 ((getUnACKCount_eq_zero_iff _).mpr e)
    have hpos : getUnACKCount v.unACKHead > 0 := by
      rw [getUnACKCount_eq_length] at h0 ⊢
      omega
    refine ⟨hne, ?_⟩
    simp only [h0, if_false] at h
    by_cases ht : delay v.start ev.now ≥ v.timeoutInterval
    · simp only [ht, hpos, and_self, if_true] at h
      cases hto : onTimeout ev { v with endTime := ev.now } with
      | none => simp [hto] at h
      | some v2 =>
        refine ⟨v2, Or.inl ⟨ht, rfl⟩, ?_⟩
        simp only [hto] at h
        cases hr : ev.recv with
        | none => simp only [hr, Option.some.injEq] at h; exact Or.inl ⟨rfl, h.symm⟩
        | some pkt => simp only [hr, Option.some.injEq] at h; exact Or.inr ⟨pkt, rfl, h.symm⟩
    · simp only [ht, false_and, if_false] at h
      refine ⟨_, Or.inr ⟨ht, rfl⟩, ?_⟩
      cases hr : ev.recv with
      | none => simp only [hr, Option.some.injEq] at h; exact Or.inl ⟨rfl, h.symm⟩
      | some pkt => simp only [hr, Option.some.injEq] at h; exact Or.inr ⟨pkt, rfl, h.symm⟩

/-! ## The loop invariant -/

theorem tdiv_two_bounds (w : Int) (h0 : 0 ≤ w) (h1 : w ≤ MAX_WINDOW_SIZE) :
    0 ≤ Int.tdiv w 2 ∧ Int.tdiv w 2 ≤ MAX_WINDOW_SIZE := by
  rw [Int.tdiv_eq_ediv h0 (by norm_num)]
  unfold MAX_WINDOW_SIZE at *
  omega

theorem inv_initVars (arr : List Packet) (n : Int) (t0 t1 : Timeval) :
    Inv (initVars arr n t0 t1) := by
  refine ⟨?_, ?_, ?_, ?_, ?_⟩ <;> simp [initVars, INITIAL_WINDOW_SIZE, MAX_WINDOW_SIZE,
    DEFAULT_ESTIMATED_RTT, DEFAULT_DEV_RTT, MAX_TIMEOUT_INTERVAL, getUnACKCount]

theorem inv_onTimeout (ev : Event) (v v1 : Vars) (hi : Inv v) (hs : v.state ≠ State.SendingPackets)
    (h : onTimeout ev v = some v1) :
    Inv v1 ∧ v1.state = v.state ∧ v1.unACKHead = v.unACKHead := by
  obtain ⟨arr, out, _, rfl⟩ := onTimeout_some ev v v1 h
  obtain ⟨hw0, hw1⟩ := tdiv_two_bounds v.windowSize hi.window_nonneg hi.window_le
  refine ⟨⟨hw0, hw1, updateTimeoutInterval_le _, hi.count_le, ?_⟩, rfl, rfl⟩
  intro hst
  exact absurd hst hs

theorem inv_onReceive (pkt : Packet) (v : Vars) (hi : Inv v)
    (hs : v.state ≠ State.SendingPackets) :
    Inv (onReceive pkt v) ∧ (onReceive pkt v).state = v.state := by
  by_cases hm : pkt.ackNum ∈ v.unACKHead
  · rw [onReceive_of_mem pkt v hm]
    refine ⟨⟨?_, ?_, updateTimeoutInterval_le _, ?_, fun hst => absurd hst hs⟩, rfl⟩
    · have := hi.window_nonneg
      dsimp only
      split_ifs <;> omega
    · have := hi.window_le
      dsimp only
      split_ifs with hc
      · omega
      · exact this
    · have h1 := hi.count_le
      rw [getUnACKCount_eq_length] at h1 ⊢
      dsimp only
      rw [deleteFromUnACKs_eq_erase, List.length_erase_of_mem hm]
      omega
  · rw [onReceive_of_not_mem pkt v hm]
    exact ⟨⟨hi.window_nonneg, hi.window_le, updateTimeoutInterval_le _, hi.count_le,
      fun hst => absurd hst hs⟩, rfl⟩

theorem inv_loopBody (ev : Event) (v v1 : Vars) (hi : Inv v) (h : loopBody ev v = some v1) :
    Inv v1 := by
  unfold loopBody at h
  split at h
  · rename_i hst
    obtain ⟨h1, h2, h3, _, h5⟩ := sendingPackets_some ev v v1 h
    have hnil := hi.sending_empty hst
    have hw0 := hi.window_nonneg
    have hw1 := hi.window_le
    refine ⟨by rw [h2]; exact hw0, by rw [h2]; exact hw1, by rw [h3]; exact hi.rto_le, ?_, ?_⟩
    · rw [getUnACKCount_eq_length]
      rw [hnil] at h5
      simp only [List.length_nil, zero_add] at h5
      have : ((v.windowSize.toNat : Nat) : Int) = v.windowSize := Int.toNat_of_nonneg hw0
      omega
    · intro hst1
      rw [h1] at hst1
      exact absurd hst1 (by decide)
  · rename_i hst
    have hs : v.state ≠ State.SendingPackets := by rw [hst]; decide
    rcases waitForACKs_some ev v v1 h with ⟨_, rfl⟩ | ⟨_, v2, hto, hrc⟩
    · exact ⟨hi.window_nonneg, hi.window_le, hi.rto_le, hi.count_le,
        fun hc => State.noConfusion hc⟩
    · have hi0 : Inv { v with endTime := ev.now } :=
        ⟨hi.window_nonneg, hi.window_le, hi.rto_le, hi.count_le, fun hc => absurd hc hs⟩
      have hi2 : Inv v2 ∧ v2.state = v.state := by
        rcases hto with ⟨_, hto⟩ | ⟨_, rfl⟩
        · obtain ⟨a, b, _⟩ := inv_onTimeout ev _ v2 hi0 hs hto
          exact ⟨a, b⟩
        · exact ⟨hi0, rfl⟩
      rcases hrc with ⟨_, rfl⟩ | ⟨pkt, _, rfl⟩
      · exact hi2.1
      · exact (inv_onReceive pkt v2 hi2.1 (by rw [hi2.2]; exact hs)).1
  · simp only [Option.some.injEq] at h
    subst h
    refine ⟨hi.window_nonneg, hi.window_le, hi.rto_le, ?_, fun _ => rfl⟩
    simp [allACKsReceived, freeUnACKs, getUnACKCount, MAX_WINDOW_SIZE]
  · simp only [Option.some.injEq] at h
    subst h
    exact hi

theorem inv_mainLoop (evs : List Event) : ∀ v v1, Inv v → mainLoop evs v = some v1 → Inv v1 := by
  induction evs with
  | nil =>
    intro v v1 hi h
    simp only [mainLoop, Option.some.injEq] at h
    subst h
    exact hi
  | cons ev evs ih =>
    intro v v1 hi h
    unfold mainLoop at h
    split at h
    · exact absurd h (by simp)
    · rename_i w hw
      exact ih w v1 (inv_loopBody ev v w hi hw) h

theorem count_le_window_loopBody (ev : Event) (v v1 : Vars) (hi : Inv v)
    (hc : getUnACKCount v.unACKHead ≤ v.windowSize) (hno : timeoutFires ev v = false)
    (h : loopBody ev v = some v1) : getUnACKCount v1.unACKHead ≤ v1.windowSize := by
  unfold loopBody at h
  split at h
  · rename_i hst
    obtain ⟨_, h2, _, _, h5⟩ := sendingPackets_some ev v v1 h
    have hnil := hi.sending_empty hst
    have hw0 := hi.window_nonneg
    rw [getUnACKCount_eq_length, h2]
    rw [hnil] at h5
    simp only [List.length_nil, zero_add] at h5
    have : ((v.windowSize.toNat : Nat) : Int) = v.windowSize := Int.toNat_of_nonneg hw0
    omega
  · rename_i hst
    rcases waitForACKs_some ev v v1 h with ⟨_, rfl⟩ | ⟨hne, v2, hto, hrc⟩
    · exact hc
    · have h0 : getUnACKCount v.unACKHead ≠ 0 := fun e => hne ((getUnACKCount_eq_zero_iff _).mp e)
      have hpos : getUnACKCount v.unACKHead > 0 := by
        rw [getUnACKCount_eq_length] at h0 ⊢
        omega
      rcases hto with ⟨ht, _⟩ | ⟨_, rfl⟩
      · simp [timeoutFires, hst, h0, ht, hpos] at hno
      · rcases hrc with ⟨_, rfl⟩ | ⟨pkt, _, rfl⟩
        · exact hc
        · by_cases hm : pkt.ackNum ∈ v.unACKHead
          · rw [onReceive_of_mem pkt { v with endTime := ev.now } hm]
            dsimp only
            have hle := hi.count_le
            rw [getUnACKCount_eq_length] at hc hle ⊢
            rw [deleteFromUnACKs_eq_erase, List.length_erase_of_mem hm]
            have hlen : 0 < v.unACKHead.length := List.length_pos.mpr hne
            split_ifs with hw
            · omega
            · omega
          · rw [onReceive_of_not_mem pkt { v with endTime := ev.now } hm]
            exact hc
  · simp only [Option.some.injEq] at h
    subst h
    simp only [allACKsReceived, freeUnACKs, getUnACKCount]
    exact hi.window_nonneg
  · simp only [Option.some.injEq] at h
    subst h
    exact hc

theorem count_le_window_mainLoop (evs : List Event) : ∀ v v1, Inv v →
    getUnACKCount v.unACKHead ≤ v.windowSize → noTimeouts evs v = true →
    mainLoop evs v = some v1 → getUnACKCount v1.unACKHead ≤ v1.windowSize := by
  induction evs with
  | nil =>
    intro v v1 _ hc _ h
    simp only [mainLoop, Option.some.injEq] at h
    subst h
    exact hc
  | cons ev evs ih =>
    intro v v1 hi hc hno h
    unfold mainLoop at h
    unfold noTimeouts at hno
    split at h
    · exact absurd h (by simp)
    · rename_i w hw
      simp only [hw, Bool.and_eq_true, Bool.not_eq_true'] at hno
      exact ih w v1 (inv_loopBody ev v w hi hw)
        (count_le_window_loopBody ev v w hi hc hno.1 hw) hno.2 h

/-! ## Window, unacknowledged-list and RTO bounds -/

set_option maxRecDepth 100000

/-- C1, as the code has it: in every state the main loop reaches from the initial state
(window 1), for every send buffer, number of lines and sequence of clock readings and
received frames, `0 ≤ windowSize ≤ MAX_WINDOW_SIZE`.  The lower bound is 0, not 1. -/
theorem window_bounds (arr : List Packet) (n : Int) (t0 t1 : Timeval) (evs : List Event)
    (v : Vars) (h : mainLoop evs (initVars arr n t0 t1) = some v) :
    0 ≤ v.windowSize ∧ v.windowSize ≤ MAX_WINDOW_SIZE :=
  have hi := inv_mainLoop evs _ v (inv_initVars arr n t0 t1) h
  ⟨hi.window_nonneg, hi.window_le⟩

theorem window_bounds_witness :
    ∃ v, mainLoop ackRun (initVars oneLineBuffer 1 (atMs 0) (atMs 0)) = some v ∧
      0 ≤ v.windowSize ∧ v.windowSize ≤ MAX_WINDOW_SIZE :=
  ⟨_, rfl, window_bounds oneLineBuffer 1 (atMs 0) (atMs 0) ackRun _ rfl⟩

/-- C1 fails as stated: with a one-line file, a timeout while the window is 1 leaves the
transmitter in `WaitForACKs` with window `1 / 2 = 0`. -/
theorem window_zero_after_timeout :
    ∃ v, mainLoop timeoutRun (initVars oneLineBuffer 1 (atMs 0) (atMs 0)) = some v ∧
      v.state = State.WaitForACKs ∧ v.windowSize = 0 ∧
      ¬ (1 ≤ v.windowSize ∧ v.windowSize ≤ MAX_WINDOW_SIZE) :=
  ⟨_, rfl, rfl, rfl, by decide⟩

/-- C2, as the code has it: in every reachable state the unacknowledged list has at most
`MAX_WINDOW_SIZE` entries; and it has at most `windowSize` entries in every state reached
with no timeout since an entry into `SendingPackets` (the initial state or a later one,
whatever happened before it): the run splits into `evs1`, after which the state is
`SendingPackets`, and `evs2`, in which the timeout branch is never taken. -/
theorem unack_count_bounds (arr : List Packet) (n : Int) (t0 t1 : Timeval)
    (evs1 evs2 : List Event) (v1 v : Vars)
    (h1 : mainLoop evs1 (initVars arr n t0 t1) = some v1) (h2 : mainLoop evs2 v1 = some v) :
    getUnACKCount v.unACKHead ≤ MAX_WINDOW_SIZE ∧
    (v1.state = State.SendingPackets → noTimeouts evs2 v1 = true →
      getUnACKCount v.unACKHead ≤ v.windowSize) := by
  have hi1 := inv_mainLoop evs1 _ v1 (inv_initVars arr n t0 t1) h1
  refine ⟨(inv_mainLoop evs2 _ v hi1 h2).count_le, ?_⟩
  intro hst hno
  have hc : getUnACKCount v1.unACKHead ≤ v1.windowSize := by
    rw [hi1.sending_empty hst]
    exact hi1.window_nonneg
  exact count_le_window_mainLoop evs2 v1 v hi1 hc hno h2

theorem unack_count_bounds_witness :
    mainLoop recoveryRun (initVars threeLineBuffer 3 (atMs 0) (atMs 0)) = some afterRecovery ∧
    noTimeouts recoveryRun (initVars threeLineBuffer 3 (atMs 0) (atMs 0)) = false ∧
    afterRecovery.state = State.SendingPackets ∧
    mainLoop nextBurstRun afterRecovery = some afterNextBurst ∧
    noTimeouts nextBurstRun afterRecovery = true ∧
    afterNextBurst.unACKHead = [2] ∧ afterNextBurst.windowSize = 1 ∧
    getUnACKCount afterNextBurst.unACKHead ≤ MAX_WINDOW_SIZE ∧
    getUnACKCount afterNextBurst.unACKHead ≤ afterNextBurst.windowSize := by
  have h1 : mainLoop recoveryRun (initVars threeLineBuffer 3 (atMs 0) (atMs 0))
      = some afterRecovery := by decide!
  have h2 : mainLoop nextBurstRun afterRecovery = some afterNextBurst := by decide!
  have hst : afterRecovery.state = State.SendingPackets := by decide!
  have hno : noTimeouts nextBurstRun afterRecovery = true := by decide!
  have h := unack_count_bounds threeLineBuffer 3 (atMs 0) (atMs 0) recoveryRun nextBurstRun
    afterRecovery afterNextBurst h1 h2
  exact ⟨h1, by decide!, hst, h2, hno, by decide!, by decide!, h.1, h.2 hst hno⟩

/-- C2 fails as stated: after the timeout of `timeoutRun` the list still holds sequence
number 1 while the window has been halved to 0. -/
theorem unack_count_exceeds_window :
    ∃ v, mainLoop timeoutRun (initVars oneLineBuffer 1 (atMs 0) (atMs 0)) = some v ∧
      v.unACKHead = [1] ∧ v.windowSize = 0 ∧
      ¬ (getUnACKCount v.unACKHead ≤ v.windowSize) :=
  ⟨_, rfl, rfl, rfl, by decide⟩

/-- C3: `timeoutInterval` is `1000 + 4 * 250 = 2000 ≤ MAX_TIMEOUT_INTERVAL` in the initial
state, and at most `MAX_TIMEOUT_INTERVAL` (5000) after `updateTimeoutInterval`, whatever
`estimatedRTT`, `devRTT`, `start` and `end` (hence `sampleRTT`) are; consequently it is at
most 5000 in every state the main loop reaches. -/
theorem timeoutInterval_le_max (arr : List Packet) (n : Int) (t0 t1 : Timeval) (v : Vars)
    (evs : List Event) (w : Vars) :
    (initVars arr n t0 t1).timeoutInterval = 1000 + 4 * 250 ∧
    (initVars arr n t0 t1).timeoutInterval ≤ MAX_TIMEOUT_INTERVAL ∧
    (updateTimeoutInterval v).timeoutInterval ≤ MAX_TIMEOUT_INTERVAL ∧
    MAX_TIMEOUT_INTERVAL = 5000 ∧
    (mainLoop evs (initVars arr n t0 t1) = some w →
      w.timeoutInterval ≤ MAX_TIMEOUT_INTERVAL) :=
  ⟨rfl, show (1000 + 4 * 250 : Int) ≤ 5000 by decide, updateTimeoutInterval_le v, rfl,
    fun h => (inv_mainLoop evs _ w (inv_initVars arr n t0 t1) h).rto_le⟩

theorem timeoutInterval_le_max_witness :
    ∃ w, mainLoop ackRun (initVars oneLineBuffer 1 (atMs 0) (atMs 0)) = some w ∧
      w.timeoutInterval ≤ MAX_TIMEOUT_INTERVAL :=
  ⟨_, rfl,
    (timeoutInterval_le_max oneLineBuffer 1 (atMs 0) (atMs 0) afterSend ackRun _).2.2.2.2 rfl⟩

/-! ## The RTO update -/

theorem truncToInt_eq_specTrunc (x : ℚ) : truncToInt x = specTrunc x := by
  unfold truncToInt specTrunc
  have hden : (0 : Int) ≤ x.den := Int.natCast_nonneg _
  split_ifs with h
  · rw [Rat.floor_def, Int.tdiv_eq_ediv (Rat.num_nonneg.mpr h) hden]
  · have hx : x < 0 := lt_of_not_le h
    have hn : x.num < 0 := Rat.num_neg.mpr hx
    have hc : ⌈x⌉ = -⌊-x⌋ := by rw [Int.floor_neg, neg_neg]
    have h2 : x.num = -(-x.num) := by ring
    rw [hc, Rat.floor_def, Rat.neg_num, Rat.neg_den]
    conv_lhs => rw [h2, Int.neg_tdiv, Int.tdiv_eq_ediv (by omega) hden]

theorem specRTO_closed (e d s : Int) :
    specRTO e d s =
      (Int.tdiv (7 * e + s) 8, Int.tdiv (3 * d + |s - Int.tdiv (7 * e + s) 8|) 4,
        min 5000 (Int.tdiv (7 * e + s) 8
          + 4 * Int.tdiv (3 * d + |s - Int.tdiv (7 * e + s) 8|) 4)) := by
  have ha : (1 : ℚ) / 8 = DEFAULT_RTT_ALPHA := by unfold DEFAULT_RTT_ALPHA; norm_num
  have hb : (1 : ℚ) / 4 = DEFAULT_RTT_BETA := by unfold DEFAULT_RTT_BETA; norm_num
  unfold specRTO
  simp only [← truncToInt_eq_specTrunc, ha, hb, estimatedRTT_closed, devRTT_closed]

/-- C4, as the code has it: with `s = delay(start, end)`, when `s` fits in the 32-bit `int`
`sampleRTT` and the `int` computations `|s - e'|`, `4·d'` and `e' + 4·d'` do not overflow
(`e'`, `d'` being the values of the specification's formulas), `updateTimeoutInterval`
stores `s` in `sampleRTT` and sets (`estimatedRTT`, `devRTT`, `timeoutInterval`) to the
values of the specification's formulas with α = 1/8 and β = 1/4, each truncated toward
zero, the deviation using the updated estimate, the interval being `min 5000 (e' + 4 d')`.
In integer terms `e' = (7 e + s) / 8` and `d' = (3 d + |s - e'|) / 4` with truncating
division. -/
theorem updateTimeoutInterval_spec (v : Vars) (hs : fitsInt (delay v.start v.endTime))
    (ha : fitsInt |delay v.start v.endTime
      - (specRTO v.estimatedRTT v.devRTT (delay v.start v.endTime)).1|)
    (hd : fitsInt (4 * (specRTO v.estimatedRTT v.devRTT (delay v.start v.endTime)).2.1))
    (hsum : fitsInt ((specRTO v.estimatedRTT v.devRTT (delay v.start v.endTime)).1
      + 4 * (specRTO v.estimatedRTT v.devRTT (delay v.start v.endTime)).2.1)) :
    (updateTimeoutInterval v).sampleRTT = delay v.start v.endTime ∧
    ((updateTimeoutInterval v).estimatedRTT, (updateTimeoutInterval v).devRTT,
        (updateTimeoutInterval v).timeoutInterval)
      = specRTO v.estimatedRTT v.devRTT (delay v.start v.endTime) ∧
    (updateTimeoutInterval v).estimatedRTT
      = Int.tdiv (7 * v.estimatedRTT + delay v.start v.endTime) 8 ∧
    (updateTimeoutInterval v).devRTT
      = Int.tdiv (3 * v.devRTT
          + |delay v.start v.endTime - (updateTimeoutInterval v).estimatedRTT|) 4 ∧
    (updateTimeoutInterval v).timeoutInterval
      = min 5000
          ((updateTimeoutInterval v).estimatedRTT + 4 * (updateTimeoutInterval v).devRTT) := by
  rw [specRTO_closed] at ha hd hsum
  rw [updateTimeoutInterval_exact v hs ha hd hsum, specRTO_closed]
  exact ⟨rfl, rfl, rfl, rfl, rfl⟩

theorem updateTimeoutInterval_spec_witness :
    (updateTimeoutInterval steadyVars).sampleRTT = 40 ∧
    ((updateTimeoutInterval steadyVars).estimatedRTT, (updateTimeoutInterval steadyVars).devRTT,
        (updateTimeoutInterval steadyVars).timeoutInterval) = specRTO 1000 250 40 ∧
    specRTO 1000 250 40 = (880, 397, 2468) := by
  have h := updateTimeoutInterval_spec steadyVars (by decide)
    (by rw [specRTO_closed]; decide) (by rw [specRTO_closed]; decide)
    (by rw [specRTO_closed]; decide)
  exact ⟨h.1, h.2.1, by rw [specRTO_closed]; decide⟩

/-- C4 fails as stated: with `estimatedRTT` 1000, `devRTT` 250 and the sample
`s = delay(start, end) = 2147483647` the formulas give `e' = 268436330`, `d' = 469762016`
and `min(5000, e' + 4·d') = 5000`, but the `int` sum `e' + 4·d'` wraps to -2147482902,
which is below 5000, and that is what `updateTimeoutInterval` stores in `timeoutInterval`. -/
theorem timeoutInterval_wraps :
    (overflowVars.estimatedRTT, overflowVars.devRTT) = (1000, 250) ∧
    delay overflowVars.start overflowVars.endTime = 2147483647 ∧
    specRTO 1000 250 2147483647 = (268436330, 469762016, 5000) ∧
    (updateTimeoutInterval overflowVars).estimatedRTT = 268436330 ∧
    (updateTimeoutInterval overflowVars).devRTT = 469762016 ∧
    (updateTimeoutInterval overflowVars).timeoutInterval = -2147482902 ∧
    (updateTimeoutInterval overflowVars).timeoutInterval
      ≠ (specRTO 1000 250 2147483647).2.2 := by
  have hspec : specRTO 1000 250 2147483647 = (268436330, 469762016, 5000) := by
    rw [specRTO_closed]; decide
  have hupd : (updateTimeoutInterval overflowVars).timeoutInterval = -2147482902 := by
    rw [updateTimeoutInterval_closed]; decide
  refine ⟨rfl, by decide, hspec, ?_, ?_, hupd, ?_⟩
  · rw [updateTimeoutInterval_closed]; decide
  · rw [updateTimeoutInterval_closed]; decide
  · rw [hupd, hspec]; decide

/-! ## Received frames -/

/-- C5, as the code has it: a received frame whose `ackNum` is not in the unacknowledged
list leaves the list and the window as they were, but the receive branch still runs
`updateTimeoutInterval` on the current sample: the whole effect of the frame is that
update of `sampleRTT`, `estimatedRTT`, `devRTT` and `timeoutInterval`. -/
theorem unknown_ack_effect (pkt : Packet) (v : Vars) (h : pkt.ackNum ∉ v.unACKHead) :
    onReceive pkt v = updateTimeoutInterval v ∧
    (onReceive pkt v).unACKHead = v.unACKHead ∧
    (onReceive pkt v).windowSize = v.windowSize := by
  rw [onReceive_of_not_mem pkt v h]
  exact ⟨rfl, rfl, rfl⟩

theorem unknown_ack_effect_witness :
    (ackFrame 7).ackNum ∉ afterSend.unACKHead ∧
    onReceive (ackFrame 7) afterSend = updateTimeoutInterval afterSend ∧
    (onReceive (ackFrame 7) afterSend).unACKHead = afterSend.unACKHead ∧
    (onReceive (ackFrame 7) afterSend).windowSize = afterSend.windowSize :=
  ⟨by decide, unknown_ack_effect (ackFrame 7) afterSend (by decide)⟩

/-- C5 fails as stated: the one-line file has been sent (sequence number 1 unacknowledged)
and 40 ms later, before any timeout, a frame with `ackNum = 7` arrives.  The list and the
window stay, but `estimatedRTT` goes from 1000 to 880, `devRTT` from 250 to 397 and
`timeoutInterval` from 2000 to 2468. -/
theorem unknown_ack_changes_rto :
    ∃ v0 v1, mainLoop sendRun (initVars oneLineBuffer 1 (atMs 0) (atMs 0)) = some v0 ∧
      v0.state = State.WaitForACKs ∧ v0.unACKHead = [1] ∧
      strayAckEvent.recv = some (ackFrame 7) ∧ (ackFrame 7).ackNum ∉ v0.unACKHead ∧
      timeoutFires strayAckEvent v0 = false ∧
      loopBody strayAckEvent v0 = some v1 ∧
      (v0.estimatedRTT, v0.devRTT, v0.timeoutInterval) = (1000, 250, 2000) ∧
      (v1.estimatedRTT, v1.devRTT, v1.timeoutInterval) = (880, 397, 2468) ∧
      ¬ (v1.unACKHead = v0.unACKHead ∧ v1.windowSize = v0.windowSize ∧
          v1.estimatedRTT = v0.estimatedRTT ∧ v1.devRTT = v0.devRTT ∧
          v1.timeoutInterval = v0.timeoutInterval) :=
  ⟨_, _, rfl, rfl, rfl, rfl, by decide, rfl, rfl, rfl, by decide!, by decide!⟩

/-- C6: `deleteFromUnACKs` removes the first occurrence of the sequence number and keeps
all other entries in order (it is `List.erase`); a list without the number is returned
unchanged; and the receive branch, given a frame whose `ackNum` occurs in the list, leaves
the list with exactly that first occurrence removed. -/
theorem deleteFromUnACKs_spec (l l1 l2 : List Int) (q : Int) (pkt : Packet) (v : Vars) :
    deleteFromUnACKs l q = l.erase q ∧
    (q ∉ l → deleteFromUnACKs l q = l) ∧
    (q ∉ l1 → deleteFromUnACKs (l1 ++ q :: l2) q = l1 ++ l2) ∧
    (pkt.ackNum ∉ l1 → v.unACKHead = l1 ++ pkt.ackNum :: l2 →
      (onReceive pkt v).unACKHead = l1 ++ l2) := by
  have herase : ∀ (a : Int) (m1 m2 : List Int), a ∉ m1 → (m1 ++ a :: m2).erase a = m1 ++ m2 := by
    intro a m1 m2 ha
    rw [List.erase_append_right _ ha, List.erase_cons_head]
  refine ⟨deleteFromUnACKs_eq_erase l q, ?_, ?_, ?_⟩
  · intro hq
    rw [deleteFromUnACKs_eq_erase, List.erase_of_not_mem hq]
  · intro hq
    rw [deleteFromUnACKs_eq_erase, herase q l1 l2 hq]
  · intro hq hv
    have hm : pkt.ackNum ∈ v.unACKHead := by rw [hv]; simp
    rw [onReceive_of_mem pkt v hm]
    show deleteFromUnACKs v.unACKHead pkt.ackNum = l1 ++ l2
    rw [hv, deleteFromUnACKs_eq_erase, herase _ l1 l2 hq]

theorem deleteFromUnACKs_spec_witness :
    deleteFromUnACKs [5, 6, 8] 7 = [5, 6, 8] ∧
    deleteFromUnACKs ([5, 6] ++ 7 :: [8, 7]) 7 = [5, 6] ++ [8, 7] ∧
    (onReceive (ackFrame 1) afterSend).unACKHead = [] ++ [] :=
  ⟨(deleteFromUnACKs_spec [5, 6, 8] [5, 6] [8, 7] 7 (ackFrame 1) afterSend).2.1 (by decide),
   (deleteFromUnACKs_spec [5, 6, 8] [5, 6] [8, 7] 7 (ackFrame 1) afterSend).2.2.1 (by decide),
   (deleteFromUnACKs_spec [] [] [] 7 (ackFrame 1) afterSend).2.2.2 (by decide) rfl⟩

/-- C7: when the receive branch gets a frame whose `ackNum` is in the unacknowledged list
and the window is at most `MAX_WINDOW_SIZE` (as it is in every reachable state), the
window becomes `min (window + 1) MAX_WINDOW_SIZE`: one more below 20, still 20 at 20. -/
theorem window_after_ack (pkt : Packet) (v : Vars) (hw : v.windowSize ≤ MAX_WINDOW_SIZE)
    (hm : pkt.ackNum ∈ v.unACKHead) :
    (onReceive pkt v).windowSize = min (v.windowSize + 1) MAX_WINDOW_SIZE ∧
    (v.windowSize < 20 → (onReceive pkt v).windowSize = v.windowSize + 1) ∧
    (v.windowSize = 20 → (onReceive pkt v).windowSize = 20) := by
  rw [onReceive_of_mem pkt v hm]
  dsimp only
  unfold MAX_WINDOW_SIZE at *
  refine ⟨?_, ?_, ?_⟩
  · rw [min_def]
    split_ifs <;> omega
  · intro h
    split_ifs <;> omega
  · intro h
    split_ifs <;> omega

theorem window_after_ack_witness :
    afterSend.windowSize ≤ MAX_WINDOW_SIZE ∧ (ackFrame 1).ackNum ∈ afterSend.unACKHead ∧
    afterSend.windowSize = 1 ∧
    (onReceive (ackFrame 1) afterSend).windowSize = min (afterSend.windowSize + 1) MAX_WINDOW_SIZE ∧
    (afterSend.windowSize < 20 →
      (onReceive (ackFrame 1) afterSend).windowSize = afterSend.windowSize + 1) ∧
    (afterSend.windowSize = 20 → (onReceive (ackFrame 1) afterSend).windowSize = 20) :=
  ⟨by decide, by decide, rfl, window_after_ack (ackFrame 1) afterSend (by decide) (by decide)⟩

/-! ## Retransmission -/

theorem readPacket_some_of_lt (arr : List Packet) (i : Int) (h0 : 0 ≤ i) (h1 : i < arr.length) :
    ∃ p, arr[i.toNat]? = some p ∧ readPacket arr i = some p := by
  have hlt : i.toNat < arr.length := by omega
  exact ⟨arr[i.toNat], List.getElem?_eq_getElem hlt,
    by simp [readPacket, h0, List.getElem?_eq_getElem hlt]⟩

theorem readPacket_set_mark (arr : List Packet) (i : Nat) (p : Packet) (hp : arr[i]? = some p)
    (j : Int) :
    (readPacket (arr.set i (markRetransmit p)) j).map markRetransmit
      = (readPacket arr j).map markRetransmit := by
  unfold readPacket
  split_ifs with h
  · by_cases hij : i = j.toNat
    · subst hij
      have hlt : j.toNat < arr.length := by
        rcases List.getElem?_eq_some.mp hp with ⟨hl, _⟩
        exact hl
      rw [List.getElem?_set_self hlt, hp]
      rfl
    · rw [List.getElem?_set_ne hij]
  · rfl

theorem retransmitUnACKs_spec : ∀ (unACKs : List Int) (arr : List Packet),
    (∀ q ∈ unACKs, 1 ≤ q ∧ q ≤ arr.length) →
    ∃ arr1 out, retransmitUnACKs arr unACKs = some (arr1, out) ∧ arr1.length = arr.length ∧
      out.map some = unACKs.map (fun q => (readPacket arr (q - 1)).map markRetransmit) ∧
      ∀ j, (readPacket arr1 j).map markRetransmit = (readPacket arr j).map markRetransmit := by
  intro unACKs
  induction unACKs with
  | nil =>
    intro arr _
    exact ⟨arr, [], rfl, rfl, rfl, fun _ => rfl⟩
  | cons q rest ih =>
    intro arr h
    have hq := h q (by simp)
    obtain ⟨p, hp, hread⟩ := readPacket_some_of_lt arr (q - 1) (by omega) (by omega)
    have hrest : ∀ t ∈ rest, 1 ≤ t ∧ t ≤ (arr.set (q - 1).toNat (markRetransmit p)).length := by
      intro t ht
      rw [List.length_set]
      exact h t (by simp [ht])
    obtain ⟨arr1, out, hrun, hlen, hout, hsame⟩ := ih _ hrest
    refine ⟨arr1, markRetransmit p :: out, ?_, ?_, ?_, ?_⟩
    · simp only [retransmitUnACKs, hread]
      show (match retransmitUnACKs (arr.set (q - 1).toNat (markRetransmit p)) rest with
        | none => none
        | some (arr, out) => some (arr, markRetransmit p :: out)) = _
      rw [hrun]
    · rw [hlen, List.length_set]
    · simp only [List.map_cons, hread, Option.map_some', hout]
      congr 1
      apply List.map_congr_left
      intro t _
      exact readPacket_set_mark arr _ p hp (t - 1)
    · intro j
      rw [hsame j, readPacket_set_mark arr _ p hp j]

/-- C8: when every entry `q` of the unacknowledged list satisfies `1 ≤ q ≤ |arrPackets|`,
`retransmitUnACKs` returns, having sent exactly one datagram per list entry, in list order;
the `i`-th is `arrPackets[unACKs[i] - 1]` with `retransmit = true` and kind, sequence
number, payload, window and ack number as buffered.  The timeout branch built on it sends
exactly these datagrams and leaves the unacknowledged list as it was. -/
theorem retransmit_emits (unACKs : List Int) (arr : List Packet) (ev : Event) (v : Vars)
    (h : ∀ q ∈ unACKs, 1 ≤ q ∧ q ≤ arr.length) :
    ∃ arr1 out, retransmitUnACKs arr unACKs = some (arr1, out) ∧
      out.length = unACKs.length ∧
      (∀ i (hi : i < unACKs.length), ∃ p f, readPacket arr (unACKs[i] - 1) = some p ∧
        out[i]? = some f ∧ f.retransmit = true ∧ f.packetType = p.packetType ∧
        f.seqNum = p.seqNum ∧ f.data = p.data ∧ f.windowSize = p.windowSize ∧
        f.ackNum = p.ackNum) ∧
      (v.arrPackets = arr → v.unACKHead = unACKs →
        ∃ v1, onTimeout ev v = some v1 ∧ v1.unACKHead = unACKs ∧ v1.sent = v.sent ++ out) := by
  obtain ⟨arr1, out, hrun, _, hout, _⟩ := retransmitUnACKs_spec unACKs arr h
  have hlen : out.length = unACKs.length := by
    have := congrArg List.length hout
    simpa using this
  refine ⟨arr1, out, hrun, hlen, ?_, ?_⟩
  · intro i hi
    have hq := h unACKs[i] (List.getElem_mem hi)
    obtain ⟨p, _, hread⟩ := readPacket_some_of_lt arr (unACKs[i] - 1) (by omega) (by omega)
    have hi2 : i < out.length := by omega
    have hget := congrArg (fun l => l[i]?) hout
    simp only [List.getElem?_map, List.getElem?_eq_getElem hi, List.getElem?_eq_getElem hi2,
      Option.map_some', hread, Option.some.injEq] at hget
    exact ⟨p, markRetransmit p, hread, by rw [List.getElem?_eq_getElem hi2, hget],
      rfl, rfl, rfl, rfl, rfl, rfl⟩
  · intro ha hu
    subst ha hu
    refine ⟨{ updateTimeoutInterval { v with arrPackets := arr1, sent := v.sent ++ out } with
              start := ev.now2, windowSize := Int.tdiv v.windowSize 2 }, ?_, rfl, rfl⟩
    unfold onTimeout
    rw [hrun]
    rfl

theorem retransmit_emits_witness :
    (∀ q ∈ afterSend.unACKHead, 1 ≤ q ∧ q ≤ (afterSend.arrPackets.length : Int)) ∧
    afterSend.unACKHead = [1] ∧
    ∃ arr1 out, retransmitUnACKs afterSend.arrPackets afterSend.unACKHead = some (arr1, out) ∧
      out.length = afterSend.unACKHead.length ∧
      (∀ i (hi : i < afterSend.unACKHead.length), ∃ p f,
        readPacket afterSend.arrPackets (afterSend.unACKHead[i] - 1) = some p ∧
        out[i]? = some f ∧ f.retransmit = true ∧ f.packetType = p.packetType ∧
        f.seqNum = p.seqNum ∧ f.data = p.data ∧ f.windowSize = p.windowSize ∧
        f.ackNum = p.ackNum) ∧
      (afterSend.arrPackets = afterSend.arrPackets → afterSend.unACKHead = afterSend.unACKHead →
        ∃ v1, onTimeout strayAckEvent afterSend = some v1 ∧
          v1.unACKHead = afterSend.unACKHead ∧ v1.sent = afterSend.sent ++ out) :=
  ⟨by decide, rfl,
    retransmit_emits afterSend.unACKHead afterSend.arrPackets strayAckEvent afterSend
      (by decide)⟩

/-! ## The `SendingPackets` burst -/

theorem seqRange_succ (q : Int) (m : Nat) : seqRange q (m + 1) = q :: seqRange (q + 1) m := by
  unfold seqRange
  rw [List.range_succ_eq_map, List.map_cons, List.map_map]
  simp only [Nat.cast_zero, add_zero, List.cons.injEq, true_and]
  apply List.map_congr_left
  intro i _
  simp only [Function.comp, Nat.succ_eq_add_one, Nat.cast_add, Nat.cast_one]
  ring

theorem seqRange_one (q : Int) : seqRange q 1 = [q] := by
  rw [seqRange_succ]
  rfl

theorem sendNext_inRange (v : Vars) (h0 : 0 ≤ v.lineCounter)
    (hp : v.arrPacketsPtr = v.lineCounter) (hlt : v.lineCounter < v.arrPackets.length) :
    ∃ p, v.arrPackets[v.lineCounter.toNat]? = some p ∧
      sendNext v = some
        { v with unACKHead := v.unACKHead ++ [v.seqNum],
                 arrPackets := v.arrPackets.set v.lineCounter.toNat
                   (dataFrame p v.seqNum v.windowSize),
                 seqNum := v.seqNum + 1, arrPacketsPtr := v.arrPacketsPtr + 1,
                 sent := v.sent ++ [dataFrame p v.seqNum v.windowSize] } := by
  obtain ⟨p, hp1, hread⟩ := readPacket_some_of_lt v.arrPackets v.lineCounter h0 hlt
  have hlt2 : v.lineCounter.toNat < v.arrPackets.length := by omega
  refine ⟨p, hp1, ?_⟩
  have hread2 : readPacket (v.arrPackets.set v.lineCounter.toNat
      (dataFrame p v.seqNum v.windowSize)) v.arrPacketsPtr
        = some (dataFrame p v.seqNum v.windowSize) := by
    rw [hp]
    simp [readPacket, h0, List.getElem?_set_self hlt2]
  unfold sendNext
  rw [hread]
  dsimp only
  have hdf : ({ p with packetType := PacketType.DATA, seqNum := v.seqNum,
                       windowSize := v.windowSize, ackNum := INVALID_ACK_NUM,
                       retransmit := false } : Packet) = dataFrame p v.seqNum v.windowSize := rfl
  rw [hdf, hread2, appendToUnACKs_eq_append]

theorem sendWindow_spec (ev : Event) (k : Nat) : ∀ v : Vars, 0 ≤ v.lineCounter →
    v.arrPacketsPtr = v.lineCounter → v.lineCounter < v.totalLines →
    v.totalLines ≤ v.arrPackets.length →
    ∃ (v1 : Vars) (b : Bool) (frames : List Packet) (m : Nat),
      sendWindow k ev v = some (v1, b) ∧
      (m : Int) = min (k : Int) (v.totalLines - v.lineCounter) ∧
      frames.length = m ∧
      v1.sent = v.sent ++ frames ∧
      frames.map (fun f => f.seqNum) = seqRange v.seqNum m ∧
      (∀ f ∈ frames, f.packetType = PacketType.DATA ∧ f.windowSize = v.windowSize ∧
        f.ackNum = INVALID_ACK_NUM ∧ f.retransmit = false) ∧
      v1.unACKHead = v.unACKHead ++ seqRange v.seqNum m ∧
      v1.seqNum = v.seqNum + m ∧ v1.lineCounter = v.lineCounter + m ∧
      v1.arrPacketsPtr = v.arrPacketsPtr + m ∧
      v1.arrPackets.length = v.arrPackets.length := by
  induction k with
  | zero =>
    intro v h0 hp hlt hlen
    refine ⟨v, false, [], 0, rfl, ?_, rfl, by simp, rfl, by simp, by simp [seqRange], by simp,
      by simp, by simp, rfl⟩
    simp only [Nat.cast_zero]
    omega
  | succ k ih =>
    intro v h0 hp hlt hlen
    obtain ⟨p, _, hsend⟩ := sendNext_inRange v h0 hp (by omega)
    by_cases hlast : v.lineCounter + 1 = v.totalLines
    · refine ⟨{ v with unACKHead := v.unACKHead ++ [v.seqNum],
                         arrPackets := v.arrPackets.set v.lineCounter.toNat
                           (dataFrame p v.seqNum v.windowSize),
                         seqNum := v.seqNum + 1, arrPacketsPtr := v.arrPacketsPtr + 1,
                         sent := v.sent ++ [dataFrame p v.seqNum v.windowSize],
                         lineCounter := v.lineCounter + 1, state := State.WaitForACKs,
                         start := ev.now },
        true, [dataFrame p v.seqNum v.windowSize], 1, ?_, ?_, rfl, ?_, ?_, ?_, ?_, ?_, ?_,
        ?_, ?_⟩
      · unfold sendWindow
        rw [hsend]
        simp only [hlast, if_true]
      · push_cast
        omega
      · rfl
      · rw [seqRange_one]
        rfl
      · intro f hf
        simp only [List.mem_singleton] at hf
        subst hf
        exact ⟨rfl, rfl, rfl, rfl⟩
      · rw [seqRange_one]
      · simp
      · simp
      · simp
      · simp
    · obtain ⟨v1, b, frames, m, hrun, hm, hfl, hsent, hseq, hall, hun, hsq, hlc, hptr, hal⟩ :=
        ih { v with unACKHead := v.unACKHead ++ [v.seqNum],
                    arrPackets := v.arrPackets.set v.lineCounter.toNat
                      (dataFrame p v.seqNum v.windowSize),
                    seqNum := v.seqNum + 1, arrPacketsPtr := v.arrPacketsPtr + 1,
                    sent := v.sent ++ [dataFrame p v.seqNum v.windowSize],
                    lineCounter := v.lineCounter + 1 }
          (by dsimp only; omega) (by dsimp only; omega) (by dsimp only; omega)
          (by dsimp only; rw [List.length_set]; exact hlen)
      dsimp only at hm hsent hseq hall hun hsq hlc hptr hal
      refine ⟨v1, b, dataFrame p v.seqNum v.windowSize :: frames, m + 1, ?_, ?_, ?_, ?_, ?_, ?_,
        ?_, ?_, ?_, ?_, ?_⟩
      · unfold sendWindow
        rw [hsend]
        simp only [hlast, if_false]
        exact hrun
      · push_cast
        omega
      · simp [hfl]
      · rw [hsent]; simp
      · rw [seqRange_succ, List.map_cons, hseq]; rfl
      · intro f hf
        rcases List.mem_cons.mp hf with rfl | hf
        · exact ⟨rfl, rfl, rfl, rfl⟩
        · exact hall f hf
      · rw [hun, seqRange_succ]; simp
      · rw [hsq]; push_cast; ring
      · rw [hlc]; push_cast; ring
      · rw [hptr]; push_cast; ring
      · rw [hal, List.length_set]

/-- C9: a `SendingPackets` iteration entered with window `w ≥ 1` and `k ≥ 1` lines
remaining (`k = totalLines - lineCounter`), the buffer holding all `totalLines` entries and
`arrPacketsPtr` pointing at entry `lineCounter`, completes; with `m = min w k` it sends
exactly `m` frames, all of kind DATA, with sequence numbers `seqNum, ..., seqNum + m - 1`
in that order, appends these numbers in the same order to the unacknowledged list, adds `m`
to both `seqNum` and `lineCounter`, and moves to `WaitForACKs`. -/
theorem sendingPackets_burst (ev : Event) (v : Vars) (hst : v.state = State.SendingPackets)
    (hw : 1 ≤ v.windowSize) (hk : 1 ≤ v.totalLines - v.lineCounter) (h0 : 0 ≤ v.lineCounter)
    (hp : v.arrPacketsPtr = v.lineCounter) (hlen : v.totalLines ≤ v.arrPackets.length) :
    ∃ (v1 : Vars) (frames : List Packet) (m : Nat),
      loopBody ev v = some v1 ∧
      (m : Int) = min v.windowSize (v.totalLines - v.lineCounter) ∧
      frames.length = m ∧
      v1.sent = v.sent ++ frames ∧
      frames.map (fun f => f.seqNum) = seqRange v.seqNum m ∧
      (∀ f ∈ frames, f.packetType = PacketType.DATA) ∧
      v1.unACKHead = v.unACKHead ++ seqRange v.seqNum m ∧
      v1.seqNum = v.seqNum + m ∧ v1.lineCounter = v.lineCounter + m ∧
      v1.state = State.WaitForACKs := by
  obtain ⟨w, b, frames, m, hrun, hm, hfl, hsent, hseq, hall, hun, hsq, hlc, _, _⟩ :=
    sendWindow_spec ev v.windowSize.toNat v h0 hp (by omega) hlen
  have hcast : ((v.windowSize.toNat : Nat) : Int) = v.windowSize :=
    Int.toNat_of_nonneg (by omega)
  rw [hcast] at hm
  refine ⟨{ w with start := if b then ev.now2 else ev.now, state := State.WaitForACKs },
    frames, m, ?_, hm, hfl, hsent, hseq, fun f hf => (hall f hf).1, hun, hsq, hlc, rfl⟩
  unfold loopBody
  rw [hst]
  dsimp only
  unfold sendingPackets
  rw [hrun]

theorem sendingPackets_burst_witness :
    (initVars oneLineBuffer 1 (atMs 0) (atMs 0)).state = State.SendingPackets ∧
    ∃ (v1 : Vars) (frames : List Packet) (m : Nat),
      loopBody strayAckEvent (initVars oneLineBuffer 1 (atMs 0) (atMs 0)) = some v1 ∧
      (m : Int) = min (initVars oneLineBuffer 1 (atMs 0) (atMs 0)).windowSize
        ((initVars oneLineBuffer 1 (atMs 0) (atMs 0)).totalLines
          - (initVars oneLineBuffer 1 (atMs 0) (atMs 0)).lineCounter) ∧
      frames.length = m ∧
      v1.sent = (initVars oneLineBuffer 1 (atMs 0) (atMs 0)).sent ++ frames ∧
      frames.map (fun f => f.seqNum)
        = seqRange (initVars oneLineBuffer 1 (atMs 0) (atMs 0)).seqNum m ∧
      (∀ f ∈ frames, f.packetType = PacketType.DATA) ∧
      v1.unACKHead = (initVars oneLineBuffer 1 (atMs 0) (atMs 0)).unACKHead
        ++ seqRange (initVars oneLineBuffer 1 (atMs 0) (atMs 0)).seqNum m ∧
      v1.seqNum = (initVars oneLineBuffer 1 (atMs 0) (atMs 0)).seqNum + m ∧
      v1.lineCounter = (initVars oneLineBuffer 1 (atMs 0) (atMs 0)).lineCounter + m ∧
      v1.state = State.WaitForACKs :=
  ⟨rfl, sendingPackets_burst strayAckEvent (initVars oneLineBuffer 1 (atMs 0) (atMs 0)) rfl
    (by decide) (by decide) (by decide) rfl (by decide)⟩

/-! ## Consistency of counters, list and buffer; totality of the main loop -/

theorem readPacket_set_self (arr : List Packet) (j : Int) (x : Packet) (h0 : 0 ≤ j)
    (h1 : j < arr.length) : readPacket (arr.set j.toNat x) j = some x := by
  have hlt : j.toNat < arr.length := by omega
  simp [readPacket, h0, List.getElem?_set_self hlt]

theorem readPacket_set_ne (arr : List Packet) (i j : Int) (x : Packet) (hi : 0 ≤ i)
    (hij : j ≠ i) : readPacket (arr.set i.toNat x) j = readPacket arr j := by
  unfold readPacket
  split_ifs with h
  · have hne : i.toNat ≠ j.toNat := by omega
    rw [List.getElem?_set_ne hne]
  · rfl

/-- One pass of the burst loop body followed by `lineCounter++` keeps `Wf`. -/
theorem wf_sendStep (v : Vars) (p : Packet) (st : State) (t : Timeval) (hwf : Wf v)
    (hlt : v.lineCounter < v.totalLines) :
    Wf { v with unACKHead := v.unACKHead ++ [v.seqNum],
                arrPackets := v.arrPackets.set v.lineCounter.toNat
                  (dataFrame p v.seqNum v.windowSize),
                seqNum := v.seqNum + 1, arrPacketsPtr := v.arrPacketsPtr + 1,
                sent := v.sent ++ [dataFrame p v.seqNum v.windowSize],
                lineCounter := v.lineCounter + 1, state := st, start := t } := by
  have h0 := hwf.lc_nonneg
  have hseq := hwf.seq_eq
  refine ⟨?_, ?_, ?_, ?_, ?_, ?_, ?_, ?_⟩
  · show 0 ≤ v.lineCounter + 1
    omega
  · show v.lineCounter + 1 ≤ v.totalLines
    omega
  · show v.totalLines ≤ ((v.arrPackets.set _ _).length : Int)
    rw [List.length_set]
    exact hwf.total_le
  · show v.seqNum + 1 = v.lineCounter + 1 + 1
    omega
  · show v.arrPacketsPtr + 1 = v.lineCounter + 1
    rw [hwf.ptr_eq]
  · intro q hq
    show 1 ≤ q ∧ q ≤ v.lineCounter + 1
    rcases List.mem_append.mp hq with hq | hq
    · have := hwf.unack_range q hq
      omega
    · simp only [List.mem_singleton] at hq
      omega
  · intro f hf
    show f.packetType = PacketType.DATA ∧ 1 ≤ f.seqNum ∧ f.seqNum ≤ v.lineCounter + 1
    rcases List.mem_append.mp hf with hf | hf
    · have := hwf.sent_range f hf
      exact ⟨this.1, this.2.1, by omega⟩
    · simp only [List.mem_singleton] at hf
      subst hf
      refine ⟨rfl, ?_, ?_⟩
      · show 1 ≤ v.seqNum
        omega
      · show v.seqNum ≤ v.lineCounter + 1
        omega
  · intro j hj0 hj1
    show ∃ q, readPacket (v.arrPackets.set v.lineCounter.toNat
      (dataFrame p v.seqNum v.windowSize)) j = some q ∧ q.packetType = PacketType.DATA ∧
      q.seqNum = j + 1
    have hj1' : j < v.lineCounter + 1 := hj1
    by_cases hj : j = v.lineCounter
    · subst hj
      have hlen := hwf.total_le
      rw [readPacket_set_self _ _ _ h0 (by omega)]
      exact ⟨_, rfl, rfl, hseq⟩
    · rw [readPacket_set_ne _ _ _ _ h0 hj]
      exact hwf.buffer_seq j hj0 (by omega)

theorem wf_sendWindow (ev : Event) (k : Nat) : ∀ v : Vars, Wf v →
    v.lineCounter < v.totalLines →
    ∃ v1 b, sendWindow k ev v = some (v1, b) ∧ Wf v1 ∧ v1.totalLines = v.totalLines := by
  induction k with
  | zero =>
    intro v hwf _
    exact ⟨v, false, rfl, hwf, rfl⟩
  | succ k ih =>
    intro v hwf hlt
    have hlen := hwf.total_le
    obtain ⟨p, _, hsend⟩ := sendNext_inRange v hwf.lc_nonneg hwf.ptr_eq (by omega)
    by_cases hlast : v.lineCounter + 1 = v.totalLines
    · refine ⟨_, true, ?_, wf_sendStep v p State.WaitForACKs ev.now hwf hlt, rfl⟩
      unfold sendWindow
      rw [hsend]
      simp only [hlast, if_true]
    · have hwf1 := wf_sendStep v p v.state v.start hwf hlt
      obtain ⟨v1, b, hrun, hwf2, htot⟩ :=
        ih _ hwf1 (by show v.lineCounter + 1 < v.totalLines; omega)
      refine ⟨v1, b, ?_, hwf2, htot⟩
      unfold sendWindow
      rw [hsend]
      simp only [hlast, if_false]
      exact hrun

theorem wf_onTimeout (ev : Event) (v : Vars) (hwf : Wf v) :
    ∃ v1, onTimeout ev v = some v1 ∧ Wf v1 ∧ v1.state = v.state ∧
      v1.totalLines = v.totalLines ∧ v1.lineCounter = v.lineCounter := by
  have hrange : ∀ q ∈ v.unACKHead, 1 ≤ q ∧ q ≤ v.arrPackets.length := by
    intro q hq
    have h1 := hwf.unack_range q hq
    have h2 := hwf.lc_le
    have h3 := hwf.total_le
    omega
  obtain ⟨arr1, out, hrun, hlen, hout, hsame⟩ := retransmitUnACKs_spec v.unACKHead v.arrPackets hrange
  refine ⟨{ updateTimeoutInterval { v with arrPackets := arr1, sent := v.sent ++ out } with
            start := ev.now2, windowSize := Int.tdiv v.windowSize 2 }, ?_, ?_, rfl, rfl, rfl⟩
  · unfold onTimeout
    rw [hrun]
    rfl
  · refine ⟨hwf.lc_nonneg, hwf.lc_le, ?_, hwf.seq_eq, hwf.ptr_eq, hwf.unack_range, ?_, ?_⟩
    · show v.totalLines ≤ (arr1.length : Int)
      rw [hlen]
      exact hwf.total_le
    · intro f hf
      show f.packetType = PacketType.DATA ∧ 1 ≤ f.seqNum ∧ f.seqNum ≤ v.lineCounter
      have hf2 : f ∈ v.sent ++ out := hf
      rcases List.mem_append.mp hf2 with hf1 | hf1
      · exact hwf.sent_range f hf1
      · have hmem : some f ∈ out.map some := List.mem_map_of_mem some hf1
        rw [hout] at hmem
        obtain ⟨q, hq, hqf⟩ := List.mem_map.mp hmem
        have hr := hwf.unack_range q hq
        obtain ⟨p, hp, hty, hsq⟩ := hwf.buffer_seq (q - 1) (by omega) (by omega)
        rw [hp] at hqf
        simp only [Option.map_some', Option.some.injEq] at hqf
        subst hqf
        refine ⟨hty, ?_, ?_⟩
        · show 1 ≤ p.seqNum
          omega
        · show p.seqNum ≤ v.lineCounter
          omega
    · intro j hj0 hj1
      show ∃ p, readPacket arr1 j = some p ∧ p.packetType = PacketType.DATA ∧ p.seqNum = j + 1
      obtain ⟨p, hp, hty, hsq⟩ := hwf.buffer_seq j hj0 hj1
      have hs := hsame j
      rw [hp] at hs
      cases hr : readPacket arr1 j with
      | none => rw [hr] at hs; simp at hs
      | some p1 =>
        rw [hr] at hs
        simp only [Option.map_some', Option.some.injEq] at hs
        have e1 : p1.packetType = p.packetType := by
          have h := congrArg (fun x : Packet => x.packetType) hs
          exact h
        have e2 : p1.seqNum = p.seqNum := by
          have h := congrArg (fun x : Packet => x.seqNum) hs
          exact h
        exact ⟨p1, rfl, by rw [e1, hty], by rw [e2, hsq]⟩

theorem wf_onReceive (pkt : Packet) (v : Vars) (hwf : Wf v) :
    Wf (onReceive pkt v) ∧ (onReceive pkt v).state = v.state ∧
      (onReceive pkt v).totalLines = v.totalLines ∧
      (onReceive pkt v).lineCounter = v.lineCounter := by
  by_cases hm : pkt.ackNum ∈ v.unACKHead
  · rw [onReceive_of_mem pkt v hm]
    refine ⟨⟨hwf.lc_nonneg, hwf.lc_le, hwf.total_le, hwf.seq_eq, hwf.ptr_eq, ?_, hwf.sent_range,
      hwf.buffer_seq⟩, rfl, rfl, rfl⟩
    intro q hq
    have hq2 : q ∈ deleteFromUnACKs v.unACKHead pkt.ackNum := hq
    rw [deleteFromUnACKs_eq_erase] at hq2
    exact hwf.unack_range q (List.mem_of_mem_erase hq2)
  · rw [onReceive_of_not_mem pkt v hm]
    exact ⟨⟨hwf.lc_nonneg, hwf.lc_le, hwf.total_le, hwf.seq_eq, hwf.ptr_eq, hwf.unack_range,
      hwf.sent_range, hwf.buffer_seq⟩, rfl, rfl, rfl⟩

/-- Progress and preservation: from a consistent state that, when in `SendingPackets`, still
has a line to send, every iteration of the main loop completes (no access outside the
buffer) and leads to such a state again. -/
theorem wf_loopBody (ev : Event) (v : Vars) (hwf : Wf v)
    (hs : v.state = State.SendingPackets → v.lineCounter < v.totalLines) :
    ∃ v1, loopBody ev v = some v1 ∧ Wf v1 ∧ v1.totalLines = v.totalLines ∧
      (v1.state = State.SendingPackets → v1.lineCounter < v1.totalLines) := by
  unfold loopBody
  split
  · rename_i hst
    obtain ⟨w, b, hrun, hwf1, htot⟩ := wf_sendWindow ev v.windowSize.toNat v hwf (hs hst)
    refine ⟨{ w with start := if b then ev.now2 else ev.now, state := State.WaitForACKs }, ?_,
      ⟨hwf1.lc_nonneg, hwf1.lc_le, hwf1.total_le, hwf1.seq_eq, hwf1.ptr_eq, hwf1.unack_range,
        hwf1.sent_range, hwf1.buffer_seq⟩, htot, fun hc => State.noConfusion hc⟩
    unfold sendingPackets
    rw [hrun]
  · rename_i hst
    unfold waitForACKs
    by_cases h0 : getUnACKCount v.unACKHead = 0
    · refine ⟨{ v with state := State.AllACKsReceived }, by simp only [h0, if_true],
        ⟨hwf.lc_nonneg, hwf.lc_le, hwf.total_le, hwf.seq_eq, hwf.ptr_eq, hwf.unack_range,
          hwf.sent_range, hwf.buffer_seq⟩, rfl, fun hc => State.noConfusion hc⟩
    · simp only [h0, if_false]
      have hwf0 : Wf { v with endTime := ev.now } :=
        ⟨hwf.lc_nonneg, hwf.lc_le, hwf.total_le, hwf.seq_eq, hwf.ptr_eq, hwf.unack_range,
          hwf.sent_range, hwf.buffer_seq⟩
      have hmid : ∃ v2, (if delay v.start ev.now ≥ v.timeoutInterval ∧
            getUnACKCount v.unACKHead > 0 then onTimeout ev { v with endTime := ev.now }
          else some { v with endTime := ev.now }) = some v2 ∧ Wf v2 ∧
          v2.state = State.WaitForACKs ∧ v2.totalLines = v.totalLines := by
        split_ifs with hto
        · obtain ⟨v2, h1, h2, h3, h4, _⟩ := wf_onTimeout ev _ hwf0
          exact ⟨v2, h1, h2, by rw [h3]; exact hst, h4⟩
        · exact ⟨_, rfl, hwf0, hst, rfl⟩
      obtain ⟨v2, hrun, hwf2, hst2, htot2⟩ := hmid
      rw [hrun]
      cases hr : ev.recv with
      | none =>
        exact ⟨v2, rfl, hwf2, htot2, fun hc => by rw [hst2] at hc; exact State.noConfusion hc⟩
      | some pkt =>
        obtain ⟨h1, h2, h3, _⟩ := wf_onReceive pkt v2 hwf2
        exact ⟨onReceive pkt v2, rfl, h1, by rw [h3, htot2],
          fun hc => by rw [h2, hst2] at hc; exact State.noConfusion hc⟩
  · refine ⟨allACKsReceived v, rfl,
      ⟨hwf.lc_nonneg, hwf.lc_le, hwf.total_le, hwf.seq_eq, hwf.ptr_eq, ?_, hwf.sent_range,
        hwf.buffer_seq⟩, rfl, ?_⟩
    · intro q hq
      exact absurd hq (by simp [allACKsReceived, freeUnACKs])
    · intro hc
      have hle := hwf.lc_le
      have hne : v.lineCounter ≠ v.totalLines := by
        intro e
        simp [allACKsReceived, e] at hc
      show v.lineCounter < v.totalLines
      omega
  · exact ⟨v, rfl, hwf, rfl, hs⟩

theorem wf_mainLoop (evs : List Event) : ∀ v : Vars, Wf v →
    (v.state = State.SendingPackets → v.lineCounter < v.totalLines) →
    ∃ v1, mainLoop evs v = some v1 ∧ Wf v1 ∧ v1.totalLines = v.totalLines := by
  induction evs with
  | nil =>
    intro v hwf _
    exact ⟨v, rfl, hwf, rfl⟩
  | cons ev evs ih =>
    intro v hwf hs
    obtain ⟨w, hw, hwf1, htot, hs1⟩ := wf_loopBody ev v hwf hs
    obtain ⟨v1, hrun, hwf2, htot2⟩ := ih w hwf1 hs1
    refine ⟨v1, ?_, hwf2, by rw [htot2, htot]⟩
    unfold mainLoop
    rw [hw]
    exact hrun

/-- For an input of `n ≥ 1` lines that fits the buffer, the main loop never fails, whatever
the events, and every sequence number in the unacknowledged list and every datagram sent
so far is a DATA frame numbered within `1 .. n`. -/
theorem mainLoop_in_range (arr : List Packet) (n : Int) (t0 t1 : Timeval) (evs : List Event)
    (hn : 1 ≤ n) (hlen : n ≤ arr.length) :
    ∃ v, mainLoop evs (initVars arr n t0 t1) = some v ∧
      (∀ q ∈ v.unACKHead, 1 ≤ q ∧ q ≤ n) ∧
      (∀ f ∈ v.sent, f.packetType = PacketType.DATA ∧ 1 ≤ f.seqNum ∧ f.seqNum ≤ n) := by
  have hwf0 : Wf (initVars arr n t0 t1) := by
    refine ⟨le_refl _, ?_, hlen, rfl, rfl, ?_, ?_, ?_⟩
    · show (0 : Int) ≤ n
      omega
    · intro q hq
      exact absurd hq (by simp [initVars])
    · intro f hf
      exact absurd hf (by simp [initVars])
    · intro j hj0 hj1
      have : j < 0 := hj1
      omega
  obtain ⟨v, hrun, hwf, htot⟩ := wf_mainLoop evs _ hwf0 (fun _ => by show (0 : Int) < n; omega)
  have htot2 : v.totalLines = n := htot
  have hle := hwf.lc_le
  refine ⟨v, hrun, ?_, ?_⟩
  · intro q hq
    have := hwf.unack_range q hq
    omega
  · intro f hf
    have := hwf.sent_range f hf
    exact ⟨this.1, this.2.1, by omega⟩

/-! ## The empty input -/

/-- C10 at the empty file: with `totalLines = 0` the first `SendingPackets` iteration
still runs the loop body once (the window is 1 and `lineCounter + 1 == totalLines` is
false), so a DATA frame with sequence number 1 is sent from `arrPackets[0]`, which holds no
line, and 1 is appended to the unacknowledged list: `1 ≤ seq ≤ 0` fails.  (For `n ≥ 1`
lines the bound holds in every reachable state, see `mainLoop_in_range`.) -/
theorem empty_file_sends_seq_one :
    ∃ v, mainLoop sendRun (initVars emptyFileBuffer 0 (atMs 0) (atMs 0)) = some v ∧
      v.totalLines = 0 ∧ v.state = State.WaitForACKs ∧ v.lineCounter = 1 ∧
      v.unACKHead = [1] ∧
      v.sent.map (fun f => (f.packetType, f.seqNum)) = [(PacketType.DATA, 1)] ∧
      ¬ (∀ q ∈ v.unACKHead, 1 ≤ q ∧ q ≤ v.totalLines) ∧
      ¬ (∀ f ∈ v.sent, 1 ≤ f.seqNum ∧ f.seqNum ≤ v.totalLines) :=
  ⟨_, rfl, rfl, rfl, rfl, rfl, rfl, by decide, by decide⟩


/-! ## `makePacket` and the EOT burst -/

theorem strcpy_nulLiteral (dst : List Nat) (h : dst.length = PAYLOAD_LEN) :
    strcpy dst nulLiteral = some (0 :: dst.drop 1) := by
  have hc : cstr nulLiteral = [] := rfl
  unfold strcpy
  rw [hc]
  simp [nulLiteral, h, PAYLOAD_LEN]

theorem makePacket_ack_eq (pkt : Packet) (h : pkt.data.length = PAYLOAD_LEN) :
    makePacket pkt PacketType.ACK
      = some { pkt with packetType := PacketType.ACK, ackNum := pkt.seqNum,
                        seqNum := INVALID_SEQ_NUM, data := 0 :: pkt.data.drop 1,
                        retransmit := false } := by
  unfold makePacket
  dsimp only
  rw [strcpy_nulLiteral pkt.data h]

theorem makePacket_eot_eq (pkt : Packet) (h : pkt.data.length = PAYLOAD_LEN) :
    makePacket pkt PacketType.EOT
      = some { pkt with packetType := PacketType.EOT, ackNum := INVALID_ACK_NUM,
                        seqNum := INVALID_SEQ_NUM, data := 0 :: pkt.data.drop 1,
                        retransmit := false } := by
  unfold makePacket
  dsimp only
  rw [strcpy_nulLiteral pkt.data h]

/-- C12: `makePacket(pkt, ACK)` on a frame with sequence number `s` (and a payload array of
`PAYLOAD_LEN` bytes) returns, leaving a frame of kind ACK with `ackNum = s`, `seqNum = 0`,
`retransmit = false` and the window field as it was; so for a DATA frame (`s ≥ 1`) the ACK
carries `ackNum ≥ 1`, equal to that frame's sequence number. -/
theorem makePacket_ack (pkt : Packet) (h : pkt.data.length = PAYLOAD_LEN) :
    ∃ r, makePacket pkt PacketType.ACK = some r ∧ r.packetType = PacketType.ACK ∧
      r.ackNum = pkt.seqNum ∧ r.seqNum = 0 ∧ r.retransmit = false ∧
      r.windowSize = pkt.windowSize ∧ (1 ≤ pkt.seqNum → 1 ≤ r.ackNum) := by
  exact ⟨_, makePacket_ack_eq pkt h, rfl, rfl, rfl, rfl, rfl, fun h1 => h1⟩

theorem makePacket_ack_witness :
    dataFrameA.data.length = PAYLOAD_LEN ∧ dataFrameA.seqNum = 1 ∧
    ∃ r, makePacket dataFrameA PacketType.ACK = some r ∧ r.packetType = PacketType.ACK ∧
      r.ackNum = dataFrameA.seqNum ∧ r.seqNum = 0 ∧ r.retransmit = false ∧
      r.windowSize = dataFrameA.windowSize ∧ (1 ≤ dataFrameA.seqNum → 1 ≤ r.ackNum) :=
  ⟨by decide, rfl, makePacket_ack dataFrameA (by decide)⟩

/-- C13, as the code has it: `makePacket` with kind ACK or EOT, on a payload array of
`PAYLOAD_LEN` bytes, writes a single NUL at the start of the payload (`strcpy` of an empty
string): byte 0 becomes 0, so the payload read as a C string is empty, and the other 255
bytes keep their prior content. -/
theorem makePacket_payload (pkt : Packet) (k : PacketType)
    (hk : k = PacketType.ACK ∨ k = PacketType.EOT) (h : pkt.data.length = PAYLOAD_LEN) :
    ∃ r, makePacket pkt k = some r ∧ r.data = 0 :: pkt.data.drop 1 ∧
      r.data.length = PAYLOAD_LEN ∧ cstr r.data = [] := by
  have hlen : (0 :: pkt.data.drop 1).length = PAYLOAD_LEN := by
    simp only [List.length_cons, List.length_drop, h, PAYLOAD_LEN]
  rcases hk with rfl | rfl
  · exact ⟨_, makePacket_ack_eq pkt h, rfl, hlen, by simp [cstr]⟩
  · exact ⟨_, makePacket_eot_eq pkt h, rfl, hlen, by simp [cstr]⟩

theorem makePacket_payload_witness :
    dataFrameA.data.length = PAYLOAD_LEN ∧
    ∃ r, makePacket dataFrameA PacketType.EOT = some r ∧ r.data = 0 :: dataFrameA.data.drop 1 ∧
      r.data.length = PAYLOAD_LEN ∧ cstr r.data = [] :=
  ⟨by decide, makePacket_payload dataFrameA PacketType.EOT (Or.inr rfl) (by decide)⟩

/-- C13 fails as stated: the ACK made from the DATA frame carrying the line `a` keeps the
newline of that line in byte 1 of its payload. -/
theorem makePacket_payload_not_zero :
    ∃ r, makePacket dataFrameA PacketType.ACK = some r ∧
      dataFrameA.data = 97 :: 10 :: List.replicate 254 0 ∧
      r.data = 0 :: 10 :: List.replicate 254 0 ∧ r.data[1]? = some 10 ∧
      ¬ (∀ b ∈ r.data, b = 0) :=
  ⟨_, rfl, rfl, rfl, rfl, by decide⟩

theorem sendEOTLoop_eq (k : Nat) (e : Packet) : ∀ sent : List Packet,
    sendEOTLoop k e sent = sent ++ List.replicate k e := by
  induction k with
  | zero => intro sent; simp [sendEOTLoop]
  | succ k ih =>
    intro sent
    rw [sendEOTLoop, ih, List.replicate_succ, List.append_assoc]
    rfl

/-- C14: the code after the main loop, for any content of the freshly allocated
`EOTPacket` (with a payload array of `PAYLOAD_LEN` bytes), sends exactly ten datagrams and
nothing else; all ten are the same frame, of kind EOT with `seqNum = 0`, `ackNum = 0` and
`retransmit = false`.  This is what `runMain` does once the loop is in `AllPacketsSent`. -/
theorem eot_burst (malloced : Packet) (v : Vars) (evs : List Event) (v0 : Vars)
    (h : malloced.data.length = PAYLOAD_LEN) :
    ∃ e, sendEOT malloced v = some { v with sent := v.sent ++ List.replicate 10 e } ∧
      e.packetType = PacketType.EOT ∧ e.seqNum = 0 ∧ e.ackNum = 0 ∧ e.retransmit = false ∧
      (mainLoop evs v0 = some v → v.state = State.AllPacketsSent →
        runMain evs malloced v0 = some { v with sent := v.sent ++ List.replicate 10 e }) := by
  obtain ⟨e, he, hf⟩ : ∃ e, makePacket malloced PacketType.EOT = some e ∧
      e.packetType = PacketType.EOT ∧ e.seqNum = 0 ∧ e.ackNum = 0 ∧ e.retransmit = false :=
    ⟨_, makePacket_eot_eq malloced h, rfl, rfl, rfl, rfl⟩
  have hsend : sendEOT malloced v = some { v with sent := v.sent ++ List.replicate 10 e } := by
    unfold sendEOT
    rw [he]
    dsimp only
    rw [sendEOTLoop_eq]
  refine ⟨e, hsend, hf.1, hf.2.1, hf.2.2.1, hf.2.2.2, ?_⟩
  intro hrun hst
  unfold runMain
  rw [hrun]
  dsimp only
  rw [if_pos hst]
  exact hsend

theorem eot_burst_witness :
    dataFrameA.data.length = PAYLOAD_LEN ∧
    mainLoop completeRun (initVars oneLineBuffer 1 (atMs 0) (atMs 0)) = some afterComplete ∧
    afterComplete.state = State.AllPacketsSent ∧
    ∃ e, sendEOT dataFrameA afterComplete
        = some { afterComplete with sent := afterComplete.sent ++ List.replicate 10 e } ∧
      e.packetType = PacketType.EOT ∧ e.seqNum = 0 ∧ e.ackNum = 0 ∧ e.retransmit = false ∧
      runMain completeRun dataFrameA (initVars oneLineBuffer 1 (atMs 0) (atMs 0))
        = some { afterComplete with sent := afterComplete.sent ++ List.replicate 10 e } := by
  obtain ⟨e, h1, h2, h3, h4, h5, h6⟩ :=
    eot_burst dataFrameA afterComplete completeRun (initVars oneLineBuffer 1 (atMs 0) (atMs 0))
      (by decide)
  exact ⟨by decide, rfl, rfl, e, h1, h2, h3, h4, h5, h6 rfl rfl⟩

/-! ## Order of the unacknowledged list -/

theorem mem_seqRange (a q : Int) (m : Nat) : q ∈ seqRange a m ↔ a ≤ q ∧ q < a + (m : Int) := by
  unfold seqRange
  rw [List.mem_map]
  constructor
  · rintro ⟨i, hi, rfl⟩
    have := List.mem_range.mp hi
    omega
  · intro h
    refine ⟨(q - a).toNat, List.mem_range.mpr (by omega), by omega⟩

theorem seqRange_add (q : Int) (m k : Nat) :
    seqRange q (m + k) = seqRange q m ++ seqRange (q + (m : Int)) k := by
  induction m generalizing q with
  | zero => simp [seqRange]
  | succ m ih =>
    have h1 : m + 1 + k = (m + k) + 1 := by omega
    rw [h1, seqRange_succ, seqRange_succ, ih (q + 1), List.cons_append]
    have h2 : q + 1 + (m : Int) = q + ((m + 1 : Nat) : Int) := by push_cast; ring
    rw [h2]

/-- Partial form of the burst: whenever the `for` loop completes, it has appended the next
`m` sequence numbers to the list, for some `m`, and advanced `seqNum` by `m`. -/
theorem sendWindow_list (ev : Event) (k : Nat) : ∀ v v1 b, sendWindow k ev v = some (v1, b) →
    ∃ m : Nat, v1.unACKHead = v.unACKHead ++ seqRange v.seqNum m ∧
      v1.seqNum = v.seqNum + (m : Int) := by
  induction k with
  | zero =>
    intro v v1 b h
    simp only [sendWindow, Option.some.injEq, Prod.mk.injEq] at h
    obtain ⟨rfl, _⟩ := h
    exact ⟨0, by simp [seqRange], by simp⟩
  | succ k ih =>
    intro v v1 b h
    unfold sendWindow at h
    split at h
    · exact absurd h (by simp)
    · rename_i w hw
      obtain ⟨arr, out, rfl⟩ := sendNext_some v w hw
      split at h
      · simp only [Option.some.injEq, Prod.mk.injEq] at h
        obtain ⟨rfl, _⟩ := h
        exact ⟨1, by rw [seqRange_one], by simp⟩
      · obtain ⟨m, h1, h2⟩ := ih _ _ _ h
        dsimp only at h1 h2
        refine ⟨m + 1, ?_, ?_⟩
        · rw [h1, seqRange_succ, List.append_assoc]
          rfl
        · rw [h2]
          push_cast
          ring

theorem seqRange_pairwise_lt (q : Int) (m : Nat) :
    (seqRange q m).Pairwise (fun a b => a < b) := by
  induction m generalizing q with
  | zero => simp [seqRange]
  | succ m ih =>
    rw [seqRange_succ, List.pairwise_cons]
    refine ⟨?_, ih (q + 1)⟩
    intro b hb
    have := (mem_seqRange _ _ _).mp hb
    omega

theorem ordered_append (v : Vars) (m : Nat) (ho : Ordered v) :
    (v.unACKHead ++ seqRange v.seqNum m).Pairwise (fun a b => a < b) ∧
    ∀ q ∈ v.unACKHead ++ seqRange v.seqNum m, 1 ≤ q ∧ q < v.seqNum + (m : Int) := by
  have hpos := ho.seq_pos
  constructor
  · rw [List.pairwise_append]
    refine ⟨ho.pairwise, seqRange_pairwise_lt _ _, ?_⟩
    intro a ha b hb
    have h1 := ho.range a ha
    have h2 := (mem_seqRange _ _ _).mp hb
    omega
  · intro q hq
    rcases List.mem_append.mp hq with h | h
    · have := ho.range q h
      omega
    · have := (mem_seqRange _ _ _).mp h
      omega

theorem ordered_loopBody (ev : Event) (v v1 : Vars) (ho : Ordered v)
    (h : loopBody ev v = some v1) : Ordered v1 := by
  unfold loopBody at h
  split at h
  · unfold sendingPackets at h
    split at h
    · exact absurd h (by simp)
    · rename_i w b hw
      simp only [Option.some.injEq] at h
      subst h
      obtain ⟨m, h1, h2⟩ := sendWindow_list ev _ _ _ _ hw
      obtain ⟨hp, hr⟩ := ordered_append v m ho
      have hpos := ho.seq_pos
      refine ⟨?_, ?_, ?_⟩
      · show 1 ≤ w.seqNum
        omega
      · show w.unACKHead.Pairwise _
        rw [h1]
        exact hp
      · intro q hq
        have hq2 : q ∈ w.unACKHead := hq
        rw [h1] at hq2
        show 1 ≤ q ∧ q < w.seqNum
        rw [h2]
        exact hr q hq2
  · rcases waitForACKs_some ev v v1 h with ⟨_, rfl⟩ | ⟨_, v2, hto, hrc⟩
    · exact ⟨ho.seq_pos, ho.pairwise, ho.range⟩
    · have ho2 : Ordered v2 := by
        rcases hto with ⟨_, hto⟩ | ⟨_, rfl⟩
        · obtain ⟨arr, out, _, rfl⟩ := onTimeout_some ev _ v2 hto
          exact ⟨ho.seq_pos, ho.pairwise, ho.range⟩
        · exact ⟨ho.seq_pos, ho.pairwise, ho.range⟩
      rcases hrc with ⟨_, rfl⟩ | ⟨pkt, _, rfl⟩
      · exact ho2
      · by_cases hm : pkt.ackNum ∈ v2.unACKHead
        · rw [onReceive_of_mem pkt v2 hm]
          refine ⟨ho2.seq_pos, ?_, ?_⟩
          · show (deleteFromUnACKs v2.unACKHead pkt.ackNum).Pairwise _
            rw [deleteFromUnACKs_eq_erase]
            exact ho2.pairwise.sublist (List.erase_sublist _ _)
          · intro q hq
            have hq2 : q ∈ deleteFromUnACKs v2.unACKHead pkt.ackNum := hq
            rw [deleteFromUnACKs_eq_erase] at hq2
            exact ho2.range q (List.mem_of_mem_erase hq2)
        · rw [onReceive_of_not_mem pkt v2 hm]
          exact ⟨ho2.seq_pos, ho2.pairwise, ho2.range⟩
  · simp only [Option.some.injEq] at h
    subst h
    exact ⟨ho.seq_pos, by simp [allACKsReceived, freeUnACKs],
      fun q hq => absurd hq (by simp [allACKsReceived, freeUnACKs])⟩
  · simp only [Option.some.injEq] at h
    subst h
    exact ho

theorem ordered_mainLoop (evs : List Event) : ∀ v v1, Ordered v → mainLoop evs v = some v1 →
    Ordered v1 := by
  induction evs with
  | nil =>
    intro v v1 ho h
    simp only [mainLoop, Option.some.injEq] at h
    subst h
    exact ho
  | cons ev evs ih =>
    intro v v1 ho h
    unfold mainLoop at h
    split at h
    · exact absurd h (by simp)
    · rename_i w hw
      exact ih w v1 (ordered_loopBody ev v w ho hw) h

theorem ordered_initVars (arr : List Packet) (n : Int) (t0 t1 : Timeval) :
    Ordered (initVars arr n t0 t1) :=
  ⟨le_refl _, by simp [initVars], fun q hq => absurd hq (by simp [initVars])⟩

/-- C16: in every state the main loop reaches, the unacknowledged list is strictly
increasing from head to tail, hence its entries are pairwise distinct; the entries are the
sequence numbers in the order in which they were sent (`appendToUnACKs` adds at the tail,
`deleteFromUnACKs` removes one entry and keeps the order of the others). -/
theorem unack_list_sorted (arr : List Packet) (n : Int) (t0 t1 : Timeval) (evs : List Event)
    (v : Vars) (h : mainLoop evs (initVars arr n t0 t1) = some v) :
    v.unACKHead.Pairwise (fun a b => a < b) ∧ v.unACKHead.Nodup ∧
    (∀ l q, appendToUnACKs l q = l ++ [q]) ∧
    (∀ l q, (deleteFromUnACKs l q).Sublist l) := by
  have ho := ordered_mainLoop evs _ v (ordered_initVars arr n t0 t1) h
  refine ⟨ho.pairwise, ho.pairwise.imp (fun hlt => ne_of_lt hlt), appendToUnACKs_eq_append, ?_⟩
  intro l q
  rw [deleteFromUnACKs_eq_erase]
  exact List.erase_sublist _ _

theorem unack_list_sorted_witness :
    ∃ v, mainLoop secondBurstRun (initVars threeLineBuffer 3 (atMs 0) (atMs 0)) = some v ∧
      v.unACKHead = [2, 3] ∧
      v.unACKHead.Pairwise (fun a b => a < b) ∧ v.unACKHead.Nodup ∧
      (∀ l q, appendToUnACKs l q = l ++ [q]) ∧
      (∀ l q, (deleteFromUnACKs l q).Sublist l) :=
  ⟨_, rfl, rfl,
    unack_list_sorted threeLineBuffer 3 (atMs 0) (atMs 0) secondBurstRun _ rfl⟩

/-! ## The kind of a received frame -/

/-- C15, as the code has it: the receive branch never looks at the kind of the frame, its
effect depends on the `ackNum` field alone.  A frame of any kind leaves the unacknowledged
list and the window as they are when its `ackNum` matches no entry; in every reachable
state that is the case for `ackNum = 0`, the value a well-formed DATA or EOT frame carries,
because all entries are at least 1. -/
theorem frame_kind_ignored (pkt : Packet) (k : PacketType) (w : Vars) (arr : List Packet)
    (n : Int) (t0 t1 : Timeval) (evs : List Event) (v : Vars) :
    onReceive { pkt with packetType := k } w = onReceive pkt w ∧
    (pkt.ackNum ∉ w.unACKHead →
      (onReceive pkt w).unACKHead = w.unACKHead ∧ (onReceive pkt w).windowSize = w.windowSize) ∧
    (mainLoop evs (initVars arr n t0 t1) = some v → pkt.ackNum = 0 →
      (onReceive pkt v).unACKHead = v.unACKHead ∧
      (onReceive pkt v).windowSize = v.windowSize) := by
  refine ⟨rfl, ?_, ?_⟩
  · intro hm
    rw [onReceive_of_not_mem pkt w hm]
    exact ⟨rfl, rfl⟩
  · intro hrun h0
    have ho := ordered_mainLoop evs _ v (ordered_initVars arr n t0 t1) hrun
    have hm : pkt.ackNum ∉ v.unACKHead := by
      intro hmem
      have := ho.range _ hmem
      omega
    rw [onReceive_of_not_mem pkt v hm]
    exact ⟨rfl, rfl⟩

theorem frame_kind_ignored_witness :
    dataFrameA.packetType = PacketType.DATA ∧ dataFrameA.ackNum = 0 ∧
    dataFrameA.ackNum ∉ afterSend.unACKHead ∧
    (∃ v, mainLoop sendRun (initVars oneLineBuffer 1 (atMs 0) (atMs 0)) = some v ∧
      v.unACKHead = [1] ∧
      (onReceive dataFrameA v).unACKHead = v.unACKHead ∧
      (onReceive dataFrameA v).windowSize = v.windowSize) ∧
    (onReceive dataFrameA afterSend).unACKHead = afterSend.unACKHead ∧
    (onReceive dataFrameA afterSend).windowSize = afterSend.windowSize :=
  ⟨rfl, rfl, by decide,
    ⟨_, rfl, rfl,
      (frame_kind_ignored dataFrameA PacketType.DATA afterSend oneLineBuffer 1 (atMs 0) (atMs 0)
        sendRun _).2.2 rfl rfl⟩,
    (frame_kind_ignored dataFrameA PacketType.DATA afterSend oneLineBuffer 1 (atMs 0) (atMs 0)
      sendRun afterSend).2.1 (by decide)⟩

/-- C15 fails as stated: sequence number 1 is unacknowledged and the window is 1; a frame of
kind DATA whose `ackNum` field is 1 arrives (no timeout in that iteration).  It removes
the entry and raises the window to 2. -/
theorem data_frame_acts_as_ack :
    ∃ v1, dataFrameAck1.packetType = PacketType.DATA ∧
      dataAck1Event.recv = some dataFrameAck1 ∧
      afterSend.state = State.WaitForACKs ∧ afterSend.unACKHead = [1] ∧
      afterSend.windowSize = 1 ∧ timeoutFires dataAck1Event afterSend = false ∧
      loopBody dataAck1Event afterSend = some v1 ∧
      v1.unACKHead = [] ∧ v1.windowSize = 2 :=
  ⟨_, rfl, rfl, rfl, rfl, rfl, rfl, rfl, rfl, rfl⟩

/-! ## The history of a run -/

theorem mainLoop_snoc (evs : List Event) (ev : Event) : ∀ v0 : Vars,
    mainLoop (evs ++ [ev]) v0 = (mainLoop evs v0).bind (loopBody ev) := by
  induction evs with
  | nil =>
    intro v0
    simp only [List.nil_append, mainLoop, Option.some_bind]
    cases loopBody ev v0 <;> rfl
  | cons e evs ih =>
    intro v0
    simp only [List.cons_append, mainLoop]
    cases loopBody e v0 with
    | none => rfl
    | some w => exact ih w

theorem removedByAck_snoc (v0 : Vars) (evs : List Event) (ev : Event) (q : Int)
    (h : RemovedByAck v0 evs q) : RemovedByAck v0 (evs ++ [ev]) q := by
  obtain ⟨evs1, e, evs2, v1, v2, pkt, h1, h2, h3, h4, h5, h6, h7, h8⟩ := h
  exact ⟨evs1, e, evs2 ++ [ev], v1, v2, pkt, by rw [h1]; simp, h2, h3, h4, h5, h6, h7, h8⟩

/-- Coverage carries over to a later state that has kept the sent log and `lineCounter` and
in which every entry of the list either stayed or was removed by a matching frame. -/
theorem covered_step (v0 : Vars) (evs : List Event) (ev : Event) (v v1 : Vars)
    (hc : ∀ q : Int, 1 ≤ q → q ≤ v.lineCounter →
      (∃ f ∈ v.sent, f.packetType = PacketType.DATA ∧ f.seqNum = q) ∧
      (q ∈ v.unACKHead ∨ RemovedByAck v0 evs q))
    (hsent : ∀ f ∈ v.sent, f ∈ v1.sent) (hlc : v1.lineCounter = v.lineCounter)
    (hlist : ∀ q ∈ v.unACKHead, 1 ≤ q → q ≤ v.lineCounter →
      q ∈ v1.unACKHead ∨ RemovedByAck v0 (evs ++ [ev]) q) :
    ∀ q : Int, 1 ≤ q → q ≤ v1.lineCounter →
      (∃ f ∈ v1.sent, f.packetType = PacketType.DATA ∧ f.seqNum = q) ∧
      (q ∈ v1.unACKHead ∨ RemovedByAck v0 (evs ++ [ev]) q) := by
  intro q h1 h2
  rw [hlc] at h2
  obtain ⟨⟨f, hf, hd, hs⟩, hq⟩ := hc q h1 h2
  refine ⟨⟨f, hsent f hf, hd, hs⟩, ?_⟩
  rcases hq with hq | hq
  · exact hlist q hq h1 h2
  · exact Or.inr (removedByAck_snoc v0 evs ev q hq)

theorem hist_sending (v0 : Vars) (evs : List Event) (ev : Event) (v v1 : Vars)
    (hh : Hist v0 evs v) (hst : v.state = State.SendingPackets)
    (h : loopBody ev v = some v1) : Hist v0 (evs ++ [ev]) v1 := by
  have hlt := hh.sending_lt hst
  have hnil : v.unACKHead = [] := hh.idle_empty (by rw [hst]; decide)
  obtain ⟨w, hw, hwf, _, hsl⟩ := wf_loopBody ev v hh.wf hh.sending_lt
  have hv1 : w = v1 := by
    rw [hw] at h
    exact Option.some.inj h
  subst hv1
  obtain ⟨u, b, frames, m, hrun, _, _, hsent, hseq, hall, hun, _, hlc, _, _⟩ :=
    sendWindow_spec ev v.windowSize.toNat v hh.wf.lc_nonneg hh.wf.ptr_eq hlt hh.wf.total_le
  have hbody : loopBody ev v
      = some { u with start := if b then ev.now2 else ev.now, state := State.WaitForACKs } := by
    unfold loopBody
    rw [hst]
    dsimp only
    unfold sendingPackets
    rw [hrun]
  rw [hbody] at hw
  have hw2 := (Option.some.inj hw).symm
  subst hw2
  refine ⟨?_, hwf, ordered_loopBody ev v _ hh.ordered hbody, hsl,
    fun hne => absurd rfl hne, fun hc => State.noConfusion hc, ?_⟩
  · rw [mainLoop_snoc, hh.run]
    exact hbody
  · intro q h1 h2
    have h2' : q ≤ u.lineCounter := h2
    rw [hlc] at h2'
    by_cases hq : q ≤ v.lineCounter
    · obtain ⟨⟨f, hf, hd, hs⟩, hr⟩ := hh.covered q h1 hq
      refine ⟨⟨f, ?_, hd, hs⟩, ?_⟩
      · show f ∈ u.sent
        rw [hsent]
        exact List.mem_append_left _ hf
      · rcases hr with hr | hr
        · rw [hnil] at hr
          exact absurd hr (by simp)
        · exact Or.inr (removedByAck_snoc v0 evs ev q hr)
    · have hseqeq := hh.wf.seq_eq
      have hmem : q ∈ seqRange v.seqNum m := (mem_seqRange _ _ _).mpr (by omega)
      refine ⟨?_, Or.inl ?_⟩
      · have hmem2 : q ∈ frames.map (fun f => f.seqNum) := by rw [hseq]; exact hmem
        obtain ⟨f, hf, hfq⟩ := List.mem_map.mp hmem2
        refine ⟨f, ?_, (hall f hf).1, hfq⟩
        show f ∈ u.sent
        rw [hsent]
        exact List.mem_append_right _ hf
      · show q ∈ u.unACKHead
        rw [hun]
        exact List.mem_append_right _ hmem

theorem hist_waiting (v0 : Vars) (evs : List Event) (ev : Event) (v v1 : Vars)
    (hh : Hist v0 evs v) (hst : v.state = State.WaitForACKs)
    (h : loopBody ev v = some v1) : Hist v0 (evs ++ [ev]) v1 := by
  obtain ⟨w, hw, hwf, _, hsl⟩ := wf_loopBody ev v hh.wf hh.sending_lt
  have hv1 : w = v1 := by
    rw [hw] at h
    exact Option.some.inj h
  subst hv1
  have hord := ordered_loopBody ev v _ hh.ordered h
  have hrun : mainLoop (evs ++ [ev]) v0 = some w := by
    rw [mainLoop_snoc, hh.run]
    exact h
  have hwait : waitForACKs ev v = some w := by
    unfold loopBody at h
    rw [hst] at h
    exact h
  rcases waitForACKs_some ev v w hwait with ⟨hnil, rfl⟩ | ⟨_, v2, hto, hrc⟩
  · refine ⟨hrun, hwf, hord, hsl, fun _ => hnil, fun hc => State.noConfusion hc, ?_⟩
    exact covered_step v0 evs ev v _ hh.covered (fun f hf => hf) rfl
      (fun q hq _ _ => Or.inl hq)
  · -- the state after the timeout phase
    have h2 : v2.state = State.WaitForACKs ∧ v2.unACKHead = v.unACKHead ∧
        v2.lineCounter = v.lineCounter ∧ ∀ f ∈ v.sent, f ∈ v2.sent := by
      rcases hto with ⟨_, hto⟩ | ⟨_, rfl⟩
      · obtain ⟨arr, out, _, rfl⟩ := onTimeout_some ev _ v2 hto
        exact ⟨hst, rfl, rfl, fun f hf => List.mem_append_left _ hf⟩
      · exact ⟨hst, rfl, rfl, fun f hf => hf⟩
    obtain ⟨hs2, hl2, hlc2, hsent2⟩ := h2
    rcases hrc with ⟨_, rfl⟩ | ⟨pkt, hrecv, rfl⟩
    · refine ⟨hrun, hwf, hord, hsl, fun hne => absurd hs2 hne,
        fun hc => by rw [hs2] at hc; exact State.noConfusion hc, ?_⟩
      exact covered_step v0 evs ev v _ hh.covered hsent2 hlc2
        (fun q hq _ _ => Or.inl (by rw [hl2]; exact hq))
    · by_cases hm : pkt.ackNum ∈ v2.unACKHead
      · have hrec := onReceive_of_mem pkt v2 hm
        have hst3 : (onReceive pkt v2).state = State.WaitForACKs := by rw [hrec]; exact hs2
        have hl3 : (onReceive pkt v2).unACKHead = v.unACKHead.erase pkt.ackNum := by
          rw [hrec]
          show deleteFromUnACKs v2.unACKHead pkt.ackNum = _
          rw [deleteFromUnACKs_eq_erase, hl2]
        have hlc3 : (onReceive pkt v2).lineCounter = v.lineCounter := by rw [hrec]; exact hlc2
        have hsent3 : ∀ f ∈ v.sent, f ∈ (onReceive pkt v2).sent := by
          rw [hrec]
          exact hsent2
        refine ⟨hrun, hwf, hord, hsl, fun hne => absurd hst3 hne,
          fun hc => by rw [hst3] at hc; exact State.noConfusion hc, ?_⟩
        apply covered_step v0 evs ev v _ hh.covered hsent3 hlc3
        intro q hq hq1 hq2
        by_cases hqa : q = pkt.ackNum
        · right
          have hnodup : v.unACKHead.Nodup := hh.ordered.pairwise.imp (fun hlt => ne_of_lt hlt)
          refine ⟨evs, ev, [], v, onReceive pkt v2, pkt, rfl, hh.run,
            (hh.covered q hq1 hq2).1, hq, hrecv, hqa.symm, h, ?_⟩
          rw [hl3, hqa]
          exact fun hmem => (List.Nodup.mem_erase_iff hnodup).mp hmem |>.1 rfl
        · left
          rw [hl3]
          exact (List.mem_erase_of_ne hqa).mpr hq
      · have hrec := onReceive_of_not_mem pkt v2 hm
        rw [hrec] at hrun hwf hord hsl h ⊢
        refine ⟨hrun, hwf, hord, hsl, fun hne => absurd hs2 hne,
          fun hc => by
            have hc2 : v2.state = State.AllPacketsSent := hc
            rw [hs2] at hc2
            exact State.noConfusion hc2, ?_⟩
        exact covered_step v0 evs ev v _ hh.covered hsent2 hlc2
          (fun q hq _ _ => Or.inl (by
            show q ∈ v2.unACKHead
            rw [hl2]
            exact hq))

theorem hist_step (v0 : Vars) (evs : List Event) (ev : Event) (v v1 : Vars)
    (hh : Hist v0 evs v) (h : loopBody ev v = some v1) : Hist v0 (evs ++ [ev]) v1 := by
  cases hst : v.state with
  | SendingPackets => exact hist_sending v0 evs ev v v1 hh hst h
  | WaitForACKs => exact hist_waiting v0 evs ev v v1 hh hst h
  | AllACKsReceived =>
    have hnil : v.unACKHead = [] := hh.idle_empty (by rw [hst]; decide)
    obtain ⟨w, hw, hwf, _, hsl⟩ := wf_loopBody ev v hh.wf hh.sending_lt
    have hv1 : w = v1 := by
      rw [hw] at h
      exact Option.some.inj h
    subst hv1
    have hord := ordered_loopBody ev v _ hh.ordered h
    have hrun : mainLoop (evs ++ [ev]) v0 = some w := by
      rw [mainLoop_snoc, hh.run]
      exact h
    have hbody : w = allACKsReceived v := by
      unfold loopBody at h
      rw [hst] at h
      exact (Option.some.inj h).symm
    subst hbody
    refine ⟨hrun, hwf, hord, hsl, fun _ => rfl, ?_, ?_⟩
    · intro hc
      show v.lineCounter = v.totalLines
      by_contra hne
      simp [allACKsReceived, hne] at hc
    · exact covered_step v0 evs ev v _ hh.covered (fun f hf => hf) rfl
        (fun q hq _ _ => by rw [hnil] at hq; exact absurd hq (by simp))
  | AllPacketsSent =>
    have hbody : v1 = v := by
      unfold loopBody at h
      rw [hst] at h
      exact (Option.some.inj h).symm
    subst hbody
    refine ⟨by rw [mainLoop_snoc, hh.run]; exact h, hh.wf, hh.ordered, hh.sending_lt,
      hh.idle_empty, hh.done_all, ?_⟩
    exact covered_step v0 evs ev v1 v1 hh.covered (fun f hf => hf) rfl
      (fun q hq _ _ => Or.inl hq)

theorem hist_mainLoop (arr : List Packet) (n : Int) (t0 t1 : Timeval) (hn : 1 ≤ n)
    (hlen : n ≤ arr.length) (evs : List Event) :
    ∀ v, mainLoop evs (initVars arr n t0 t1) = some v → Hist (initVars arr n t0 t1) evs v := by
  induction evs using List.reverseRecOn with
  | nil =>
    intro v h
    simp only [mainLoop, Option.some.injEq] at h
    subst h
    refine ⟨rfl, ?_, ordered_initVars arr n t0 t1, fun _ => by show (0 : Int) < n; omega,
      fun _ => rfl, fun hc => State.noConfusion hc, ?_⟩
    · refine ⟨le_refl _, ?_, hlen, rfl, rfl, ?_, ?_, ?_⟩
      · show (0 : Int) ≤ n
        omega
      · intro q hq
        exact absurd hq (by simp [initVars])
      · intro f hf
        exact absurd hf (by simp [initVars])
      · intro j hj0 hj1
        have : j < 0 := hj1
        omega
    · intro q h1 h2
      have : q ≤ 0 := h2
      omega
  | append_singleton evs ev ih =>
    intro v h
    rw [mainLoop_snoc] at h
    cases hm : mainLoop evs (initVars arr n t0 t1) with
    | none => rw [hm] at h; simp at h
    | some w =>
      rw [hm] at h
      exact hist_step _ evs ev w v (ih w hm) h

/-! ## The frames of a burst and the send buffer -/

/-- The burst in terms of the buffer: every frame sent is the buffer entry it was read from,
initialised as a DATA frame; it is stored in the buffer at offset `seqNum - v.seqNum` from
`lineCounter`, and the entries below `lineCounter` are not touched. -/
theorem sendWindow_buffer (ev : Event) (k : Nat) : ∀ v : Vars, 0 ≤ v.lineCounter →
    v.arrPacketsPtr = v.lineCounter → v.lineCounter < v.totalLines →
    v.totalLines ≤ v.arrPackets.length →
    ∃ (v1 : Vars) (b : Bool) (frames : List Packet),
      sendWindow k ev v = some (v1, b) ∧ v1.sent = v.sent ++ frames ∧
      (∀ f ∈ frames, v.seqNum ≤ f.seqNum ∧
        (∃ p, readPacket v.arrPackets (v.lineCounter + (f.seqNum - v.seqNum)) = some p ∧
          f = dataFrame p f.seqNum v.windowSize) ∧
        readPacket v1.arrPackets (v.lineCounter + (f.seqNum - v.seqNum)) = some f) ∧
      (∀ j : Int, 0 ≤ j → j < v.lineCounter →
        readPacket v1.arrPackets j = readPacket v.arrPackets j) := by
  induction k with
  | zero =>
    intro v _ _ _ _
    exact ⟨v, false, [], rfl, by simp, fun f hf => absurd hf (by simp), fun _ _ _ => rfl⟩
  | succ k ih =>
    intro v h0 hp hlt hlen
    obtain ⟨p, hp1, hsend⟩ := sendNext_inRange v h0 hp (by omega)
    have hreadp : readPacket v.arrPackets v.lineCounter = some p := by
      simp [readPacket, h0, hp1]
    have hself : readPacket (v.arrPackets.set v.lineCounter.toNat
        (dataFrame p v.seqNum v.windowSize)) v.lineCounter
          = some (dataFrame p v.seqNum v.windowSize) :=
      readPacket_set_self _ _ _ h0 (by omega)
    have hidx : v.lineCounter + (v.seqNum - v.seqNum) = v.lineCounter := by omega
    by_cases hlast : v.lineCounter + 1 = v.totalLines
    · refine ⟨{ v with unACKHead := v.unACKHead ++ [v.seqNum],
                       arrPackets := v.arrPackets.set v.lineCounter.toNat
                         (dataFrame p v.seqNum v.windowSize),
                       seqNum := v.seqNum + 1, arrPacketsPtr := v.arrPacketsPtr + 1,
                       sent := v.sent ++ [dataFrame p v.seqNum v.windowSize],
                       lineCounter := v.lineCounter + 1, state := State.WaitForACKs,
                       start := ev.now },
        true, [dataFrame p v.seqNum v.windowSize], ?_, rfl, ?_, ?_⟩
      · unfold sendWindow
        rw [hsend]
        simp only [hlast, if_true]
      · intro f hf
        simp only [List.mem_singleton] at hf
        subst hf
        refine ⟨le_refl _, ⟨p, ?_, rfl⟩, ?_⟩
        · show readPacket v.arrPackets (v.lineCounter + (v.seqNum - v.seqNum)) = some p
          rw [hidx]
          exact hreadp
        · show readPacket (v.arrPackets.set v.lineCounter.toNat
            (dataFrame p v.seqNum v.windowSize)) (v.lineCounter + (v.seqNum - v.seqNum)) = _
          rw [hidx]
          exact hself
      · intro j hj0 hj1
        exact readPacket_set_ne _ _ _ _ h0 (by omega)
    · obtain ⟨v1, b, frames, hrun, hsent, hfr, hlow⟩ :=
        ih { v with unACKHead := v.unACKHead ++ [v.seqNum],
                    arrPackets := v.arrPackets.set v.lineCounter.toNat
                      (dataFrame p v.seqNum v.windowSize),
                    seqNum := v.seqNum + 1, arrPacketsPtr := v.arrPacketsPtr + 1,
                    sent := v.sent ++ [dataFrame p v.seqNum v.windowSize],
                    lineCounter := v.lineCounter + 1 }
          (by dsimp only; omega) (by dsimp only; omega) (by dsimp only; omega)
          (by dsimp only; rw [List.length_set]; exact hlen)
      dsimp only at hsent hfr hlow
      refine ⟨v1, b, dataFrame p v.seqNum v.windowSize :: frames, ?_, ?_, ?_, ?_⟩
      · unfold sendWindow
        rw [hsend]
        simp only [hlast, if_false]
        exact hrun
      · rw [hsent]
        simp
      · intro f hf
        rcases List.mem_cons.mp hf with rfl | hf
        · refine ⟨le_refl _, ⟨p, ?_, rfl⟩, ?_⟩
          · show readPacket v.arrPackets (v.lineCounter + (v.seqNum - v.seqNum)) = some p
            rw [hidx]
            exact hreadp
          · show readPacket v1.arrPackets (v.lineCounter + (v.seqNum - v.seqNum)) = _
            rw [hidx, hlow v.lineCounter h0 (by omega)]
            exact hself
        · obtain ⟨hge, ⟨p2, hp2, hf2⟩, hst2⟩ := hfr f hf
          have hi : v.lineCounter + 1 + (f.seqNum - (v.seqNum + 1))
              = v.lineCounter + (f.seqNum - v.seqNum) := by ring
          rw [hi] at hp2 hst2
          refine ⟨by omega, ⟨p2, ?_, hf2⟩, hst2⟩
          rw [← hp2]
          exact (readPacket_set_ne _ _ _ _ h0 (by omega)).symm
      · intro j hj0 hj1
        rw [hlow j hj0 (by omega)]
        exact readPacket_set_ne _ _ _ _ h0 (by omega)

/-- In a consistent state a retransmission sends, for the entries of the unacknowledged
list in order, DATA frames whose sequence numbers are those entries. -/
theorem retransmit_seqs (v : Vars) (hwf : Wf v) :
    ∃ arr1 out, retransmitUnACKs v.arrPackets v.unACKHead = some (arr1, out) ∧
      out.map (fun f => f.seqNum) = v.unACKHead ∧
      ∀ f ∈ out, f.packetType = PacketType.DATA ∧ f.retransmit = true := by
  have hrange : ∀ q ∈ v.unACKHead, 1 ≤ q ∧ q ≤ v.arrPackets.length := by
    intro q hq
    have h1 := hwf.unack_range q hq
    have h2 := hwf.lc_le
    have h3 := hwf.total_le
    omega
  obtain ⟨arr1, out, hrun, _, hout, _⟩ := retransmitUnACKs_spec v.unACKHead v.arrPackets hrange
  have hentry : ∀ q ∈ v.unACKHead, ∃ p, readPacket v.arrPackets (q - 1) = some p ∧
      p.packetType = PacketType.DATA ∧ p.seqNum = q := by
    intro q hq
    have h1 := hwf.unack_range q hq
    obtain ⟨p, hp, hty, hsq⟩ := hwf.buffer_seq (q - 1) (by omega) (by omega)
    exact ⟨p, hp, hty, by omega⟩
  refine ⟨arr1, out, hrun, ?_, ?_⟩
  · apply List.map_injective_iff.mpr (Option.some_injective Int)
    have h1 : (out.map (fun f => f.seqNum)).map some
        = (out.map some).map (Option.map (fun f : Packet => f.seqNum)) := by
      simp [List.map_map, Function.comp]
    rw [h1, hout, List.map_map]
    apply List.map_congr_left
    intro q hq
    obtain ⟨p, hp, _, hsq⟩ := hentry q hq
    simp only [Function.comp, hp, Option.map_some', Option.some.injEq]
    exact hsq
  · intro f hf
    have hmem : some f ∈ out.map some := List.mem_map_of_mem some hf
    rw [hout] at hmem
    obtain ⟨q, hq, hqf⟩ := List.mem_map.mp hmem
    obtain ⟨p, hp, hty, _⟩ := hentry q hq
    rw [hp] at hqf
    simp only [Option.map_some', Option.some.injEq] at hqf
    subst hqf
    exact ⟨hty, rfl⟩

/-- C11: in a run on `n ≥ 1` lines that fit the buffer, a `SendingPackets` iteration
completes, and every frame it sends has kind DATA, `seqNum ≥ 1`, `ackNum = 0`,
`retransmit = false` and the window field equal to the transmitter's window in that
iteration; it is the buffer entry at index `seqNum - 1` after the burst, with the payload
that entry held before.  Consequently, in every reachable state a retransmission sends, for
each unacknowledged sequence number, a DATA frame whose `seqNum` field is that number. -/
theorem burst_frame_fields (arr : List Packet) (n : Int) (t0 t1 : Timeval) (evs : List Event)
    (v : Vars) (ev : Event) (hn : 1 ≤ n) (hlen : n ≤ arr.length)
    (hrun : mainLoop evs (initVars arr n t0 t1) = some v) :
    (v.state = State.SendingPackets →
      ∃ v1 frames, loopBody ev v = some v1 ∧ v1.sent = v.sent ++ frames ∧
        ∀ f ∈ frames, f.packetType = PacketType.DATA ∧ 1 ≤ f.seqNum ∧ f.ackNum = 0 ∧
          f.retransmit = false ∧ f.windowSize = v.windowSize ∧
          readPacket v1.arrPackets (f.seqNum - 1) = some f ∧
          ∃ p, readPacket v.arrPackets (f.seqNum - 1) = some p ∧ f.data = p.data) ∧
    (∃ arr1 out, retransmitUnACKs v.arrPackets v.unACKHead = some (arr1, out) ∧
      out.map (fun f => f.seqNum) = v.unACKHead ∧
      ∀ f ∈ out, f.packetType = PacketType.DATA ∧ f.retransmit = true) := by
  have hh := hist_mainLoop arr n t0 t1 hn hlen evs v hrun
  refine ⟨?_, retransmit_seqs v hh.wf⟩
  intro hst
  have hseq := hh.wf.seq_eq
  have h0 := hh.wf.lc_nonneg
  obtain ⟨u, b, frames, hsw, hsent, hfr, _⟩ :=
    sendWindow_buffer ev v.windowSize.toNat v h0 hh.wf.ptr_eq (hh.sending_lt hst)
      hh.wf.total_le
  refine ⟨{ u with start := if b then ev.now2 else ev.now, state := State.WaitForACKs },
    frames, ?_, hsent, ?_⟩
  · unfold loopBody
    rw [hst]
    dsimp only
    unfold sendingPackets
    rw [hsw]
  · intro f hf
    obtain ⟨hge, ⟨p, hp, hfp⟩, hstored⟩ := hfr f hf
    have hidx : v.lineCounter + (f.seqNum - v.seqNum) = f.seqNum - 1 := by omega
    rw [hidx] at hp hstored
    have e1 : f.packetType = PacketType.DATA := by rw [hfp]; rfl
    have e2 : f.ackNum = 0 := by rw [hfp]; rfl
    have e3 : f.retransmit = false := by rw [hfp]; rfl
    have e4 : f.windowSize = v.windowSize := by rw [hfp]; rfl
    have e5 : f.data = p.data := by rw [hfp]; rfl
    exact ⟨e1, by omega, e2, e3, e4, hstored, p, hp, e5⟩

theorem burst_frame_fields_witness :
    (1 : Int) ≤ 3 ∧ (3 : Int) ≤ (threeLineBuffer.length : Int) ∧
    mainLoop secondBurstRun.dropLast (initVars threeLineBuffer 3 (atMs 0) (atMs 0))
      = some beforeSecondBurst ∧
    beforeSecondBurst.state = State.SendingPackets ∧ beforeSecondBurst.windowSize = 2 ∧
    (∃ v1 frames, loopBody strayAckEvent beforeSecondBurst = some v1 ∧
        v1.sent = beforeSecondBurst.sent ++ frames ∧
        ∀ f ∈ frames, f.packetType = PacketType.DATA ∧ 1 ≤ f.seqNum ∧ f.ackNum = 0 ∧
          f.retransmit = false ∧ f.windowSize = beforeSecondBurst.windowSize ∧
          readPacket v1.arrPackets (f.seqNum - 1) = some f ∧
          ∃ p, readPacket beforeSecondBurst.arrPackets (f.seqNum - 1) = some p ∧
            f.data = p.data) ∧
    (∃ arr1 out,
      retransmitUnACKs beforeSecondBurst.arrPackets beforeSecondBurst.unACKHead
        = some (arr1, out) ∧
      out.map (fun f => f.seqNum) = beforeSecondBurst.unACKHead ∧
      ∀ f ∈ out, f.packetType = PacketType.DATA ∧ f.retransmit = true) :=
  ⟨by decide, by decide, rfl, rfl, rfl,
    (burst_frame_fields threeLineBuffer 3 (atMs 0) (atMs 0) secondBurstRun.dropLast
      beforeSecondBurst strayAckEvent (by decide) (by decide) rfl).1 rfl,
    (burst_frame_fields threeLineBuffer 3 (atMs 0) (atMs 0) secondBurstRun.dropLast
      beforeSecondBurst strayAckEvent (by decide) (by decide) rfl).2⟩

/-! ## End of transmission -/

theorem sendEOT_some (malloced : Packet) (v v1 : Vars) (h : sendEOT malloced v = some v1) :
    ∃ e, v1 = { v with sent := v.sent ++ List.replicate 10 e } := by
  unfold sendEOT at h
  split at h
  · exact absurd h (by simp)
  · rename_i e _
    simp only [Option.some.injEq] at h
    exact ⟨e, by rw [← h, sendEOTLoop_eq]⟩

/-- End of transmission for inputs that fit the buffer: in a run on `n ≥ 1` lines with
`n` at most the length of `arrPackets`, whatever the clock readings and the
received frames, every datagram sent inside the main loop is a DATA frame; when the loop
is in `AllPacketsSent`, `lineCounter = n`, the unacknowledged list is empty, and for every
`q` in `1 .. n` a DATA frame numbered `q` was sent and `q` was later taken off the list by a
received frame whose `ackNum` is `q`.  An EOT frame in the log of `runMain` therefore means
that all this holds: no EOT is sent while a line is unsent or unacknowledged. -/
theorem eot_only_after_all_acked (arr : List Packet) (n : Int) (t0 t1 : Timeval)
    (evs : List Event) (malloced : Packet) (v w : Vars) (hn : 1 ≤ n) (hlen : n ≤ arr.length) :
    (mainLoop evs (initVars arr n t0 t1) = some v →
      (∀ f ∈ v.sent, f.packetType = PacketType.DATA) ∧
      (v.state = State.AllPacketsSent →
        v.lineCounter = n ∧ v.unACKHead = [] ∧
        ∀ q : Int, 1 ≤ q → q ≤ n →
          (∃ f ∈ v.sent, f.packetType = PacketType.DATA ∧ f.seqNum = q) ∧
          RemovedByAck (initVars arr n t0 t1) evs q)) ∧
    (runMain evs malloced (initVars arr n t0 t1) = some w →
      (∃ f ∈ w.sent, f.packetType = PacketType.EOT) →
      w.state = State.AllPacketsSent ∧ w.lineCounter = n ∧ w.unACKHead = [] ∧
      ∀ q : Int, 1 ≤ q → q ≤ n →
        (∃ f ∈ w.sent, f.packetType = PacketType.DATA ∧ f.seqNum = q) ∧
        RemovedByAck (initVars arr n t0 t1) evs q) := by
  have key : ∀ u : Vars, mainLoop evs (initVars arr n t0 t1) = some u →
      (∀ f ∈ u.sent, f.packetType = PacketType.DATA) ∧
      (u.state = State.AllPacketsSent →
        u.lineCounter = n ∧ u.unACKHead = [] ∧
        ∀ q : Int, 1 ≤ q → q ≤ n →
          (∃ f ∈ u.sent, f.packetType = PacketType.DATA ∧ f.seqNum = q) ∧
          RemovedByAck (initVars arr n t0 t1) evs q) := by
    intro u hrun
    have hh := hist_mainLoop arr n t0 t1 hn hlen evs u hrun
    have htot : u.totalLines = n := by
      have hwf0 : Wf (initVars arr n t0 t1) := (hist_mainLoop arr n t0 t1 hn hlen [] _ rfl).wf
      obtain ⟨u2, h1, _, h3⟩ :=
        wf_mainLoop evs _ hwf0 (fun _ => by show (0 : Int) < n; omega)
      rw [hrun] at h1
      have := Option.some.inj h1
      subst this
      exact h3
    refine ⟨fun f hf => (hh.wf.sent_range f hf).1, ?_⟩
    intro hst
    have hlc : u.lineCounter = n := by rw [hh.done_all hst, htot]
    have hnil : u.unACKHead = [] := hh.idle_empty (by rw [hst]; decide)
    refine ⟨hlc, hnil, ?_⟩
    intro q h1 h2
    obtain ⟨hs, hr⟩ := hh.covered q h1 (by omega)
    refine ⟨hs, ?_⟩
    rcases hr with hr | hr
    · rw [hnil] at hr
      exact absurd hr (by simp)
    · exact hr
  refine ⟨key v, ?_⟩
  intro hmain heot
  unfold runMain at hmain
  cases hm : mainLoop evs (initVars arr n t0 t1) with
  | none => rw [hm] at hmain; simp at hmain
  | some u =>
    rw [hm] at hmain
    dsimp only at hmain
    obtain ⟨hdata, hdone⟩ := key u hm
    by_cases hst : u.state = State.AllPacketsSent
    · rw [if_pos hst] at hmain
      obtain ⟨e, rfl⟩ := sendEOT_some malloced u w hmain
      obtain ⟨h1, h2, h3⟩ := hdone hst
      refine ⟨hst, h1, h2, ?_⟩
      intro q hq1 hq2
      obtain ⟨⟨f, hf, hd, hs⟩, hr⟩ := h3 q hq1 hq2
      exact ⟨⟨f, List.mem_append_left _ hf, hd, hs⟩, hr⟩
    · rw [if_neg hst] at hmain
      have := Option.some.inj hmain
      subst this
      obtain ⟨f, hf, hk⟩ := heot
      have := hdata f hf
      rw [this] at hk
      exact PacketType.noConfusion hk

theorem eot_only_after_all_acked_witness :
    (1 : Int) ≤ 1 ∧ (1 : Int) ≤ (oneLineBuffer.length : Int) ∧
    (∃ v, mainLoop completeRun (initVars oneLineBuffer 1 (atMs 0) (atMs 0)) = some v ∧
      v.state = State.AllPacketsSent ∧
      (∀ f ∈ v.sent, f.packetType = PacketType.DATA) ∧
      v.lineCounter = 1 ∧ v.unACKHead = [] ∧
      ∀ q : Int, 1 ≤ q → q ≤ 1 →
        (∃ f ∈ v.sent, f.packetType = PacketType.DATA ∧ f.seqNum = q) ∧
        RemovedByAck (initVars oneLineBuffer 1 (atMs 0) (atMs 0)) completeRun q) ∧
    (∃ w, runMain completeRun dataFrameA (initVars oneLineBuffer 1 (atMs 0) (atMs 0)) = some w ∧
      (∃ f ∈ w.sent, f.packetType = PacketType.EOT) ∧
      w.state = State.AllPacketsSent ∧ w.lineCounter = 1 ∧ w.unACKHead = []) := by
  have h := eot_only_after_all_acked oneLineBuffer 1 (atMs 0) (atMs 0) completeRun dataFrameA
    afterComplete
    ((runMain completeRun dataFrameA (initVars oneLineBuffer 1 (atMs 0) (atMs 0))).getD
      afterComplete)
    (by decide) (by decide)
  have h1 := h.1 rfl
  have heot : ∃ f ∈ ((runMain completeRun dataFrameA
      (initVars oneLineBuffer 1 (atMs 0) (atMs 0))).getD afterComplete).sent,
      f.packetType = PacketType.EOT := by decide
  have h2 := h.2 rfl heot
  exact ⟨by decide, by decide,
    ⟨afterComplete, rfl, rfl, h1.1, (h1.2 rfl).1, (h1.2 rfl).2.1, (h1.2 rfl).2.2⟩,
    ⟨_, rfl, heot, h2.1, h2.2.1, h2.2.2.1⟩⟩

/-! ## Reading the file -/

/-- A file whose lines fit the buffer is read without leaving the array: the loop ends with
`lineCounter` advanced by the number of lines and the array length unchanged. -/
theorem readLines_fits : ∀ (lines : List (List Nat)) (arr : List Packet) (k : Int),
    0 ≤ k → k + lines.length ≤ arr.length →
    ∃ arr1, readLines lines arr k = some (arr1, k + lines.length) ∧ arr1.length = arr.length := by
  intro lines
  induction lines with
  | nil =>
    intro arr k _ _
    exact ⟨arr, by simp [readLines], rfl⟩
  | cons line rest ih =>
    intro arr k hk hlen
    simp only [List.length_cons, Nat.cast_add, Nat.cast_one] at hlen
    have hlt : k < arr.length := by omega
    obtain ⟨p, hp⟩ : ∃ p, readPacket arr k = some p := by
      unfold readPacket
      rw [if_pos hk]
      have : k.toNat < arr.length := by omega
      exact ⟨arr[k.toNat], List.getElem?_eq_getElem this⟩
    obtain ⟨arr1, h1, h2⟩ := ih (arr.set k.toNat { p with data := fgets p.data line }) (k + 1)
      (by omega) (by rw [List.length_set]; omega)
    refine ⟨arr1, ?_, by rw [h2, List.length_set]⟩
    unfold readLines
    rw [hp]
    dsimp only
    rw [h1]
    simp only [List.length_cons, Nat.cast_add, Nat.cast_one]
    congr 2
    ring

/-- C17 fails in the code for a file of more than `MAX_READ_SIZE` lines: the first 150
lines of the 151-line file fill `arrPackets[0 .. 149]`, and the 151st `fgets` call writes
to `arrPackets[150]`, outside the array, before the main loop starts; whatever the events,
the behaviour of the transmitter on this input is undefined. -/
theorem long_file_overruns_buffer (t0 t1 : Timeval) (evs : List Event) (malloced : Packet) :
    longFile.length = 151 ∧ emptyFileBuffer.length = MAX_READ_SIZE ∧
    (∃ arr, readLines (longFile.take 150) emptyFileBuffer 0 = some (arr, 150) ∧
      readPacket arr 150 = none) ∧
    readLines longFile emptyFileBuffer 0 = none ∧
    transmitFile longFile emptyFileBuffer t0 t1 evs malloced = none := by
  have h : readLines longFile emptyFileBuffer 0 = none := by decide
  refine ⟨rfl, rfl, ?_, h, ?_⟩
  · obtain ⟨arr, h1, h2⟩ := readLines_fits (longFile.take 150) emptyFileBuffer 0 (le_refl _)
      (by decide)
    refine ⟨arr, h1, ?_⟩
    unfold readPacket
    rw [if_pos (by decide)]
    have : arr.length = 150 := h2
    exact List.getElem?_eq_none (by rw [this]; decide)
  · unfold transmitFile
    rw [h]

/-! ## The millisecond difference `delay` -/

theorem tdiv_1000_cases (x : Int) :
    (0 ≤ x ∧ Int.tdiv x 1000 = x / 1000) ∨ (x < 0 ∧ Int.tdiv x 1000 = -((-x) / 1000)) := by
  rcases le_or_lt 0 x with h | h
  · exact Or.inl ⟨h, Int.tdiv_eq_ediv h (by norm_num)⟩
  · refine Or.inr ⟨h, ?_⟩
    have h2 : x = -(-x) := by ring
    conv_lhs => rw [h2, Int.neg_tdiv, Int.tdiv_eq_ediv (by omega : (0 : Int) ≤ -x) (by norm_num)]

theorem delay_nonneg (t1 t2 : Timeval) (h1 : normalized t1) (h2 : normalized t2)
    (h : notAfter t1 t2) : 0 ≤ delay t1 t2 := by
  unfold normalized at h1 h2
  unfold notAfter at h
  unfold delay
  dsimp only
  rcases tdiv_1000_cases (t2.tv_usec - t1.tv_usec) with ⟨hx, e⟩ | ⟨hx, e⟩ <;> rw [e] <;> omega

theorem delay_nonpos (t1 t2 : Timeval) (h1 : normalized t1) (h2 : normalized t2)
    (h : notAfter t2 t1) : delay t1 t2 ≤ 0 := by
  unfold normalized at h1 h2
  unfold notAfter at h
  unfold delay
  dsimp only
  rcases tdiv_1000_cases (t2.tv_usec - t1.tv_usec) with ⟨hx, e⟩ | ⟨hx, e⟩ <;> rw [e] <;> omega

theorem updateTimeoutInterval_frame (v : Vars) :
    (updateTimeoutInterval v).start = v.start ∧ (updateTimeoutInterval v).endTime = v.endTime ∧
    (updateTimeoutInterval v).estimatedRTT
      = Int.tdiv (7 * v.estimatedRTT + wrap32 (delay v.start v.endTime)) 8 ∧
    (updateTimeoutInterval v).sampleRTT = wrap32 (delay v.start v.endTime) := by
  rw [updateTimeoutInterval_closed]
  exact ⟨rfl, rfl, rfl, rfl⟩

theorem rto_after_large_sample (e d s t : Int) (he : 0 ≤ e) (hd : 0 ≤ d)
    (ht : t = min MAX_TIMEOUT_INTERVAL (e + 4 * d)) (hs : t ≤ s) :
    t ≤ min MAX_TIMEOUT_INTERVAL
      (Int.tdiv (7 * e + s) 8 + 4 * Int.tdiv (3 * d + |s - Int.tdiv (7 * e + s) 8|) 4) := by
  unfold MAX_TIMEOUT_INTERVAL at *
  have ht1 : t ≤ 5000 := by rw [ht]; exact min_le_left _ _
  have ht2 : t ≤ e + 4 * d := by rw [ht]; exact min_le_right _ _
  have ht3 : t = 5000 ∨ t = e + 4 * d := by
    rcases min_choice (5000 : Int) (e + 4 * d) with h | h
    · left; rw [ht, h]
    · right; rw [ht, h]
  have hs0 : 0 ≤ s := by omega
  rw [Int.tdiv_eq_ediv (by omega : (0 : Int) ≤ 7 * e + s) (by norm_num)]
  have habs : 0 ≤ |s - (7 * e + s) / 8| := abs_nonneg _
  rw [Int.tdiv_eq_ediv (by omega : (0 : Int) ≤ 3 * d + |s - (7 * e + s) / 8|) (by norm_num)]
  have hE1 : 8 * ((7 * e + s) / 8) ≤ 7 * e + s := by omega
  have hE2 : 7 * e + s < 8 * ((7 * e + s) / 8) + 8 := by omega
  generalize (7 * e + s) / 8 = E at hE1 hE2 habs ⊢
  have hA : s - E ≤ |s - E| := le_abs_self _
  generalize |s - E| = A at habs hA ⊢
  have hD1 : 4 * ((3 * d + A) / 4) ≤ 3 * d + A := by omega
  have hD2 : 3 * d + A < 4 * ((3 * d + A) / 4) + 4 := by omega
  generalize (3 * d + A) / 4 = D at hD1 hD2 ⊢
  rw [le_min_iff]
  refine ⟨ht1, ?_⟩
  rcases eq_or_lt_of_le hd with h0 | h0
  · rcases ht3 with h | h <;> omega
  · omega

theorem rto_no_overflow (e d s : Int) (he : 0 ≤ e) (hd : 0 ≤ d) (hs : 0 ≤ s)
    (h1 : s + 3 * d ≤ 2147483647) (h2 : 2 * e + 3 * d ≤ 2147483647) :
    fitsInt s ∧ fitsInt |s - Int.tdiv (7 * e + s) 8| ∧
    fitsInt (4 * Int.tdiv (3 * d + |s - Int.tdiv (7 * e + s) 8|) 4) ∧
    fitsInt (Int.tdiv (7 * e + s) 8
      + 4 * Int.tdiv (3 * d + |s - Int.tdiv (7 * e + s) 8|) 4) := by
  unfold fitsInt
  rw [Int.tdiv_eq_ediv (by omega : (0 : Int) ≤ 7 * e + s) (by norm_num)]
  have habs : 0 ≤ |s - (7 * e + s) / 8| := abs_nonneg _
  rw [Int.tdiv_eq_ediv (by omega : (0 : Int) ≤ 3 * d + |s - (7 * e + s) / 8|) (by norm_num)]
  have hE1 : 8 * ((7 * e + s) / 8) ≤ 7 * e + s := by omega
  have hE2 : 7 * e + s < 8 * ((7 * e + s) / 8) + 8 := by omega
  generalize (7 * e + s) / 8 = E at hE1 hE2 habs ⊢
  have hA : |s - E| = s - E ∨ |s - E| = E - s := by
    rcases abs_cases (s - E) with ⟨h, _⟩ | ⟨h, _⟩
    · exact Or.inl h
    · right; rw [h]; ring
  generalize |s - E| = A at habs hA ⊢
  have hD1 : 4 * ((3 * d + A) / 4) ≤ 3 * d + A := by omega
  have hD2 : 3 * d + A < 4 * ((3 * d + A) / 4) + 4 := by omega
  generalize (3 * d + A) / 4 = D at hD1 hD2 ⊢
  rcases hA with hA | hA <;> refine ⟨⟨?_, ?_⟩, ⟨?_, ?_⟩, ⟨?_, ?_⟩, ⟨?_, ?_⟩⟩ <;> omega

/-- C28, as the code has it: when `estimatedRTT ≥ 0`, `devRTT ≥ 0`, `timeoutInterval =
min(5000, estimatedRTT + 4·devRTT)`, the sample `delay(start, end)` is at least
`timeoutInterval` (the timeout condition), and the 32-bit computation cannot overflow
(`sample + 3·devRTT ≤ INT_MAX` and `2·estimatedRTT + 3·devRTT ≤ INT_MAX`),
`updateTimeoutInterval` returns a `timeoutInterval` that is not smaller than the one before
the call, in particular in the timeout branch of `WaitForACKs`. -/
theorem timeout_never_shortens (v : Vars) (he : 0 ≤ v.estimatedRTT) (hd : 0 ≤ v.devRTT)
    (ht : v.timeoutInterval = min MAX_TIMEOUT_INTERVAL (v.estimatedRTT + 4 * v.devRTT))
    (hs : delay v.start v.endTime ≥ v.timeoutInterval)
    (h1 : delay v.start v.endTime + 3 * v.devRTT ≤ 2147483647)
    (h2 : 2 * v.estimatedRTT + 3 * v.devRTT ≤ 2147483647) :
    v.timeoutInterval ≤ (updateTimeoutInterval v).timeoutInterval ∧
    ∀ ev v1, onTimeout ev v = some v1 → v.timeoutInterval ≤ v1.timeoutInterval := by
  have key := rto_after_large_sample v.estimatedRTT v.devRTT (delay v.start v.endTime)
    v.timeoutInterval he hd ht hs
  have hs0 : 0 ≤ delay v.start v.endTime := by
    have : 0 ≤ v.timeoutInterval := by
      rw [ht]
      unfold MAX_TIMEOUT_INTERVAL
      rw [le_min_iff]
      omega
    omega
  obtain ⟨f1, f2, f3, f4⟩ := rto_no_overflow v.estimatedRTT v.devRTT (delay v.start v.endTime)
    he hd hs0 h1 h2
  constructor
  · rw [updateTimeoutInterval_exact v f1 f2 f3 f4]
    exact key
  · intro ev v1 h
    obtain ⟨arr, out, _, rfl⟩ := onTimeout_some ev v v1 h
    have hx := updateTimeoutInterval_exact { v with arrPackets := arr, sent := v.sent ++ out }
      f1 f2 f3 f4
    rw [hx]
    exact key

theorem timeout_never_shortens_witness :
    afterSend.timeoutInterval
        ≤ (updateTimeoutInterval { afterSend with endTime := atMs 2000 }).timeoutInterval ∧
    ∀ ev v1, onTimeout ev { afterSend with endTime := atMs 2000 } = some v1 →
      afterSend.timeoutInterval ≤ v1.timeoutInterval :=
  timeout_never_shortens { afterSend with endTime := atMs 2000 } (by decide) (by decide)
    (by decide) (by decide) (by decide) (by decide)

/-- C28 fails as stated: with `estimatedRTT` 1000, `devRTT` 250, `timeoutInterval`
2000 = min(5000, 1000 + 4·250) and the sample 2147483647 ≥ 2000, the `int` sum
`268436330 + 4·469762016` wraps and `updateTimeoutInterval` leaves `timeoutInterval`
at -2147482902: the timer is shortened. -/
theorem timeout_shortens_on_overflow :
    0 ≤ overflowVars.estimatedRTT ∧ 0 ≤ overflowVars.devRTT ∧
    overflowVars.timeoutInterval = 2000 ∧
    overflowVars.timeoutInterval
      = min MAX_TIMEOUT_INTERVAL (overflowVars.estimatedRTT + 4 * overflowVars.devRTT) ∧
    delay overflowVars.start overflowVars.endTime ≥ overflowVars.timeoutInterval ∧
    (updateTimeoutInterval overflowVars).sampleRTT = 2147483647 ∧
    (updateTimeoutInterval overflowVars).timeoutInterval = -2147482902 ∧
    (updateTimeoutInterval overflowVars).timeoutInterval < overflowVars.timeoutInterval := by
  have hupd : (updateTimeoutInterval overflowVars).timeoutInterval = -2147482902 := by
    rw [updateTimeoutInterval_closed]; decide
  refine ⟨by decide, by decide, rfl, by decide, by decide, ?_, hupd, ?_⟩
  · rw [updateTimeoutInterval_closed]; decide
  · rw [hupd]; decide

theorem iterate_updateTimeoutInterval_frame (v : Vars) (n : Nat) :
    (updateTimeoutInterval^[n] v).start = v.start ∧
    (updateTimeoutInterval^[n] v).endTime = v.endTime := by
  induction n with
  | zero => exact ⟨rfl, rfl⟩
  | succ n ih =>
    rw [Function.iterate_succ_apply']
    obtain ⟨h1, h2, _, _⟩ := updateTimeoutInterval_frame (updateTimeoutInterval^[n] v)
    exact ⟨h1.trans ih.1, h2.trans ih.2⟩

theorem iterate_updateTimeoutInterval_succ (v : Vars) (n : Nat) :
    (updateTimeoutInterval^[n + 1] v).estimatedRTT
      = Int.tdiv (7 * (updateTimeoutInterval^[n] v).estimatedRTT
          + wrap32 (delay v.start v.endTime)) 8 := by
  rw [Function.iterate_succ_apply']
  obtain ⟨_, _, h3, _⟩ := updateTimeoutInterval_frame (updateTimeoutInterval^[n] v)
  obtain ⟨h1, h2⟩ := iterate_updateTimeoutInterval_frame v n
  rw [h3, h1, h2]

/-- A sequence obeying `a (n + 1) = (7 · a n + s) / 8` (C division) with `a 0 ≥ 0` and
`s ≥ 0` stays on the side of `s` it starts on and moves toward `s`. -/
theorem estimate_monotone (s : Int) (hs : 0 ≤ s) (a : Nat → Int)
    (hrec : ∀ n, a (n + 1) = Int.tdiv (7 * a n + s) 8) (h0 : 0 ≤ a 0) (n : Nat) :
    0 ≤ a n ∧ (a 0 ≤ s → a n ≤ a (n + 1) ∧ a (n + 1) ≤ s) ∧
    (s ≤ a 0 → s ≤ a (n + 1) ∧ a (n + 1) ≤ a n) := by
  induction n with
  | zero =>
    have e := hrec 0
    rw [Int.tdiv_eq_ediv (by omega : (0 : Int) ≤ 7 * a 0 + s) (by norm_num)] at e
    refine ⟨h0, ?_, ?_⟩ <;> intro h <;> omega
  | succ n ih =>
    obtain ⟨i0, i1, i2⟩ := ih
    have e0 := hrec n
    rw [Int.tdiv_eq_ediv (by omega : (0 : Int) ≤ 7 * a n + s) (by norm_num)] at e0
    have hp : 0 ≤ a (n + 1) := by omega
    have e := hrec (n + 1)
    rw [Int.tdiv_eq_ediv (by omega : (0 : Int) ≤ 7 * a (n + 1) + s) (by norm_num)] at e
    refine ⟨hp, ?_, ?_⟩
    · intro h
      have := i1 h
      omega
    · intro h
      have := i2 h
      omega

/-- Such a sequence is constant from some index on, at a value between `s - 7` and `s`,
which is `s` itself when the sequence starts at or above `s`. -/
theorem estimate_settles (s : Int) (hs : 0 ≤ s) : ∀ (k : Nat) (a : Nat → Int),
    (∀ n, a (n + 1) = Int.tdiv (7 * a n + s) 8) → 0 ≤ a 0 → (|s - a 0|).toNat ≤ k →
    ∃ (N : Nat) (e : Int), s - 7 ≤ e ∧ e ≤ s ∧ (s ≤ a 0 → e = s) ∧ ∀ n, N ≤ n → a n = e := by
  intro k
  induction k with
  | zero =>
    intro a hrec h0 hk
    have hz : |s - a 0| ≤ 0 := by
      have := Int.toNat_eq_zero.mp (Nat.le_zero.mp hk)
      exact this
    have hz2 : s - a 0 = 0 := abs_nonpos_iff.mp hz
    have hfix : ∀ n, a n = s := by
      intro n
      induction n with
      | zero => omega
      | succ n ih =>
        rw [hrec n, ih, Int.tdiv_eq_ediv (by omega : (0 : Int) ≤ 7 * s + s) (by norm_num)]
        omega
    exact ⟨0, s, by omega, le_refl _, fun _ => rfl, fun n _ => hfix n⟩
  | succ k ih =>
    intro a hrec h0 hk
    have e1 := hrec 0
    rw [Int.tdiv_eq_ediv (by omega : (0 : Int) ≤ 7 * a 0 + s) (by norm_num)] at e1
    by_cases hfix : a 1 = a 0
    · have hall : ∀ n, a n = a 0 := by
        intro n
        induction n with
        | zero => rfl
        | succ n ih2 =>
          rw [hrec n, ih2, ← hrec 0]
          exact hfix
      have hf2 : a (0 + 1) = a 0 := hfix
      refine ⟨0, a 0, by omega, by omega, fun h => by omega, fun n _ => hall n⟩
    · have hne : a (0 + 1) ≠ a 0 := hfix
      have hp : 0 ≤ a (0 + 1) := by omega
      have hdist : (|s - a (0 + 1)|).toNat ≤ k := by
        have hk2 : |s - a 0| ≤ (k : Int) + 1 := by
          have := Int.toNat_le.mp hk
          push_cast at this
          exact this
        have : |s - a (0 + 1)| ≤ (k : Int) := by
          rcases abs_cases (s - a 0) with ⟨ha, _⟩ | ⟨ha, _⟩ <;>
            rcases abs_cases (s - a (0 + 1)) with ⟨hb, _⟩ | ⟨hb, _⟩ <;>
            rw [ha] at hk2 <;> rw [hb] <;> omega
        exact Int.toNat_le.mpr this
      obtain ⟨N, e, b1, b2, b3, b4⟩ := ih (fun n => a (n + 1)) (fun n => hrec (n + 1)) hp hdist
      refine ⟨N + 1, e, b1, b2, fun h => b3 (by omega), ?_⟩
      intro n hn
      obtain ⟨m, rfl⟩ : ∃ m, n = m + 1 := ⟨n - 1, by omega⟩
      exact b4 m (by omega)

/-- C26: with `start` and `end` fixed so that every call takes the same sample `s ≥ 0`
(the value that `updateTimeoutInterval` stores in the `int` `sampleRTT`), and
a starting `estimatedRTT ≥ 0`, repeated calls of `updateTimeoutInterval` move
`estimatedRTT` monotonically toward `s` (never past it), and from some call on it stays
constant at a value `e` with `s - 7 ≤ e ≤ s`, which is `s` itself when the starting estimate
is at least `s`. -/
theorem estimatedRTT_converges (v : Vars) (s : Int)
    (hsample : wrap32 (delay v.start v.endTime) = s)
    (hs : 0 ≤ s) (he : 0 ≤ v.estimatedRTT) :
    (∀ n : Nat,
      (v.estimatedRTT ≤ s →
        (updateTimeoutInterval^[n] v).estimatedRTT ≤ (updateTimeoutInterval^[n + 1] v).estimatedRTT ∧
        (updateTimeoutInterval^[n + 1] v).estimatedRTT ≤ s) ∧
      (s ≤ v.estimatedRTT →
        s ≤ (updateTimeoutInterval^[n + 1] v).estimatedRTT ∧
        (updateTimeoutInterval^[n + 1] v).estimatedRTT ≤ (updateTimeoutInterval^[n] v).estimatedRTT)) ∧
    ∃ (N : Nat) (e : Int), s - 7 ≤ e ∧ e ≤ s ∧ (s ≤ v.estimatedRTT → e = s) ∧
      ∀ n : Nat, N ≤ n → (updateTimeoutInterval^[n] v).estimatedRTT = e := by
  have hrec : ∀ n, (fun n => (updateTimeoutInterval^[n] v).estimatedRTT) (n + 1)
      = Int.tdiv (7 * (fun n => (updateTimeoutInterval^[n] v).estimatedRTT) n + s) 8 := by
    intro n
    show (updateTimeoutInterval^[n + 1] v).estimatedRTT = _
    rw [iterate_updateTimeoutInterval_succ, hsample]
  constructor
  · intro n
    exact (estimate_monotone s hs (fun n => (updateTimeoutInterval^[n] v).estimatedRTT)
      hrec he n).2
  · exact estimate_settles s hs _ (fun n => (updateTimeoutInterval^[n] v).estimatedRTT)
      hrec he (le_refl _)

theorem estimatedRTT_converges_witness :
    steadyVars.estimatedRTT = 1000 ∧
    ∃ N : Nat, ∀ n : Nat, N ≤ n → (updateTimeoutInterval^[n] steadyVars).estimatedRTT = 40 := by
  obtain ⟨_, N, e, _, _, h3, h4⟩ :=
    estimatedRTT_converges steadyVars 40 (by decide) (by decide) (by decide)
  have h40 : e = 40 := h3 (by decide)
  exact ⟨rfl, N, fun n hn => by rw [h4 n hn, h40]⟩

/-! ## The samples passed to the estimator in `WaitForACKs` -/

theorem onReceive_sampleRTT (pkt : Packet) (v : Vars) :
    (onReceive pkt v).sampleRTT = wrap32 (delay v.start v.endTime) := by
  by_cases hm : pkt.ackNum ∈ v.unACKHead
  · rw [onReceive_of_mem pkt v hm]
    exact (updateTimeoutInterval_frame v).2.2.2
  · rw [onReceive_of_not_mem pkt v hm]
    exact (updateTimeoutInterval_frame v).2.2.2

theorem onTimeout_sample (ev : Event) (v v2 : Vars) (h : onTimeout ev v = some v2) :
    v2.sampleRTT = wrap32 (delay v.start v.endTime) ∧ v2.start = ev.now2 ∧
    v2.endTime = v.endTime := by
  obtain ⟨arr, out, _, rfl⟩ := onTimeout_some ev v v2 h
  refine ⟨?_, rfl, ?_⟩
  · exact (updateTimeoutInterval_frame { v with arrPackets := arr, sent := v.sent ++ out }).2.2.2
  · exact (updateTimeoutInterval_frame { v with arrPackets := arr, sent := v.sent ++ out }).2.1

/-- The sign of the samples in a `WaitForACKs` iteration with a non-empty list, clock
readings in order (`start` not after the reading `end`, `end` not after the second reading)
and delays that fit in an `int`: the sample of the call in the timeout branch is
`delay(start, end) ≥ 0`; the sample of the call in the receive branch is
`delay(start, end) ≥ 0` when the timeout branch did not run; when it did run, `start` has
been read again after `end`, the receive branch takes the sample `delay(start, end)` of the
new `start` and the old `end`, and that sample is `≤ 0`. -/
theorem sample_sign (v : Vars) (ev : Event) (v1 : Vars)
    (hn0 : normalized v.start) (hn1 : normalized ev.now) (hn2 : normalized ev.now2)
    (hc1 : notAfter v.start ev.now) (hc2 : notAfter ev.now ev.now2)
    (hf1 : delay v.start ev.now ≤ 2147483647) (hf2 : -2147483648 ≤ delay ev.now2 ev.now)
    (hne : v.unACKHead ≠ []) (h : waitForACKs ev v = some v1) :
    (¬ delay v.start ev.now ≥ v.timeoutInterval →
      ∀ pkt, ev.recv = some pkt →
        v1 = onReceive pkt { v with endTime := ev.now } ∧
        v1.sampleRTT = delay v.start ev.now ∧ 0 ≤ v1.sampleRTT) ∧
    (delay v.start ev.now ≥ v.timeoutInterval →
      ∃ v2, onTimeout ev { v with endTime := ev.now } = some v2 ∧
        v2.sampleRTT = delay v.start ev.now ∧ 0 ≤ v2.sampleRTT ∧
        (ev.recv = none → v1 = v2) ∧
        ∀ pkt, ev.recv = some pkt →
          v1 = onReceive pkt v2 ∧ v1.sampleRTT = delay ev.now2 ev.now ∧ v1.sampleRTT ≤ 0) := by
  have hpos := delay_nonneg v.start ev.now hn0 hn1 hc1
  have hneg := delay_nonpos ev.now2 ev.now hn2 hn1 hc2
  have hw1 : wrap32 (delay v.start ev.now) = delay v.start ev.now :=
    wrap32_of_fits _ ⟨by omega, hf1⟩
  have hw2 : wrap32 (delay ev.now2 ev.now) = delay ev.now2 ev.now :=
    wrap32_of_fits _ ⟨hf2, by omega⟩
  rcases waitForACKs_some ev v v1 h with ⟨hnil, _⟩ | ⟨_, v2, hto, hrc⟩
  · exact absurd hnil hne
  · constructor
    · intro hnt pkt hr
      rcases hto with ⟨ht, _⟩ | ⟨_, rfl⟩
      · exact absurd ht hnt
      · rcases hrc with ⟨hr0, _⟩ | ⟨pkt2, hr2, rfl⟩
        · rw [hr0] at hr
          exact absurd hr (by simp)
        · rw [hr2] at hr
          simp only [Option.some.injEq] at hr
          subst hr
          have e : (onReceive pkt2 { v with endTime := ev.now }).sampleRTT
              = delay v.start ev.now := by
            rw [onReceive_sampleRTT]
            exact hw1
          exact ⟨rfl, e, by rw [e]; exact hpos⟩
    · intro ht
      rcases hto with ⟨_, hto⟩ | ⟨hnt, _⟩
      · obtain ⟨s1, s2, s3⟩ := onTimeout_sample ev _ v2 hto
        have s1b : v2.sampleRTT = delay v.start ev.now := s1.trans hw1
        refine ⟨v2, hto, s1b, by rw [s1b]; exact hpos, ?_, ?_⟩
        · intro hr
          rcases hrc with ⟨_, e⟩ | ⟨pkt2, hr2, _⟩
          · exact e
          · rw [hr2] at hr
            exact absurd hr (by simp)
        · intro pkt hr
          rcases hrc with ⟨hr0, _⟩ | ⟨pkt2, hr2, rfl⟩
          · rw [hr0] at hr
            exact absurd hr (by simp)
          · rw [hr2] at hr
            simp only [Option.some.injEq] at hr
            subst hr
            have e : (onReceive pkt2 v2).sampleRTT = delay ev.now2 ev.now := by
              rw [onReceive_sampleRTT, s2, s3]
              exact hw2
            exact ⟨rfl, e, by rw [e]; exact hneg⟩
      · exact absurd ht hnt

theorem sample_sign_witness :
    ∃ v1, waitForACKs lateAckEvent afterSend = some v1 ∧
      ∃ v2, onTimeout lateAckEvent { afterSend with endTime := lateAckEvent.now } = some v2 ∧
        v2.sampleRTT = delay afterSend.start lateAckEvent.now ∧ 0 ≤ v2.sampleRTT ∧
        (lateAckEvent.recv = none → v1 = v2) ∧
        ∀ pkt, lateAckEvent.recv = some pkt →
          v1 = onReceive pkt v2 ∧ v1.sampleRTT = delay lateAckEvent.now2 lateAckEvent.now ∧
          v1.sampleRTT ≤ 0 :=
  ⟨_, rfl, (sample_sign afterSend lateAckEvent _ (by decide) (by decide) (by decide)
    (by decide) (by decide) (by decide) (by decide) (by decide) rfl).2 (by decide)⟩

/-- C29 fails in the code: the one-line file was sent at time 0; at 2000 ms the timeout
branch runs (sample 2000), `start` is read again at 2001 ms, and the ACK received in the
same iteration makes the receive branch call the estimator with `start` = 2001 ms and
`end` = 2000 ms, the sample -1.  All clock readings are in non-decreasing order. -/
theorem negative_sample_after_timeout :
    notAfter afterSend.start lateAckEvent.now ∧ notAfter lateAckEvent.now lateAckEvent.now2 ∧
    afterSend.state = State.WaitForACKs ∧ timeoutFires lateAckEvent afterSend = true ∧
    lateAckEvent.recv = some (ackFrame 1) ∧
    ∃ v2 v1, onTimeout lateAckEvent { afterSend with endTime := lateAckEvent.now } = some v2 ∧
      v2.sampleRTT = 2000 ∧
      loopBody lateAckEvent afterSend = some v1 ∧ v1 = onReceive (ackFrame 1) v2 ∧
      delay v2.start v2.endTime = -1 ∧ v1.sampleRTT = -1 ∧ ¬ 0 ≤ v1.sampleRTT :=
  ⟨by decide, by decide, rfl, rfl, rfl, _, _, rfl, rfl, rfl, rfl, rfl, rfl, by decide⟩

/-! ## `copyPacket` -/

theorem cstr_append_nul (s rest : List Nat) (h : ∀ b ∈ s, b ≠ 0) : cstr (s ++ 0 :: rest) = s := by
  unfold cstr
  induction s with
  | nil => simp
  | cons x t ih =>
    have hx : x ≠ 0 := h x (by simp)
    have ht : ∀ b ∈ t, b ≠ 0 := fun b hb => h b (by simp [hb])
    simp only [List.cons_append]
    rw [List.takeWhile_cons_of_pos (by simpa using hx), ih ht]

theorem cstr_strcpy (dst src r : List Nat) (h : strcpy dst src = some r) :
    cstr r = cstr src ∧ r.length = dst.length := by
  unfold strcpy at h
  split_ifs at h with hc
  simp only [Option.some.injEq] at h
  subst h
  constructor
  · apply cstr_append_nul
    intro b hb
    have := List.mem_takeWhile_imp hb
    simpa using this
  · simp only [List.length_append, List.length_cons, List.length_drop]
    omega

/-- What `copyPacket` returns, when its `strcpy` is defined: the kind, sequence number,
payload string, window and retransmit flag of the argument, and as `ackNum` the argument's
`seqNum`. -/
theorem copyPacket_fields (uninit pkt c : Packet) (h : copyPacket uninit pkt = some c) :
    c.packetType = pkt.packetType ∧ c.seqNum = pkt.seqNum ∧ cstr c.data = cstr pkt.data ∧
    c.windowSize = pkt.windowSize ∧ c.ackNum = pkt.seqNum ∧ c.retransmit = pkt.retransmit := by
  unfold copyPacket at h
  dsimp only at h
  split at h
  · exact absurd h (by simp)
  · rename_i d hd
    simp only [Option.some.injEq] at h
    subst h
    exact ⟨rfl, rfl, (cstr_strcpy _ _ _ hd).1, rfl, rfl, rfl⟩

/-- C25 fails in the code: the copy of an ACK frame with `seqNum = 0` and `ackNum = 1`
agrees with it in kind, sequence number, payload string, window and retransmit flag, but
its `ackNum` is 0, the frame's `seqNum`, so the copy differs from the frame. -/
theorem copyPacket_ackNum_differs :
    (ackFrame 1).seqNum = 0 ∧ (ackFrame 1).ackNum = 1 ∧
    ∃ c, copyPacket (lineSlot lineA) (ackFrame 1) = some c ∧
      c.packetType = (ackFrame 1).packetType ∧ c.seqNum = (ackFrame 1).seqNum ∧
      cstr c.data = cstr (ackFrame 1).data ∧ c.windowSize = (ackFrame 1).windowSize ∧
      c.retransmit = (ackFrame 1).retransmit ∧ c.ackNum = 0 ∧ c.ackNum ≠ (ackFrame 1).ackNum :=
  ⟨rfl, rfl, _, rfl, rfl, rfl, rfl, rfl, rfl, rfl, by decide⟩

/-! ## The window on entering `SendingPackets` -/

theorem ready_initVars (arr : List Packet) (n : Int) (t0 t1 : Timeval) :
    WindowReady (initVars arr n t0 t1) :=
  Or.inl (le_refl _)

theorem ready_state (v : Vars) (hr : WindowReady v) (hs : v.state ≠ State.WaitForACKs) :
    1 ≤ v.windowSize := by
  rcases hr with h | ⟨h, _⟩
  · exact h
  · exact absurd h hs

theorem ready_onReceive (pkt : Packet) (v : Vars) (hw : 0 ≤ v.windowSize)
    (hs : v.state = State.WaitForACKs) (hne : v.unACKHead ≠ []) :
    WindowReady (onReceive pkt v) := by
  by_cases hm : pkt.ackNum ∈ v.unACKHead
  · rw [onReceive_of_mem pkt v hm]
    left
    dsimp only
    unfold MAX_WINDOW_SIZE
    split_ifs with hc
    · omega
    · omega
  · rw [onReceive_of_not_mem pkt v hm]
    right
    rw [updateTimeoutInterval_closed]
    exact ⟨hs, hne⟩

theorem ready_loopBody (ev : Event) (v v1 : Vars) (hi : Inv v) (hr : WindowReady v)
    (h : loopBody ev v = some v1) : WindowReady v1 := by
  unfold loopBody at h
  split at h
  · rename_i hst
    obtain ⟨_, h2, _⟩ := sendingPackets_some ev v v1 h
    left
    rw [h2]
    exact ready_state v hr (by rw [hst]; decide)
  · rename_i hst
    have hs : v.state ≠ State.SendingPackets := by rw [hst]; decide
    rcases waitForACKs_some ev v v1 h with ⟨hnil, rfl⟩ | ⟨hne, v2, hto, hrc⟩
    · left
      rcases hr with h1 | ⟨_, h2⟩
      · exact h1
      · exact absurd hnil h2
    · have hi0 : Inv { v with endTime := ev.now } :=
        ⟨hi.window_nonneg, hi.window_le, hi.rto_le, hi.count_le, fun hc => absurd hc hs⟩
      have h2 : Inv v2 ∧ v2.state = State.WaitForACKs ∧ v2.unACKHead ≠ [] := by
        rcases hto with ⟨_, hto⟩ | ⟨_, rfl⟩
        · obtain ⟨a, b, c⟩ := inv_onTimeout ev _ v2 hi0 hs hto
          exact ⟨a, b.trans hst, by rw [c]; exact hne⟩
        · exact ⟨hi0, hst, hne⟩
      rcases hrc with ⟨_, rfl⟩ | ⟨pkt, _, rfl⟩
      · exact Or.inr ⟨h2.2.1, h2.2.2⟩
      · exact ready_onReceive pkt v2 h2.1.window_nonneg h2.2.1 h2.2.2
  · rename_i hst
    simp only [Option.some.injEq] at h
    subst h
    left
    exact ready_state v hr (by rw [hst]; decide)
  · rename_i hst
    simp only [Option.some.injEq] at h
    subst h
    exact hr

theorem ready_mainLoop (evs : List Event) : ∀ v v1, Inv v → WindowReady v →
    mainLoop evs v = some v1 → WindowReady v1 := by
  induction evs with
  | nil =>
    intro v v1 _ hr h
    simp only [mainLoop, Option.some.injEq] at h
    subst h
    exact hr
  | cons ev evs ih =>
    intro v v1 hi hr h
    unfold mainLoop at h
    split at h
    · exact absurd h (by simp)
    · rename_i w hw
      exact ih w v1 (inv_loopBody ev v w hi hw) (ready_loopBody ev v w hi hr hw) h

/-- C27: in every state the main loop reaches from the initial state, `0 ≤ windowSize ≤
MAX_WINDOW_SIZE`; whenever that state is `SendingPackets` (initially and after every
`AllACKsReceived`), also `1 ≤ windowSize`, and then, for an input of `n ≥ 1` lines that fits
the buffer, the burst completes and sends at least one frame, all frames of the burst being
of kind DATA. -/
theorem window_entering_burst (arr : List Packet) (n : Int) (t0 t1 : Timeval)
    (evs : List Event) (v : Vars) (h : mainLoop evs (initVars arr n t0 t1) = some v) :
    (0 ≤ v.windowSize ∧ v.windowSize ≤ MAX_WINDOW_SIZE) ∧
    (v.state = State.SendingPackets →
      1 ≤ v.windowSize ∧
      (1 ≤ n → n ≤ arr.length → ∀ ev : Event,
        ∃ (v1 : Vars) (f : Packet) (fs : List Packet),
          loopBody ev v = some v1 ∧ v1.sent = v.sent ++ f :: fs ∧
          ∀ g ∈ f :: fs, g.packetType = PacketType.DATA)) := by
  have hi := inv_mainLoop evs _ v (inv_initVars arr n t0 t1) h
  have hr := ready_mainLoop evs _ v (inv_initVars arr n t0 t1) (ready_initVars arr n t0 t1) h
  refine ⟨⟨hi.window_nonneg, hi.window_le⟩, ?_⟩
  intro hst
  have hw : 1 ≤ v.windowSize := ready_state v hr (by rw [hst]; decide)
  refine ⟨hw, ?_⟩
  intro hn hlen ev
  have hh := hist_mainLoop arr n t0 t1 hn hlen evs v h
  have hlt := hh.sending_lt hst
  obtain ⟨w, b, frames, m, hrun, hm, hfl, hsent, _, hall, _⟩ :=
    sendWindow_spec ev v.windowSize.toNat v hh.wf.lc_nonneg hh.wf.ptr_eq hlt hh.wf.total_le
  have hcast : ((v.windowSize.toNat : Nat) : Int) = v.windowSize :=
    Int.toNat_of_nonneg (by omega)
  rw [hcast] at hm
  have hm1 : 1 ≤ m := by
    have : (1 : Int) ≤ min v.windowSize (v.totalLines - v.lineCounter) := by
      rw [le_min_iff]
      omega
    omega
  obtain ⟨f, fs, rfl⟩ : ∃ f fs, frames = f :: fs := by
    cases frames with
    | nil =>
      simp only [List.length_nil] at hfl
      omega
    | cons f fs => exact ⟨f, fs, rfl⟩
  refine ⟨{ w with start := if b then ev.now2 else ev.now, state := State.WaitForACKs },
    f, fs, ?_, hsent, fun g hg => (hall g hg).1⟩
  unfold loopBody
  rw [hst]
  dsimp only
  unfold sendingPackets
  rw [hrun]

theorem window_entering_burst_witness :
    ∃ v, mainLoop secondBurstRun.dropLast (initVars threeLineBuffer 3 (atMs 0) (atMs 0)) = some v ∧
      v.state = State.SendingPackets ∧
      (0 ≤ v.windowSize ∧ v.windowSize ≤ MAX_WINDOW_SIZE) ∧
      1 ≤ v.windowSize ∧
      ∀ ev : Event, ∃ (v1 : Vars) (f : Packet) (fs : List Packet),
        loopBody ev v = some v1 ∧ v1.sent = v.sent ++ f :: fs ∧
        ∀ g ∈ f :: fs, g.packetType = PacketType.DATA := by
  have h := window_entering_burst threeLineBuffer 3 (atMs 0) (atMs 0) secondBurstRun.dropLast
    beforeSecondBurst rfl
  exact ⟨beforeSecondBurst, rfl, rfl, h.1, (h.2 rfl).1, (h.2 rfl).2 (by decide) (by decide)⟩

end Transmitter

/-! # The emulator's loss step -/

namespace Emulator

theorem draw_bounds (r : Nat) : 1 ≤ draw r ∧ draw r ≤ 100 := by
  unfold draw
  have h : r % 100 < 100 := Nat.mod_lt _ (by norm_num)
  omega

theorem dropPkt_fst (prob : Int) (r : Nat) (dp : Int) :
    (dropPkt prob r dp).1 = decide (prob ≥ draw r) := by
  unfold dropPkt draw
  dsimp only
  by_cases h : prob < ((r % 100 : Nat) : Int) + 1
  · simp only [h, if_true]
    symm
    rw [decide_eq_false_iff_not]
    omega
  · simp only [h, if_false]
    symm
    rw [decide_eq_true_iff]
    omega

/-- C19: with the draw `d = (rand() % 100) + 1`, which lies in `1 .. 100`, `dropPkt`
returns true exactly when `prob ≥ d`, and counts the packet as dropped exactly then; hence
`prob = 0` never drops and `prob = 100` always drops. -/
theorem dropPkt_iff (prob : Int) (r : Nat) (dp : Int) :
    1 ≤ draw r ∧ draw r ≤ 100 ∧
    ((dropPkt prob r dp).1 = true ↔ prob ≥ draw r) ∧
    (dropPkt prob r dp).2 = (if prob ≥ draw r then dp + 1 else dp) ∧
    (dropPkt 0 r dp).1 = false ∧ (dropPkt 100 r dp).1 = true := by
  obtain ⟨h1, h2⟩ := draw_bounds r
  refine ⟨h1, h2, ?_, ?_, ?_, ?_⟩
  · rw [dropPkt_fst, decide_eq_true_iff]
  · have hf := dropPkt_fst prob r dp
    unfold dropPkt at hf ⊢
    dsimp only at hf ⊢
    rw [hf]
    by_cases h : prob ≥ draw r <;> simp [h]
  · rw [dropPkt_fst, decide_eq_false_iff_not]
    omega
  · rw [dropPkt_fst, decide_eq_true_iff]
    omega

theorem filter_lt_range_length (k : Nat) : ∀ n : Nat,
    ((List.range n).filter (fun r => decide (r < k))).length = min k n := by
  intro n
  induction n with
  | zero => simp
  | succ n ih =>
    rw [List.range_succ, List.filter_append, List.length_append, ih]
    by_cases h : n < k
    · have hf : ([n].filter (fun r => decide (r < k))).length = 1 := by simp [h]
      rw [hf]
      omega
    · have hf : ([n].filter (fun r => decide (r < k))).length = 0 := by simp [h]
      rw [hf]
      omega

theorem dropCount_eq (prob : Int) : dropCount prob = min prob.toNat 100 := by
  unfold dropCount
  rw [← filter_lt_range_length prob.toNat 100]
  congr 1
  apply List.filter_congr
  intro r hr
  have hr2 : r < 100 := List.mem_range.mp hr
  rw [dropPkt_fst]
  unfold draw
  rw [Nat.mod_eq_of_lt hr2]
  by_cases h : r < prob.toNat
  · rw [decide_eq_true h, decide_eq_true_iff]
    omega
  · rw [decide_eq_false h, decide_eq_false_iff_not]
    omega

/-- C20: for an integer probability `0 ≤ p ≤ 100` exactly `p` of the 100 draw values make
`dropPkt` drop (the draw depends on `rand()` only through `rand() % 100`, and each residue
`0 .. 99` gives one draw value `1 .. 100`), so a uniform draw drops with rate `p / 100`;
and the number of dropping draws never decreases when `p` grows. -/
theorem dropCount_spec (p q : Int) (r : Nat) (dp : Int) :
    (0 ≤ p → p ≤ 100 → (dropCount p : Int) = p) ∧
    (p ≤ q → dropCount p ≤ dropCount q) ∧
    (dropPkt p r dp).1 = (dropPkt p (r % 100) dp).1 ∧
    (List.range 100).map draw = (List.range 100).map (fun (i : Nat) => (i : Int) + 1) := by
  refine ⟨?_, ?_, ?_, ?_⟩
  · intro h0 h1
    rw [dropCount_eq]
    omega
  · intro h
    rw [dropCount_eq, dropCount_eq]
    omega
  · rw [dropPkt_fst, dropPkt_fst]
    unfold draw
    rw [Nat.mod_mod]
  · apply List.map_congr_left
    intro i hi
    have hi2 : i < 100 := List.mem_range.mp hi
    unfold draw
    rw [Nat.mod_eq_of_lt hi2]

theorem dropCount_spec_witness :
    (0 : Int) ≤ 37 ∧ (37 : Int) ≤ 100 ∧ (37 : Int) ≤ 80 ∧ (dropCount 37 : Int) = 37 ∧
    dropCount 37 ≤ dropCount 80 :=
  ⟨by decide, by decide, by decide,
    (dropCount_spec 37 80 5 0).1 (by decide) (by decide),
    (dropCount_spec 37 80 5 0).2.1 (by decide)⟩

/-! ## Relaying, recording and the source filter -/

set_option maxRecDepth 100000

theorem dropPkt_snd (prob : Int) (r : Nat) (dp : Int) :
    (dropPkt prob r dp).2 = if (dropPkt prob r dp).1 = true then dp + 1 else dp := rfl

theorem pair_exclusive (d : Datagram)
    (hT : d.sender = TRANSMITTER_IP ∧ d.senderPort = TRANSMITTER_PORT) :
    ¬ (d.sender = RECEIVER_IP ∧ d.senderPort = RECEIVER_PORT) := by
  intro hc
  have h : TRANSMITTER_IP = RECEIVER_IP := hT.1.symm.trans hc.1
  exact absurd h (by decide)

/-- The shape of `processDatagram` when the emulator is not paused, the sender address is
one of the two configured ones and `averagePktDelay` returns: the dropped counter follows
the loss step, then the packet is recorded or relayed. -/
theorem processDatagram_running (env : Env) (st : NetworkEmulator) (d : Datagram)
    (hp : st.pause = false) (ha : d.sender = TRANSMITTER_IP ∨ d.sender = RECEIVER_IP)
    (hd : averagePktDelay st.networkDelay env.clock = true) :
    processDatagram env st d =
      if lossDrops env st = true then
        recordPacket { st with droppedPackets := st.droppedPackets + 1 } d
      else relayPacket st d env.writeOk := by
  unfold processDatagram lossDrops
  rw [if_neg (by rw [hp]; decide), if_pos ha, if_pos hd]
  dsimp only
  rw [dropPkt_snd]
  cases h : (dropPkt st.errorRatePercent env.randValue st.droppedPackets).1
  · rfl
  · rfl

theorem processDatagram_foreign (env : Env) (st : NetworkEmulator) (d : Datagram)
    (hT : d.sender ≠ TRANSMITTER_IP) (hR : d.sender ≠ RECEIVER_IP) :
    processDatagram env st d = some st := by
  unfold processDatagram
  by_cases hp : st.pause = true
  · rw [if_pos hp]
  · rw [if_neg hp, if_neg (by simp [hT, hR])]

theorem relayPacket_transmitter (st : NetworkEmulator) (d : Datagram)
    (hT : d.sender = TRANSMITTER_IP ∧ d.senderPort = TRANSMITTER_PORT)
    (hsz : packetSize ≤ d.payload.length) :
    relayPacket st d true =
      some { st with
        retransmits := if retransmitFlag d.payload = true then st.retransmits + 1
                       else st.retransmits
        packetTableRowIndex := st.packetTableRowIndex + 1
        forwarded := st.forwarded ++ [{ payload := d.payload.take packetSize,
                                        host := RECEIVER_IP, port := RECEIVER_PORT }] } := by
  unfold relayPacket writeDatagram updatePacketTable
  rw [if_pos hT, if_neg (by omega)]
  dsimp only
  rw [if_neg (by omega), if_pos rfl]
  split_ifs <;> rfl

theorem relayPacket_receiver (st : NetworkEmulator) (d : Datagram)
    (hR : d.sender = RECEIVER_IP ∧ d.senderPort = RECEIVER_PORT)
    (hsz : packetSize ≤ d.payload.length) :
    relayPacket st d true =
      some { st with
        packetTableRowIndex := st.packetTableRowIndex + 1
        forwarded := st.forwarded ++ [{ payload := d.payload.take packetSize,
                                        host := TRANSMITTER_IP, port := TRANSMITTER_PORT }] } := by
  have hT : ¬ (d.sender = TRANSMITTER_IP ∧ d.senderPort = TRANSMITTER_PORT) :=
    fun hc => pair_exclusive d hc hR
  unfold relayPacket writeDatagram updatePacketTable
  rw [if_neg hT, if_pos hR, if_neg (by omega)]
  dsimp only
  rw [if_neg (by omega), if_pos rfl]

theorem relayPacket_other (st : NetworkEmulator) (d : Datagram) (w : Bool)
    (hT : ¬ (d.sender = TRANSMITTER_IP ∧ d.senderPort = TRANSMITTER_PORT))
    (hR : ¬ (d.sender = RECEIVER_IP ∧ d.senderPort = RECEIVER_PORT)) :
    relayPacket st d w = some st := by
  unfold relayPacket
  rw [if_neg hT, if_neg hR]

theorem recordPacket_configured (st : NetworkEmulator) (d : Datagram)
    (h : (d.sender = TRANSMITTER_IP ∧ d.senderPort = TRANSMITTER_PORT) ∨
      (d.sender = RECEIVER_IP ∧ d.senderPort = RECEIVER_PORT))
    (hsz : packetSize ≤ d.payload.length) :
    recordPacket st d = some (updatePacketTable st) := by
  unfold recordPacket
  by_cases hT : d.sender = TRANSMITTER_IP ∧ d.senderPort = TRANSMITTER_PORT
  · rw [if_pos hT, if_neg (by omega)]
  · rcases h with h | h
    · exact absurd h hT
    · rw [if_neg hT, if_pos h, if_neg (by omega)]

theorem recordPacket_other (st : NetworkEmulator) (d : Datagram)
    (hT : ¬ (d.sender = TRANSMITTER_IP ∧ d.senderPort = TRANSMITTER_PORT))
    (hR : ¬ (d.sender = RECEIVER_IP ∧ d.senderPort = RECEIVER_PORT)) :
    recordPacket st d = some st := by
  unfold recordPacket
  rw [if_neg hT, if_neg hR]

theorem relayPacket_short (st : NetworkEmulator) (d : Datagram) (w : Bool)
    (h : (d.sender = TRANSMITTER_IP ∧ d.senderPort = TRANSMITTER_PORT) ∨
      (d.sender = RECEIVER_IP ∧ d.senderPort = RECEIVER_PORT))
    (hsz : d.payload.length < packetSize) : relayPacket st d w = none := by
  unfold relayPacket
  by_cases hT : d.sender = TRANSMITTER_IP ∧ d.senderPort = TRANSMITTER_PORT
  · rw [if_pos hT, if_pos hsz]
  · rcases h with h | h
    · exact absurd h hT
    · rw [if_neg hT, if_pos h, if_pos hsz]

/-- C21, as the code has it: for a datagram processed while the emulator is not paused,
when the delay step returns, the loss step lets the datagram pass and `writeDatagram`
succeeds: if the datagram holds at least `packetSize` bytes and comes from
(`TRANSMITTER_IP`, `TRANSMITTER_PORT`), exactly one `writeDatagram` call is made, to
(`RECEIVER_IP`, `RECEIVER_PORT`), with the first `packetSize` bytes of the datagram; if it
comes from (`RECEIVER_IP`, `RECEIVER_PORT`), likewise to (`TRANSMITTER_IP`,
`TRANSMITTER_PORT`); for every other source no call is made.  The bytes handed over are
the whole datagram exactly when it is frame-sized; a longer datagram is cut, and for a
shorter one from a configured pair the processing reads past its end and is undefined. -/
theorem relay_to_peer (env : Env) (st : NetworkEmulator) (d : Datagram)
    (hp : st.pause = false) (hd : averagePktDelay st.networkDelay env.clock = true)
    (hl : lossDrops env st = false) (hw : env.writeOk = true) :
    (d.sender = TRANSMITTER_IP ∧ d.senderPort = TRANSMITTER_PORT →
      packetSize ≤ d.payload.length →
      ∃ st1, processDatagram env st d = some st1 ∧
        st1.forwarded = st.forwarded
          ++ [{ payload := d.payload.take packetSize, host := RECEIVER_IP,
                port := RECEIVER_PORT }]) ∧
    (d.sender = RECEIVER_IP ∧ d.senderPort = RECEIVER_PORT →
      packetSize ≤ d.payload.length →
      ∃ st1, processDatagram env st d = some st1 ∧
        st1.forwarded = st.forwarded
          ++ [{ payload := d.payload.take packetSize, host := TRANSMITTER_IP,
                port := TRANSMITTER_PORT }]) ∧
    (¬ (d.sender = TRANSMITTER_IP ∧ d.senderPort = TRANSMITTER_PORT) →
      ¬ (d.sender = RECEIVER_IP ∧ d.senderPort = RECEIVER_PORT) →
      ∃ st1, processDatagram env st d = some st1 ∧ st1.forwarded = st.forwarded) ∧
    (d.payload.take packetSize = d.payload ↔ d.payload.length ≤ packetSize) ∧
    ((d.sender = TRANSMITTER_IP ∧ d.senderPort = TRANSMITTER_PORT) ∨
        (d.sender = RECEIVER_IP ∧ d.senderPort = RECEIVER_PORT) →
      d.payload.length < packetSize → processDatagram env st d = none) := by
  refine ⟨?_, ?_, ?_, List.take_eq_self_iff _, ?_⟩
  · intro hT hle
    rw [processDatagram_running env st d hp (Or.inl hT.1) hd, hl, if_neg (by decide), hw,
      relayPacket_transmitter st d hT hle]
    exact ⟨_, rfl, rfl⟩
  · intro hR hle
    rw [processDatagram_running env st d hp (Or.inr hR.1) hd, hl, if_neg (by decide), hw,
      relayPacket_receiver st d hR hle]
    exact ⟨_, rfl, rfl⟩
  · intro hT hR
    by_cases ha : d.sender = TRANSMITTER_IP ∨ d.sender = RECEIVER_IP
    · rw [processDatagram_running env st d hp ha hd, hl, if_neg (by decide),
        relayPacket_other st d _ hT hR]
      exact ⟨_, rfl, rfl⟩
    · rw [processDatagram_foreign env st d (fun hc => ha (Or.inl hc))
        (fun hc => ha (Or.inr hc))]
      exact ⟨_, rfl, rfl⟩
  · intro hpair hsz
    have ha : d.sender = TRANSMITTER_IP ∨ d.sender = RECEIVER_IP := by
      rcases hpair with h | h
      · exact Or.inl h.1
      · exact Or.inr h.1
    rw [processDatagram_running env st d hp ha hd, hl, if_neg (by decide),
      relayPacket_short st d _ hpair hsz]

theorem relay_to_peer_witness :
    ∃ st1, processDatagram calmEnv (running 0) frameFromTransmitter = some st1 ∧
      st1.forwarded = [{ payload := frameFromTransmitter.payload, host := RECEIVER_IP,
                         port := RECEIVER_PORT }] := by
  obtain ⟨st1, h1, h2⟩ := (relay_to_peer calmEnv (running 0) frameFromTransmitter rfl rfl rfl
    rfl).1 ⟨rfl, rfl⟩ (by decide)
  exact ⟨st1, h1, h2⟩

/-- C21 fails as stated: the 274-byte datagram from (`TRANSMITTER_IP`, `TRANSMITTER_PORT`)
is processed while the emulator is not paused and passes the loss step; one datagram is
forwarded to the receiver, but with 273 bytes: its content is not that of the datagram
received, whose last byte 9 is missing. -/
theorem oversized_relay_is_cut :
    (running 0).pause = false ∧ lossDrops calmEnv (running 0) = false ∧
    oversizedDatagram.sender = TRANSMITTER_IP ∧
    oversizedDatagram.senderPort = TRANSMITTER_PORT ∧
    oversizedDatagram.payload.getLast? = some 9 ∧
    ∃ st1 f, processDatagram calmEnv (running 0) oversizedDatagram = some st1 ∧
      st1.forwarded = [f] ∧ f.host = RECEIVER_IP ∧ f.port = RECEIVER_PORT ∧
      f.payload.length = 273 ∧ f.payload.getLast? = some 0 ∧
      f.payload ≠ oversizedDatagram.payload :=
  ⟨rfl, rfl, rfl, rfl, by decide, _, _, rfl, rfl, rfl, rfl, by decide, by decide, by decide⟩

/-- C22, as the code has it: a datagram whose sender address is neither `TRANSMITTER_IP`
nor `RECEIVER_IP` is discarded before the delay and loss steps, whatever the clock and
`rand()` do: the state is unchanged.  A datagram from one of the two addresses but from a
(address, port) pair that is neither configured pair goes through the delay and loss steps
when the emulator is not paused: it is never forwarded and leaves the row index and the
retransmit counter alone, but the dropped counter is incremented when the loss step drops
it. -/
theorem foreign_source_discarded (env : Env) (st : NetworkEmulator) (d : Datagram)
    (hT : ¬ (d.sender = TRANSMITTER_IP ∧ d.senderPort = TRANSMITTER_PORT))
    (hR : ¬ (d.sender = RECEIVER_IP ∧ d.senderPort = RECEIVER_PORT)) :
    (d.sender ≠ TRANSMITTER_IP → d.sender ≠ RECEIVER_IP →
      ∀ env2 : Env, processDatagram env2 st d = some st) ∧
    (d.sender = TRANSMITTER_IP ∨ d.sender = RECEIVER_IP → st.pause = false →
      (averagePktDelay st.networkDelay env.clock = false → processDatagram env st d = none) ∧
      (averagePktDelay st.networkDelay env.clock = true →
        processDatagram env st d =
          some { st with
                 droppedPackets := st.droppedPackets + (if lossDrops env st = true then 1 else 0) })) := by
  constructor
  · intro h1 h2 env2
    exact processDatagram_foreign env2 st d h1 h2
  · intro ha hp
    constructor
    · intro hd
      unfold processDatagram
      rw [if_neg (by rw [hp]; decide), if_pos ha, if_neg (by rw [hd]; decide)]
    · intro hd
      rw [processDatagram_running env st d hp ha hd]
      cases h : lossDrops env st
      · rw [if_neg (by decide), relayPacket_other st d _ hT hR, if_neg (by decide)]
        simp
      · rw [if_pos rfl, recordPacket_other _ d hT hR, if_pos rfl]

theorem foreign_source_discarded_witness :
    (∀ env2 : Env, processDatagram env2 (running 0)
      { wrongPortDatagram with sender := "10.0.0.1" } = some (running 0)) ∧
    processDatagram calmEnv (running 0) wrongPortDatagram =
      some { running 0 with
             droppedPackets := (running 0).droppedPackets
               + (if lossDrops calmEnv (running 0) = true then 1 else 0) } :=
  ⟨(foreign_source_discarded calmEnv (running 0)
      { wrongPortDatagram with sender := "10.0.0.1" } (by decide) (by decide)).1
      (by decide) (by decide),
   ((foreign_source_discarded calmEnv (running 0) wrongPortDatagram (by decide) (by decide)).2
      (Or.inl rfl) rfl).2 rfl⟩

/-- C22 fails as stated: a datagram from `TRANSMITTER_IP` but from port 12345, a source that
is neither configured (address, port) pair, is not discarded before the delay and loss
steps.  With an error rate of 100 the loss step drops it and the dropped counter goes from
0 to 1; and if `averagePktDelay` does not return (no clock readings), neither does the
processing of this datagram. -/
theorem wrong_port_counted_as_dropped :
    ¬ (wrongPortDatagram.sender = TRANSMITTER_IP ∧
        wrongPortDatagram.senderPort = TRANSMITTER_PORT) ∧
    ¬ (wrongPortDatagram.sender = RECEIVER_IP ∧ wrongPortDatagram.senderPort = RECEIVER_PORT) ∧
    (running 100).droppedPackets = 0 ∧
    processDatagram calmEnv (running 100) wrongPortDatagram
      = some { running 100 with droppedPackets := 1 } ∧
    processDatagram { calmEnv with clock := [] } (running 100) wrongPortDatagram = none :=
  ⟨by decide, by decide, rfl, rfl, rfl⟩

theorem retransmitFlag_take (payload : List Nat) :
    retransmitFlag (payload.take packetSize) = retransmitFlag payload := by
  unfold retransmitFlag
  congr 1
  simp only [List.getD_eq_getElem?_getD]
  rw [List.getElem?_take_of_lt (by decide)]

/-- C23, as the code has it: the size of a datagram is never compared with `packetSize`.  A
datagram at least as long as a frame is processed exactly as its first `packetSize` bytes
are (so a longer datagram from a configured peer that passes the loss step is forwarded,
cut to `packetSize` bytes); for a shorter datagram from a configured peer that reaches the
loss step the processing reads past the end of the buffer and is undefined. -/
theorem size_not_checked (env : Env) (st : NetworkEmulator) (d : Datagram) :
    (packetSize ≤ d.payload.length →
      processDatagram env st d
        = processDatagram env st { d with payload := d.payload.take packetSize }) ∧
    (d.payload.length < packetSize → st.pause = false →
      averagePktDelay st.networkDelay env.clock = true →
      (d.sender = TRANSMITTER_IP ∧ d.senderPort = TRANSMITTER_PORT) ∨
        (d.sender = RECEIVER_IP ∧ d.senderPort = RECEIVER_PORT) →
      processDatagram env st d = none) := by
  constructor
  · intro hsz
    have hlen : (d.payload.take packetSize).length = packetSize := by
      rw [List.length_take]
      omega
    have hn1 : ¬ d.payload.length < packetSize := by omega
    have hn2 : ¬ (d.payload.take packetSize).length < packetSize := by omega
    have htt : (d.payload.take packetSize).take packetSize = d.payload.take packetSize := by
      rw [List.take_take, min_self]
    unfold processDatagram relayPacket recordPacket writeDatagram
    simp only [hn1, hn2, if_false, retransmitFlag_take, htt]
  · intro hsz hp hd hpair
    have ha : d.sender = TRANSMITTER_IP ∨ d.sender = RECEIVER_IP := by
      rcases hpair with h | h
      · exact Or.inl h.1
      · exact Or.inr h.1
    rw [processDatagram_running env st d hp ha hd]
    unfold relayPacket recordPacket
    rcases hpair with h | h
    · simp only [h, and_self, if_true, hsz, ite_self]
    · have hT : ¬ (d.sender = TRANSMITTER_IP ∧ d.senderPort = TRANSMITTER_PORT) :=
        fun hc => pair_exclusive d hc h
      rw [if_neg hT, if_pos h, if_pos hsz, if_neg hT, if_pos h, if_pos hsz]
      simp only [ite_self]

theorem size_not_checked_witness :
    processDatagram calmEnv (running 0) oversizedDatagram
      = processDatagram calmEnv (running 0)
          { oversizedDatagram with payload := oversizedDatagram.payload.take packetSize } ∧
    processDatagram calmEnv (running 0) { frameFromTransmitter with payload := [7] } = none :=
  ⟨(size_not_checked calmEnv (running 0) oversizedDatagram).1 (by decide),
   (size_not_checked calmEnv (running 0) { frameFromTransmitter with payload := [7] }).2
      (by decide) rfl rfl (Or.inl ⟨rfl, rfl⟩)⟩

/-- C23 fails as stated: a datagram of 274 bytes from the transmitter, one byte longer than
a frame, is not discarded; with no loss it is forwarded to the receiver, cut to its first
273 bytes. -/
theorem oversized_datagram_forwarded :
    oversizedDatagram.payload.length = 274 ∧ oversizedDatagram.payload.length ≠ packetSize ∧
    ∃ st1, processDatagram calmEnv (running 0) oversizedDatagram = some st1 ∧
      st1.forwarded = [{ payload := oversizedDatagram.payload.take 273, host := RECEIVER_IP,
                         port := RECEIVER_PORT }] :=
  ⟨rfl, by decide, _, rfl, rfl⟩

/-- C24: every datagram processed while the emulator is not paused that comes from the
transmitter's or the receiver's (address, port) pair and holds a whole frame, when the
delay step returns (and, if the datagram is relayed, `writeDatagram` succeeds), raises the
packet count `packetTableRowIndex - 1` by exactly one, whether it is dropped or forwarded;
the dropped counter is incremented exactly when the loss step drops the datagram; a dropped
datagram is not forwarded, and one that is not dropped is forwarded once. -/
theorem counted_dropped_or_forwarded (env : Env) (st : NetworkEmulator) (d : Datagram)
    (hp : st.pause = false)
    (hpair : (d.sender = TRANSMITTER_IP ∧ d.senderPort = TRANSMITTER_PORT) ∨
      (d.sender = RECEIVER_IP ∧ d.senderPort = RECEIVER_PORT))
    (hsz : packetSize ≤ d.payload.length)
    (hd : averagePktDelay st.networkDelay env.clock = true)
    (hw : lossDrops env st = false → env.writeOk = true) :
    ∃ st1, processDatagram env st d = some st1 ∧
      packetCount st1 = packetCount st + 1 ∧
      st1.droppedPackets = st.droppedPackets + (if lossDrops env st = true then 1 else 0) ∧
      (lossDrops env st = true → st1.forwarded = st.forwarded) ∧
      (lossDrops env st = false → st1.forwarded.length = st.forwarded.length + 1) := by
  have ha : d.sender = TRANSMITTER_IP ∨ d.sender = RECEIVER_IP := by
    rcases hpair with h | h
    · exact Or.inl h.1
    · exact Or.inr h.1
  rw [processDatagram_running env st d hp ha hd]
  cases h : lossDrops env st
  · rw [if_neg (by decide), hw h]
    rcases hpair with hT | hR
    · rw [relayPacket_transmitter st d hT hsz]
      refine ⟨_, rfl, ?_, by simp, fun hc => absurd hc (by decide), fun _ => by simp⟩
      unfold packetCount
      dsimp only
      omega
    · rw [relayPacket_receiver st d hR hsz]
      refine ⟨_, rfl, ?_, by simp, fun hc => absurd hc (by decide), fun _ => by simp⟩
      unfold packetCount
      dsimp only
      omega
  · rw [if_pos rfl, recordPacket_configured _ d hpair hsz]
    refine ⟨_, rfl, ?_, by simp [updatePacketTable], fun _ => rfl,
      fun hc => absurd hc (by decide)⟩
    unfold packetCount updatePacketTable
    dsimp only
    omega

theorem counted_dropped_or_forwarded_witness :
    lossDrops calmEnv (running 100) = true ∧
    ∃ st1, processDatagram calmEnv (running 100) frameFromTransmitter = some st1 ∧
      packetCount st1 = packetCount (running 100) + 1 ∧
      st1.droppedPackets = (running 100).droppedPackets
        + (if lossDrops calmEnv (running 100) = true then 1 else 0) ∧
      (lossDrops calmEnv (running 100) = true → st1.forwarded = (running 100).forwarded) ∧
      (lossDrops calmEnv (running 100) = false →
        st1.forwarded.length = (running 100).forwarded.length + 1) :=
  ⟨rfl, counted_dropped_or_forwarded calmEnv (running 100) frameFromTransmitter rfl
    (Or.inl ⟨rfl, rfl⟩) (by decide) rfl (fun _ => rfl)⟩

end Emulator

/-! # In-order delivery at the receiver -/

namespace Receiver

open Transmitter (Packet PacketType INITIAL_SEQ_NUM seqRange)

theorem seqRange_succ_last (q : Int) (m : Nat) :
    seqRange q (m + 1) = seqRange q m ++ [q + (m : Int)] := by
  unfold seqRange
  rw [List.range_succ, List.map_append]
  rfl

theorem seqRange_getElem? (q : Int) (m i : Nat) (h : i < m) :
    (seqRange q m)[i]? = some (q + (i : Int)) := by
  unfold seqRange
  rw [List.getElem?_map, List.getElem?_range h]
  rfl

theorem good_deliver (frames : List Packet) (s : RecvState) (d : List Nat)
    (buf : List (Int × List Nat)) (hg : Good frames s)
    (hsrc : ∃ f ∈ frames, f.packetType = PacketType.DATA ∧ f.seqNum = s.nextSeqNum ∧ f.data = d)
    (hbuf : ∀ e ∈ buf, e ∈ s.buffer) :
    Good frames { s with delivered := s.delivered ++ [(s.nextSeqNum, d)], buffer := buf,
                         nextSeqNum := s.nextSeqNum + 1 } := by
  refine ⟨?_, ?_, ?_, ?_⟩
  · show s.nextSeqNum + 1 = INITIAL_SEQ_NUM + ((s.delivered ++ [(s.nextSeqNum, d)]).length : Int)
    rw [List.length_append, hg.next_eq]
    simp only [List.length_cons, List.length_nil, Nat.cast_add, Nat.cast_one, zero_add]
    ring
  · show (s.delivered ++ [(s.nextSeqNum, d)]).map Prod.fst
      = seqRange INITIAL_SEQ_NUM (s.delivered ++ [(s.nextSeqNum, d)]).length
    have h1 : s.delivered.map Prod.fst = seqRange INITIAL_SEQ_NUM s.delivered.length := hg.seqs_eq
    rw [List.map_append, h1, List.length_append]
    simp only [List.length_cons, List.length_nil, zero_add, List.map_cons, List.map_nil]
    rw [seqRange_succ_last, hg.next_eq]
  · intro e he
    rcases List.mem_append.mp he with h | h
    · exact hg.delivered_src e h
    · simp only [List.mem_singleton] at h
      subst h
      exact hsrc
  · intro e he
    exact hg.buffer_src e (hbuf e he)

theorem good_flushBuffer (frames : List Packet) (k : Nat) : ∀ s : RecvState, Good frames s →
    Good frames (flushBuffer k s) := by
  induction k with
  | zero => intro s hg; exact hg
  | succ k ih =>
    intro s hg
    unfold flushBuffer
    cases hl : s.buffer.lookup s.nextSeqNum with
    | none => exact hg
    | some payload =>
      dsimp only
      apply ih
      have hmem : (s.nextSeqNum, payload) ∈ s.buffer := by
        have := List.lookup_eq_some_iff.mp hl
        obtain ⟨l1, l2, h1, _⟩ := this
        rw [h1]
        simp
      obtain ⟨f, hf, h1, h2, h3⟩ := hg.buffer_src _ hmem
      exact good_deliver frames s payload _ hg ⟨f, hf, h1, h2, h3⟩
        (fun e he => (List.mem_filter.mp he).1)

/-- The bound `buffer.length` on the rounds of `flushBuffer` is enough: afterwards the
buffer holds no entry for `nextSeqNum`, the drain has reached a gap. -/
theorem flushBuffer_reaches_gap (k : Nat) : ∀ s : RecvState, s.buffer.length ≤ k →
    (flushBuffer k s).buffer.lookup (flushBuffer k s).nextSeqNum = none := by
  induction k with
  | zero =>
    intro s hs
    have hnil : s.buffer = [] := List.length_eq_zero.mp (Nat.le_zero.mp hs)
    simp [flushBuffer, hnil]
  | succ k ih =>
    intro s hs
    unfold flushBuffer
    cases hl : s.buffer.lookup s.nextSeqNum with
    | none => exact hl
    | some payload =>
      dsimp only
      apply ih
      dsimp only
      have hmem : (s.nextSeqNum, payload) ∈ s.buffer := by
        obtain ⟨l1, l2, h1, _⟩ := List.lookup_eq_some_iff.mp hl
        rw [h1]
        simp
      have hlt : (s.buffer.filter (fun e => e.1 ≠ s.nextSeqNum)).length < s.buffer.length := by
        apply List.length_filter_lt_length_iff_exists.mpr
        exact ⟨_, hmem, by simp⟩
      omega

theorem good_processFrame (frames : List Packet) (s : RecvState) (f : Packet)
    (hf : f ∈ frames) (hg : Good frames s) : Good frames (processFrame s f) := by
  unfold processFrame
  split_ifs with ht
  · exact hg
  · cases hk : f.packetType with
    | EOT =>
      dsimp only
      have h := good_flushBuffer frames s.buffer.length s hg
      exact ⟨h.next_eq, h.seqs_eq, h.delivered_src, h.buffer_src⟩
    | ACK => exact hg
    | DATA =>
      dsimp only
      have hg1 : Good frames { s with acked := s.acked ++ [f.seqNum] } :=
        ⟨hg.next_eq, hg.seqs_eq, hg.delivered_src, hg.buffer_src⟩
      split_ifs with h1 h2 h3
      · exact hg1
      · apply good_flushBuffer
        have h := good_deliver frames s f.data s.buffer hg ⟨f, hf, hk, h2, rfl⟩
          (fun e he => he)
        have h2' : f.seqNum = s.nextSeqNum := h2
        rw [h2']
        exact ⟨h.next_eq, h.seqs_eq, h.delivered_src, h.buffer_src⟩
      · exact hg1
      · refine ⟨hg.next_eq, hg.seqs_eq, hg.delivered_src, ?_⟩
        intro e he
        have he2 : e ∈ s.buffer ++ [(f.seqNum, f.data)] := he
        rcases List.mem_append.mp he2 with h | h
        · exact hg.buffer_src e h
        · simp only [List.mem_singleton] at h
          subst h
          exact ⟨f, hf, hk, rfl, rfl⟩

theorem good_foldl (frames : List Packet) : ∀ rest : List Packet, (∀ f ∈ rest, f ∈ frames) →
    ∀ s : RecvState, Good frames s → Good frames (rest.foldl processFrame s) := by
  intro rest
  induction rest with
  | nil => intro _ s hg; exact hg
  | cons f rest ih =>
    intro hsub s hg
    rw [List.foldl_cons]
    exact ih (fun g hgm => hsub g (List.mem_cons_of_mem _ hgm)) _
      (good_processFrame frames s f (hsub f (List.mem_cons_self _ _)) hg)

theorem good_receive (frames : List Packet) : Good frames (receive frames) := by
  unfold receive
  apply good_foldl frames frames (fun f hf => hf)
  exact ⟨rfl, rfl, fun e he => absurd he (by simp [initState]),
    fun e he => absurd he (by simp [initState])⟩

/-- C18 (receiver modelled from the spec): for every list of arriving frames, in any order
and with any duplicates, the sequence numbers passed to `saveData` are
`INITIAL_SEQ_NUM, INITIAL_SEQ_NUM + 1, ...` in this order: the `i`-th delivery has sequence
number `INITIAL_SEQ_NUM + i`, so they are strictly increasing, without gap and without
repetition; each delivered payload is that of an arrived DATA frame with that number. -/
theorem receiver_in_order (frames : List Packet) :
    deliveredSeqs (receive frames)
      = seqRange INITIAL_SEQ_NUM (deliveredSeqs (receive frames)).length ∧
    (∀ i, i < (deliveredSeqs (receive frames)).length →
      (deliveredSeqs (receive frames))[i]? = some (INITIAL_SEQ_NUM + (i : Int))) ∧
    (deliveredSeqs (receive frames)).Pairwise (fun a b => a < b) ∧
    (deliveredSeqs (receive frames)).Nodup ∧
    (∀ e ∈ (receive frames).delivered, ∃ f ∈ frames, f.packetType = PacketType.DATA ∧
      f.seqNum = e.1 ∧ f.data = e.2) := by
  have hg := good_receive frames
  have hlen : (deliveredSeqs (receive frames)).length = (receive frames).delivered.length := by
    simp [deliveredSeqs]
  have hseq : deliveredSeqs (receive frames)
      = seqRange INITIAL_SEQ_NUM (deliveredSeqs (receive frames)).length := by
    rw [hlen]
    exact hg.seqs_eq
  have hpw : (deliveredSeqs (receive frames)).Pairwise (fun a b => a < b) := by
    rw [hseq]
    exact Transmitter.seqRange_pairwise_lt _ _
  refine ⟨hseq, ?_, hpw, ?_, hg.delivered_src⟩
  · intro i hi
    rw [hseq]
    exact seqRange_getElem? _ _ i hi
  · exact hpw.imp (fun h => ne_of_lt h)

theorem receiver_in_order_witness :
    (receive shuffledFrames).delivered = [(1, [97, 10]), (2, [98, 10]), (3, [99, 10])] ∧
    (receive shuffledFrames).acked = [3, 2, 3, 1] ∧
    deliveredSeqs (receive shuffledFrames)
      = seqRange INITIAL_SEQ_NUM (deliveredSeqs (receive shuffledFrames)).length ∧
    (∀ i, i < (deliveredSeqs (receive shuffledFrames)).length →
      (deliveredSeqs (receive shuffledFrames))[i]? = some (INITIAL_SEQ_NUM + (i : Int))) ∧
    (deliveredSeqs (receive shuffledFrames)).Pairwise (fun a b => a < b) ∧
    (deliveredSeqs (receive shuffledFrames)).Nodup ∧
    (∀ e ∈ (receive shuffledFrames).delivered, ∃ f ∈ shuffledFrames,
      f.packetType = PacketType.DATA ∧ f.seqNum = e.1 ∧ f.data = e.2) :=
  ⟨by decide, by decide, receiver_in_order shuffledFrames⟩

end Receiver
